import Mathlib

/-!
cortx-s3server: the Redis-backed fake KVS and the multipart part upload.

A shallow embedding of `server/s3_fake_clovis_redis_kvs.cc` (the key-value shim
over a Redis sorted set) and of `server/s3_put_multiobject_action.cc` (the
multipart PUT-part action), followed by theorems about the embedded code.

Conventions
* a byte is a natural number below 256, a buffer is a list of bytes;
* a C pointer into a buffer is an offset, a null pointer is `none`;
* a function whose C original dereferences a null or dangling pointer returns
  `none` at that point;
* the Redis server is outside the repository: its three commands used by the
  shim are modelled on a sorted list of members ordered byte-wise, executed in
  issue order;
* the collaborators of the action (request, metadata objects, writer, auth
  client, task list) are outside these two files: a call on one of them is
  recorded in a trace, and what a collaborator reports is a field of the state.
-/

namespace S3Kvs

/-! ## Bytes and C strings -/

/-- One byte of a buffer (values below 256). -/
abbrev Byte := Nat

/-- Byte buffer with an explicit length (`buf`, `len`). -/
abbrev Bytes := List Nat

/-- Every element is a byte. -/
def isBytes (b : Bytes) : Bool := b.all (fun x => decide (x < 256))

/-- The C string starting at a buffer: the bytes before the first NUL.  Buffers
handed to `strlen`/`strdup` here are NUL-terminated by their allocator (calloc
with one spare byte, or hiredis), so running off the list means stopping at
that terminator. -/
def cstr (buf : Bytes) : Bytes := buf.takeWhile (fun b => b != 0)

/-- C `strlen`. -/
def strlen (buf : Bytes) : Nat := (cstr buf).length

/-- errno value `ENOENT`. -/
def ENOENT : Int := 2

/-- errno value `ETIMEDOUT`. -/
def ETIMEDOUT : Int := 110

/-! ## Encoding helpers of the shim -/

/-- `parse_key`: the key is the beginning of the buffer (offset 0). -/
def parse_key (_kv : Bytes) (_kv_size : Nat) : Nat := 0

/-- `parse_val`: offset of the value, after the key and the zero byte, or null
when no byte follows the separator within `kv_size`. -/
def parse_val (kv : Bytes) (kv_size : Nat) : Option Nat :=
  let klen := strlen kv
  if klen + 1 < kv_size then some (klen + 1) else none

/-- `redis_key`: an allocated buffer with its length. -/
structure redis_key where
  len : Nat
  buf : Bytes
deriving DecidableEq, Repr

/-- `prepare_rkey`: a zeroed buffer of `klen + vlen + 2` bytes with the key
copied at offset 0 and the value at offset `klen + 1`. -/
def prepare_rkey (key : Bytes) (klen : Nat) (val : Bytes) (vlen : Nat) : redis_key :=
  let len := klen + vlen + 1 + 1
  let rkey := key.take klen ++ [0] ++ val.take vlen ++ [0]
  { len := len, buf := rkey }

/-- `prepare_border`: `'['` or `'('`, the string, and `0xFF` when `z`. -/
def prepare_border (str : Bytes) (slen : Nat) (incl : Bool) (z : Bool) : redis_key :=
  let len := slen + 1 + (if z then 1 else 0)
  let brdr := [if incl then 0x5B else 0x28] ++ str.take slen ++ (if z then [0xFF] else [])
  { len := len, buf := brdr }

/-! ## The Redis sorted set (environment) -/

/-- Byte-wise lexicographic order on buffers (`memcmp` on the common length,
then the shorter one first), the order of sorted-set members of equal score. -/
def lexLt : Bytes → Bytes → Bool
  | [], [] => false
  | [], _ :: _ => true
  | _ :: _, [] => false
  | a :: as, b :: bs => decide (a < b) || (a == b && lexLt as bs)

/-- Non-strict version of `lexLt`. -/
def lexLe (a b : Bytes) : Bool := !lexLt b a

/-- One border of a lex range as Redis parses it. -/
inductive LexBound where
  | negInf
  | posInf
  | incl (b : Bytes)
  | excl (b : Bytes)
deriving DecidableEq, Repr

/-- Redis parsing of a range item: `-`, `+`, `[str` or `(str`. -/
def parseLexBound : Bytes → Option LexBound
  | [0x2D] => some .negInf
  | [0x2B] => some .posInf
  | 0x5B :: r => some (.incl r)
  | 0x28 :: r => some (.excl r)
  | _ => none

/-- Member is not below the lower border. -/
def aboveMin (mn : LexBound) (m : Bytes) : Bool :=
  match mn with
  | .negInf => true
  | .posInf => false
  | .incl b => lexLe b m
  | .excl b => lexLt b m

/-- Member is not above the upper border. -/
def belowMax (mx : LexBound) (m : Bytes) : Bool :=
  match mx with
  | .negInf => false
  | .posInf => true
  | .incl b => lexLe m b
  | .excl b => lexLt m b

/-- Member lies in the lex range. -/
def inLexRange (mn mx : LexBound) (m : Bytes) : Bool := aboveMin mn m && belowMax mx m

/-- One sorted set: its members in ascending byte-wise order (all scores are 0). -/
abbrev Store := List Bytes

/-- Members are strictly ascending. -/
def StoreSorted (s : Store) : Prop := s.Pairwise (fun a b => lexLt a b = true)

instance (s : Store) : Decidable (StoreSorted s) := by
  unfold StoreSorted
  infer_instance

/-- Insert a member at its place in the order; an equal member is kept as is. -/
def insertMember (m : Bytes) : Store → Store
  | [] => [m]
  | x :: xs => if lexLt m x then m :: x :: xs else if m = x then x :: xs else x :: insertMember m xs

/-- Typed reply of the Redis client (`redisReply`). -/
inductive RedisReply where
  | nil
  | str (s : Bytes)
  | status (s : Bytes)
  | integer (i : Int)
  | array (elements : List RedisReply)
  | error (s : Bytes)
deriving Repr

/-- The three command shapes sent by the shim, with their binary arguments. -/
inductive RedisCmd where
  | zrangebylex (mn mx : Bytes) (limit : Nat)
  | zadd (member : Bytes)
  | zremrangebylex (mn mx : Bytes)
deriving DecidableEq, Repr

/-- Effect of one command on the sorted set and its reply: `ZRANGEBYLEX key min
max LIMIT 0 limit`, `ZADD key 0 member`, `ZREMRANGEBYLEX key min max`. -/
def redisExec (s : Store) : RedisCmd → Store × RedisReply
  | .zrangebylex mn mx limit =>
    match parseLexBound mn, parseLexBound mx with
    | some lo, some hi =>
      (s, .array (((s.filter (inLexRange lo hi)).take limit).map RedisReply.str))
    | _, _ => (s, .error [])
  | .zadd member =>
    if member ∈ s then (s, .integer 0) else (insertMember member s, .integer 1)
  | .zremrangebylex mn mx =>
    match parseLexBound mn, parseLexBound mx with
    | some lo, some hi =>
      (s.filter (fun m => !inLexRange lo hi m), .integer ((s.filter (inLexRange lo hi)).length))
    | _, _ => (s, .error [])

/-! ## Contexts of one operation -/

/-- Tag of a reply (`redisReply::type`). -/
inductive ReplyType where
  | REDIS_REPLY_STRING
  | REDIS_REPLY_ARRAY
  | REDIS_REPLY_INTEGER
  | REDIS_REPLY_NIL
  | REDIS_REPLY_STATUS
  | REDIS_REPLY_ERROR
deriving DecidableEq, Repr

/-- Tag carried by a reply. -/
def RedisReply.type : RedisReply → ReplyType
  | .nil => .REDIS_REPLY_NIL
  | .str _ => .REDIS_REPLY_STRING
  | .status _ => .REDIS_REPLY_STATUS
  | .integer _ => .REDIS_REPLY_INTEGER
  | .array _ => .REDIS_REPLY_ARRAY
  | .error _ => .REDIS_REPLY_ERROR

/-- Slot `i` of `s3_clovis_kvs_op_context`: `keys->ov_buf[i]` with its count,
`values->ov_buf[i]` with its count (a null buffer is `none`), and `rcs[i]`.
The three vectors of the context have the same number of slots. -/
structure KvSlot where
  key : Option Bytes
  val : Option Bytes
  rc : Int
deriving DecidableEq, Repr

/-- `s3_clovis_context_obj`, the context owned by the caller of the operation:
the failure marker and the key-value vectors reached through
`application_context->get_clovis_kvs_op_ctx()`. -/
structure s3_clovis_context_obj where
  is_fake_failure : Int
  kv : List KvSlot
deriving DecidableEq, Repr

/-- `s3_redis_context_obj`, the context of the shim for one operation;
`skip_size` is the length of `skip_value`. -/
structure s3_redis_context_obj where
  prev_ctx : s3_clovis_context_obj
  async_ops_cnt : Int
  replies_cnt : Int
  had_error : Bool
  skip_value : Bytes
deriving DecidableEq, Repr

/-- What `m0_clovis_op::op_datum` points to. -/
inductive OpDatum where
  | caller (ctx : s3_clovis_context_obj)
  | redis (ctx : s3_redis_context_obj)
deriving DecidableEq, Repr

/-- Completion signalled to the caller. -/
inductive OpSignal where
  | s3_clovis_op_stable
  | s3_clovis_op_failed
deriving DecidableEq, Repr

/-- The fields of `m0_clovis_op` used by the shim, and the completions
signalled so far, oldest first. -/
structure m0_clovis_op where
  op_datum : OpDatum
  op_rc : Int
  signals : List OpSignal
deriving DecidableEq, Repr

/-- `finalize_op` on a non-null op: nothing while replies are outstanding;
otherwise the prior context is restored and the op is signalled stable, or
failed with `-ETIMEDOUT` and the fake-failure marker.  Reading `op_datum` as a
shim context after it was restored is a dangling access. -/
def finalize_op (op : m0_clovis_op) : Option m0_clovis_op :=
  match op.op_datum with
  | .caller _ => none
  | .redis redis_ctx =>
    if redis_ctx.async_ops_cnt > redis_ctx.replies_cnt then some op
    else if !redis_ctx.had_error then
      some { op with op_datum := .caller redis_ctx.prev_ctx,
                     signals := op.signals ++ [.s3_clovis_op_stable] }
    else
      some { op with op_datum := .caller { redis_ctx.prev_ctx with is_fake_failure := 1 },
                     op_rc := -ETIMEDOUT,
                     signals := op.signals ++ [.s3_clovis_op_failed] }

/-- Result of `redis_reply_check`. -/
inductive RedisRequestState where
  | REPL_ERR
  | REPL_DONE
  | REPL_CONTINUE
deriving DecidableEq, Repr

/-- `redis_reply_check`: `glob_err` is `glob_redis_ctx->err` being set,
`privdata` the per-command context (its `processing_idx`), null when none was
registered.  Counts the reply, and marks the operation errored on a client
error, a null reply or an unexpected tag. -/
def redis_reply_check (glob_err : Bool) (async_redis_reply : Option RedisReply)
    (privdata : Option Nat) (exp_types : List ReplyType) (op : m0_clovis_op) :
    Option (RedisRequestState × m0_clovis_op) :=
  match privdata with
  | none => some (.REPL_ERR, op)
  | some _ =>
    match op.op_datum with
    | .caller _ => none
    | .redis redis_ctx =>
      let redis_ctx := { redis_ctx with replies_cnt := redis_ctx.replies_cnt + 1 }
      match async_redis_reply with
      | none => some (.REPL_DONE, { op with op_datum := .redis { redis_ctx with had_error := true } })
      | some reply =>
        if glob_err then
          some (.REPL_DONE, { op with op_datum := .redis { redis_ctx with had_error := true } })
        else if !exp_types.contains reply.type then
          some (.REPL_DONE, { op with op_datum := .redis { redis_ctx with had_error := true } })
        else some (.REPL_CONTINUE, { op with op_datum := .redis redis_ctx })

/-- Store `f slot` into slot `idx` of the vectors (an in-place update). -/
def updSlot (kv : List KvSlot) (idx : Nat) (f : KvSlot → KvSlot) : List KvSlot :=
  match kv[idx]? with
  | some sl => kv.set idx (f sl)
  | none => kv

/-- Replace the key-value vectors reached from the shim context. -/
def s3_redis_context_obj.setKv (c : s3_redis_context_obj) (kv : List KvSlot) :
    s3_redis_context_obj :=
  { c with prev_ctx := { c.prev_ctx with kv := kv } }

/-- `kv_read_cb`, the callback of a point read.  `glob_redis_ctx` is `none`
for a null client context and `some err` otherwise. -/
def kv_read_cb (glob_redis_ctx : Option Bool) (async_redis_reply : Option RedisReply)
    (privdata : Option Nat) (op : m0_clovis_op) : Option m0_clovis_op :=
  match glob_redis_ctx with
  | none => some op
  | some glob_err =>
    match redis_reply_check glob_err async_redis_reply privdata
        [.REDIS_REPLY_ARRAY, .REDIS_REPLY_STRING, .REDIS_REPLY_NIL] op with
    | none => none
    | some (.REPL_ERR, _) => none
    | some (.REPL_DONE, op) => finalize_op op
    | some (.REPL_CONTINUE, op) =>
      match op.op_datum, privdata, async_redis_reply with
      | .redis redis_ctx, some processing_idx, some reply =>
        let kv := updSlot redis_ctx.prev_ctx.kv processing_idx (fun sl => { sl with rc := -ENOENT })
        let op_rc := -ENOENT
        let tmp_reply :=
          match reply with
          | .array (e0 :: _) => e0
          | _ => reply
        match tmp_reply with
        | .str s =>
          match parse_val s s.length with
          | none => none
          | some off =>
            let kv := updSlot kv processing_idx
              (fun sl => { sl with rc := 0, val := some (cstr (s.drop off)) })
            finalize_op { op with op_datum := .redis (redis_ctx.setKv kv), op_rc := 0 }
        | _ => finalize_op { op with op_datum := .redis (redis_ctx.setKv kv), op_rc := op_rc }
      | _, _, _ => none

/-- The loop of `kv_next_cb` that fills result slots: `pending` is the current
`tmp_reply` followed by the array elements after it (empty when `tmp_reply` is
null). -/
def kv_next_loop (cnt : Nat) : List RedisReply → Nat → List KvSlot → Int →
    Option (List KvSlot × Int)
  | [], _, kv, op_rc => some (kv, op_rc)
  | tmp_reply :: rest, result_idx, kv, op_rc =>
    match tmp_reply with
    | .str s =>
      if result_idx < cnt then
        match parse_val s s.length with
        | none => none
        | some off =>
          let key := (s.drop (parse_key s s.length))
          let kv := updSlot kv result_idx
            (fun _ => { rc := 0, key := some (cstr key), val := some (cstr (s.drop off)) })
          kv_next_loop cnt rest (result_idx + 1) kv 0
      else some (kv, op_rc)
    | _ => some (kv, op_rc)

/-- The start of `kv_next_cb` after the codes were reset: `tmp_reply` (the
reply, or element 0 of a non-empty array) followed by the array elements after
it; when a skip value is recorded and `tmp_reply` is a string whose key equals
it, `tmp_reply` moves to the next element (null when there is none). -/
def kv_next_pending (reply : RedisReply) (skip_value : Bytes) : List RedisReply :=
  let pending : List RedisReply :=
    match reply with
    | .array (e0 :: es) => e0 :: es
    | _ => [reply]
  match pending with
  | .str s :: es =>
    if skip_value.length > 0 ∧ cstr (s.drop (parse_key s s.length)) = skip_value
    then es else pending
  | _ => pending

/-- `kv_next_cb`, the callback of a range scan. -/
def kv_next_cb (glob_redis_ctx : Option Bool) (async_redis_reply : Option RedisReply)
    (privdata : Option Nat) (op : m0_clovis_op) : Option m0_clovis_op :=
  match glob_redis_ctx with
  | none => some op
  | some glob_err =>
    match redis_reply_check glob_err async_redis_reply privdata
        [.REDIS_REPLY_STRING, .REDIS_REPLY_NIL, .REDIS_REPLY_ARRAY] op with
    | none => none
    | some (.REPL_ERR, _) => none
    | some (.REPL_DONE, op) => finalize_op op
    | some (.REPL_CONTINUE, op) =>
      match op.op_datum, async_redis_reply with
      | .redis redis_ctx, some reply =>
        let op_rc := -ENOENT
        let cnt := redis_ctx.prev_ctx.kv.length
        let kv := redis_ctx.prev_ctx.kv.map (fun sl => { sl with rc := -ENOENT })
        match kv_next_loop cnt (kv_next_pending reply redis_ctx.skip_value) 0 kv op_rc with
        | none => none
        | some (kv, op_rc) =>
          finalize_op { op with op_datum := .redis (redis_ctx.setKv kv), op_rc := op_rc }
      | _, _ => none

/-- `kv_status_cb`, the callback of an add and of a delete. -/
def kv_status_cb (glob_redis_ctx : Option Bool) (async_redis_reply : Option RedisReply)
    (privdata : Option Nat) (op : m0_clovis_op) : Option m0_clovis_op :=
  match glob_redis_ctx with
  | none => some op
  | some glob_err =>
    match redis_reply_check glob_err async_redis_reply privdata
        [.REDIS_REPLY_NIL, .REDIS_REPLY_STATUS, .REDIS_REPLY_INTEGER] op with
    | none => none
    | some (.REPL_ERR, _) => none
    | some (.REPL_DONE, op) => finalize_op op
    | some (.REPL_CONTINUE, op) =>
      match op.op_datum, privdata, async_redis_reply with
      | .redis redis_ctx, some processing_idx, some reply =>
        let rc : Int :=
          match reply with
          | .status _ => 0
          | .integer i => if i > 0 then 0 else -ENOENT
          | _ => -ENOENT
        let kv := updSlot redis_ctx.prev_ctx.kv processing_idx (fun sl => { sl with rc := rc })
        finalize_op { op with op_datum := .redis (redis_ctx.setKv kv), op_rc := rc }
      | _, _, _ => none

/-! ## The four operations -/

/-- Callbacks registered with a command (`redisCallbackFn`). -/
inductive redisCallbackFn where
  | kv_read_cb
  | kv_next_cb
  | kv_status_cb
deriving DecidableEq, Repr

/-- One call of `redisAsyncCommand`: the command with its `%b` arguments, the
callback (null for fire-and-forget) and the privdata (`processing_idx` of the
per-command context, null when none). -/
structure AsyncCommand where
  cmd : RedisCmd
  fn : Option redisCallbackFn
  privdata : Option Nat
deriving DecidableEq, Repr

/-- Bytes sent for a `%b` argument `(buf, len)`. -/
def redis_key.sent (k : redis_key) : Bytes := k.buf.take k.len

/-- `schedule_delete_key_op`: `ZREMRANGEBYLEX` between `[key` and `(key 0xFF`. -/
def schedule_delete_key_op (key : Bytes) (key_len : Nat) (op_cb : Option redisCallbackFn)
    (privdata : Option Nat) : AsyncCommand :=
  let min_b := prepare_border key key_len true false
  let max_b := prepare_border key key_len false true
  { cmd := .zremrangebylex min_b.sent max_b.sent, fn := op_cb, privdata := privdata }

/-- Buffer of a slot of `m0_bufvec`, empty for a null buffer (count 0). -/
def slotBuf (b : Option Bytes) : Bytes := b.getD []

/-- The shim context allocated (zeroed) at the start of an operation. -/
def new_ctx (ctx : s3_clovis_context_obj) (async_ops_cnt : Int) : s3_redis_context_obj :=
  { prev_ctx := ctx, async_ops_cnt := async_ops_cnt, replies_cnt := 0, had_error := false,
    skip_value := [] }

/-- Body of the loop of `kv_read` for slot `i`: the point scan of its key. -/
def kv_read_body (i : Nat) (sl : KvSlot) : AsyncCommand :=
  let min_b := prepare_border (slotBuf sl.key) (slotBuf sl.key).length true false
  let max_b := prepare_border (slotBuf sl.key) (slotBuf sl.key).length false true
  { cmd := .zrangebylex min_b.sent max_b.sent 1, fn := some .kv_read_cb, privdata := some i }

/-- Body of the loop of `kv_write` for slot `i`: the delete without callback,
then the add with `kv_status_cb`. -/
def kv_write_body (i : Nat) (sl : KvSlot) : List AsyncCommand :=
  let rkey := prepare_rkey (slotBuf sl.key) (slotBuf sl.key).length
    (slotBuf sl.val) (slotBuf sl.val).length
  [schedule_delete_key_op (slotBuf sl.key) (slotBuf sl.key).length none none,
   { cmd := .zadd rkey.sent, fn := some .kv_status_cb, privdata := some i }]

/-- Body of the loop of `kv_del` for slot `i`. -/
def kv_del_body (i : Nat) (sl : KvSlot) : AsyncCommand :=
  schedule_delete_key_op (slotBuf sl.key) (slotBuf sl.key).length (some .kv_status_cb) (some i)

/-- `S3FakeClovisRedisKvs::kv_read`: one point scan `LIMIT 0 1` per key.
Returns the op with the shim context installed and the commands issued, in
issue order. -/
def kv_read (op : m0_clovis_op) : Option (m0_clovis_op × List AsyncCommand) :=
  match op.op_datum with
  | .redis _ => none
  | .caller ctx =>
    let kv := ctx.kv
    let cnt := kv.length
    let cmds := kv.enum.map (fun x => kv_read_body x.1 x.2)
    some ({ op with op_datum := .redis (new_ctx ctx cnt) }, cmds)

/-- `S3FakeClovisRedisKvs::kv_next`: one range scan from the start key held in
slot 0 of the key vector (or from the beginning when that slot is empty). -/
def kv_next (op : m0_clovis_op) : Option (m0_clovis_op × List AsyncCommand) :=
  match op.op_datum with
  | .redis _ => none
  | .caller ctx =>
    match ctx.kv with
    | [] => none
    | sl0 :: rest =>
      let cnt := ctx.kv.length
      if (slotBuf sl0.key).length > 0 then
        let min_b := prepare_border (slotBuf sl0.key) (slotBuf sl0.key).length false false
        let ctx1 : s3_clovis_context_obj := { ctx with kv := { sl0 with key := none } :: rest }
        let nctx := { new_ctx ctx1 1 with skip_value := slotBuf sl0.key }
        some ({ op with op_datum := .redis nctx },
              [{ cmd := .zrangebylex min_b.sent [0x2B] (cnt + 1), fn := some .kv_next_cb,
                 privdata := some 0 }])
      else
        some ({ op with op_datum := .redis (new_ctx ctx 1) },
              [{ cmd := .zrangebylex [0x2D] [0x2B] cnt, fn := some .kv_next_cb,
                 privdata := some 0 }])

/-- `S3FakeClovisRedisKvs::kv_write`: per key a fire-and-forget delete of the
key range, then `ZADD` of the member built by `prepare_rkey`. -/
def kv_write (op : m0_clovis_op) : Option (m0_clovis_op × List AsyncCommand) :=
  match op.op_datum with
  | .redis _ => none
  | .caller ctx =>
    let kv := ctx.kv
    let cnt := kv.length
    let cmds := kv.enum.flatMap (fun x => kv_write_body x.1 x.2)
    some ({ op with op_datum := .redis (new_ctx ctx cnt) }, cmds)

/-- `S3FakeClovisRedisKvs::kv_del`: per key a delete of the key range. -/
def kv_del (op : m0_clovis_op) : Option (m0_clovis_op × List AsyncCommand) :=
  match op.op_datum with
  | .redis _ => none
  | .caller ctx =>
    let kv := ctx.kv
    let cnt := kv.length
    let cmds := kv.enum.map (fun x => kv_del_body x.1 x.2)
    some ({ op with op_datum := .redis (new_ctx ctx cnt) }, cmds)

/-! ## Running an operation against the store -/

/-- A reply handed to the callback of its command: the state of the client
context (`none` when null), the reply (`none` when null). -/
structure Delivery where
  fn : Option redisCallbackFn
  privdata : Option Nat
  glob_redis_ctx : Option Bool
  reply : Option RedisReply

/-- Invoke the callback of a delivery (nothing is called for a command
registered without callback). -/
def deliver (d : Delivery) (op : m0_clovis_op) : Option m0_clovis_op :=
  match d.fn with
  | none => some op
  | some .kv_read_cb => kv_read_cb d.glob_redis_ctx d.reply d.privdata op
  | some .kv_next_cb => kv_next_cb d.glob_redis_ctx d.reply d.privdata op
  | some .kv_status_cb => kv_status_cb d.glob_redis_ctx d.reply d.privdata op

/-- Callbacks run one after the other, in the order the replies arrive. -/
def deliverAll : List Delivery → m0_clovis_op → Option m0_clovis_op
  | [], op => some op
  | d :: ds, op =>
    match deliver d op with
    | none => none
    | some op1 => deliverAll ds op1

/-- The server executes the commands in issue order; each reply is paired with
the callback and privdata of its command, on a healthy client context. -/
def execAll : Store → List AsyncCommand → Store × List Delivery
  | s, [] => (s, [])
  | s, c :: cs =>
    let r := redisExec s c.cmd
    let rest := execAll r.1 cs
    (rest.1, { fn := c.fn, privdata := c.privdata, glob_redis_ctx := some false,
               reply := some r.2 } :: rest.2)

/-- One whole operation: issue the commands, let the server execute them in
issue order, run the callbacks in reply order. -/
def runOp (issue : m0_clovis_op → Option (m0_clovis_op × List AsyncCommand))
    (s : Store) (op : m0_clovis_op) : Option (Store × m0_clovis_op) :=
  match issue op with
  | none => none
  | some (op1, cmds) =>
    let r := execAll s cmds
    match deliverAll r.2 op1 with
    | none => none
    | some op2 => some (r.1, op2)

/-- An op as the caller launches it: its context holds the given slots. -/
def launch (kv : List KvSlot) : m0_clovis_op :=
  { op_datum := .caller { is_fake_failure := 0, kv := kv }, op_rc := 0, signals := [] }

/-- Slot of a key to read or delete, or of the start key of a scan. -/
def keySlot (k : Bytes) : KvSlot := { key := some k, val := none, rc := 0 }

/-- Slot of a pair to write. -/
def pairSlot (k v : Bytes) : KvSlot := { key := some k, val := some v, rc := 0 }

/-- Empty result slot. -/
def emptySlot : KvSlot := { key := none, val := none, rc := 0 }

/-! ## Vocabulary for the statements -/

/-- The member stored for a pair: what `ZADD` receives from `kv_write`. -/
def memberOf (k v : Bytes) : Bytes := (prepare_rkey k k.length v v.length).sent

/-- The range addressed by the border pair of a key: from `[k` to `(k 0xFF`. -/
def keyRange (k : Bytes) (m : Bytes) : Bool := inLexRange (.incl k) (.excl (k ++ [0xFF])) m

/-- An op finished without error: prior context restored with the given
slots, batch code `rc`, signalled stable once. -/
def finished (kv : List KvSlot) (rc : Int) : m0_clovis_op :=
  { op_datum := .caller { is_fake_failure := 0, kv := kv }, op_rc := rc,
    signals := [.s3_clovis_op_stable] }

/-- A launched op on which the shim context expecting `n` replies is installed. -/
def inFlight (kv : List KvSlot) (n : Int) (skip : Bytes) : m0_clovis_op :=
  { op_datum := .redis { prev_ctx := { is_fake_failure := 0, kv := kv }, async_ops_cnt := n,
                         replies_cnt := 0, had_error := false, skip_value := skip },
    op_rc := 0, signals := [] }

/-- The value part of a member can be located (`parse_val` is not null). -/
def memberOk (m : Bytes) : Bool := (parse_val m m.length).isSome

/-- No two members have the same key part (bytes before the first `0x00`). -/
def KeysUnique (s : Store) : Prop := s.Pairwise (fun a b => cstr a ≠ cstr b)

instance (s : Store) : Decidable (KeysUnique s) := by
  unfold KeysUnique
  infer_instance

/-- Member starts with `k` followed by the separator. -/
def startsWithKey (k : Bytes) (m : Bytes) : Bool := (k ++ [0]).isPrefixOf m

/-- The pairs an operation returned: the slots with code 0, in slot order. -/
def results (kv : List KvSlot) : List (Bytes × Bytes) :=
  kv.filterMap (fun sl =>
    if sl.rc = 0 then
      match sl.key, sl.val with
      | some k, some v => some (k, v)
      | _, _ => none
    else none)

/-- One call of the shim that changes the store, with its batch. -/
inductive KvCall where
  | write (pairs : List (Bytes × Bytes))
  | del (keys : List Bytes)
deriving DecidableEq, Repr

/-- Keys given to a call. -/
def KvCall.keys : KvCall → List Bytes
  | .write pairs => pairs.map (fun p => p.1)
  | .del keys => keys

/-- Store after one call run to completion. -/
def applyCall (s : Store) : KvCall → Option Store
  | .write pairs =>
    (runOp kv_write s (launch (pairs.map (fun p => pairSlot p.1 p.2)))).map (fun r => r.1)
  | .del keys => (runOp kv_del s (launch (keys.map keySlot))).map (fun r => r.1)

/-- Store after a sequence of calls, each run to completion before the next. -/
def applyCalls : List KvCall → Store → Option Store
  | [], s => some s
  | c :: cs, s =>
    match applyCall s c with
    | none => none
    | some s1 => applyCalls cs s1

/-- The pairs written by a sequence of calls, in issue order. -/
def writesOf : List KvCall → List (Bytes × Bytes)
  | [] => []
  | .write pairs :: cs => pairs ++ writesOf cs
  | .del _ :: cs => writesOf cs

/-- The value of the last pair for key `k` in a list of written pairs. -/
def lastIn (ws : List (Bytes × Bytes)) (k : Bytes) : Option Bytes :=
  (ws.reverse.find? (fun p => p.1 = k)).map (fun p => p.2)

/-- The value last written for a key by a sequence of calls. -/
def lastWritten (calls : List KvCall) (k : Bytes) : Option Bytes := lastIn (writesOf calls) k

/-- The four fan-out operations. -/
inductive KvsOpKind where
  | kv_read
  | kv_next
  | kv_write
  | kv_del
deriving DecidableEq, Repr

/-- The function that issues the commands of an operation. -/
def KvsOpKind.issue : KvsOpKind → m0_clovis_op → Option (m0_clovis_op × List AsyncCommand)
  | .kv_read => S3Kvs.kv_read
  | .kv_next => S3Kvs.kv_next
  | .kv_write => S3Kvs.kv_write
  | .kv_del => S3Kvs.kv_del

/-- A string reply whose value part can be located. -/
def strSafe : RedisReply → Bool
  | .str s => memberOk s
  | _ => true

/-- A reply on which the callbacks dereference no null pointer: every string in
it (the reply itself, or an element of the array) has a value part. -/
def replySafe : RedisReply → Bool
  | .str s => memberOk s
  | .array es => es.all strSafe
  | _ => true

/-- A reply that reaches a registered callback with its per-command context on
a live client context (with or without an error flag); the reply may be null
or of any tag. -/
def Delivery.safe (d : Delivery) : Bool :=
  d.fn.isSome && d.privdata.isSome && d.glob_redis_ctx.isSome &&
    (match d.reply with
     | none => true
     | some r => replySafe r)

/-- Replies still awaited by an op in flight (`async_ops_cnt - replies_cnt`);
`none` once the prior context is restored. -/
def outstanding (op : m0_clovis_op) : Option Int :=
  match op.op_datum with
  | .redis c => some (c.async_ops_cnt - c.replies_cnt)
  | .caller _ => none

/-- Number of commands of a list that carry a callback. -/
def callbackCount (cmds : List AsyncCommand) : Nat := (cmds.filter (fun c => c.fn.isSome)).length

/-- Number of replies an operation on the slots `kv` waits for. -/
def expectedReplies (kind : KvsOpKind) (kv : List KvSlot) : Nat :=
  match kind with
  | .kv_next => 1
  | _ => kv.length

/-- The op `op1` is `op` with one more reply counted and nothing signalled. -/
def CountedOnce (op op1 : m0_clovis_op) : Prop :=
  op1.signals = op.signals ∧
    ∃ c c1, op.op_datum = .redis c ∧ op1.op_datum = .redis c1 ∧
      c1.async_ops_cnt = c.async_ops_cnt ∧ c1.replies_cnt = c.replies_cnt + 1

/-- The op is in flight and `r` replies are outstanding
(`async_ops_cnt = replies_cnt + r`). -/
def Remaining (op : m0_clovis_op) (r : Nat) : Prop :=
  ∃ c, op.op_datum = .redis c ∧ c.async_ops_cnt = c.replies_cnt + r

/-- The op `op1` is `op` completed: one more signal, prior context restored. -/
def CompletedFrom (op op1 : m0_clovis_op) : Prop :=
  (∃ sig, op1.signals = op.signals ++ [sig]) ∧ ∃ cc, op1.op_datum = .caller cc

/-- Store without the members in the range of key `k`. -/
def removeKey (k : Bytes) (s : Store) : Store := s.filter (fun m => !keyRange k m)

/-- Store after the delete and the add that `kv_write` issues for one pair. -/
def putPair (s : Store) (p : Bytes × Bytes) : Store :=
  insertMember (memberOf p.1 p.2) (removeKey p.1 s)

/-- Replies to a point read of two keys, arriving in the reverse order of the
commands: the second key found, the first key absent. -/
def reversedReplies : List Delivery :=
  [{ fn := some .kv_read_cb, privdata := some 1, glob_redis_ctx := some false,
     reply := some (.array [.str [0x62, 0, 0x78, 0]]) },
   { fn := some .kv_read_cb, privdata := some 0, glob_redis_ctx := some false,
     reply := some (.array []) }]

/-- The commands `kv_write` issues for the pairs of a batch whose first slot
has index `i`. -/
def writeCmds (i : Nat) (pairs : List (Bytes × Bytes)) : List AsyncCommand :=
  ((pairs.map (fun p => pairSlot p.1 p.2)).enumFrom i).flatMap (fun x => kv_write_body x.1 x.2)

/-- The commands `kv_del` issues for the keys of a batch whose first slot has
index `i`. -/
def delCmds (i : Nat) (keys : List Bytes) : List AsyncCommand :=
  ((keys.map keySlot).enumFrom i).map (fun x => kv_del_body x.1 x.2)

/-- The calls of the witness of C2: two batches of writes and one delete. -/
def sampleCalls : List KvCall :=
  [.write [([0x61], [0x31]), ([0x62], [0x32])], .del [[0x61]], .write [([0x62], [0x33])]]

/-- The result slot `kv_next_cb` writes for a member: code 0, the key (C
string at the start) and the value (C string after the separator). -/
def slotOfMember (m : Bytes) : KvSlot :=
  { rc := 0, key := some (cstr m), val := some (cstr (m.drop (strlen m + 1))) }

/-- The pair a result slot of a member carries. -/
def pairOfMember (m : Bytes) : Bytes × Bytes := (cstr m, cstr (m.drop (strlen m + 1)))

/-- Result slots filled from members in order, as far as both lists reach. -/
def fillSlots : List Bytes → List KvSlot → List KvSlot
  | m :: ms, _ :: post => slotOfMember m :: fillSlots ms post
  | _, post => post

/-- Members left after the skip step for the recorded start key. -/
def skipFirst (skip : Bytes) : List Bytes → List Bytes
  | [] => []
  | m :: ms => if skip.length > 0 ∧ cstr m = skip then ms else m :: ms

/-- A slot with its code reset to not-found. -/
def resetSlot (sl : KvSlot) : KvSlot := { sl with rc := -ENOENT }

/-- Store of the scenario of C4: keys "a", "b", "c", each with value "x". -/
def storeABC : Store := [[0x61, 0, 0x78, 0], [0x62, 0, 0x78, 0], [0x63, 0, 0x78, 0]]

/-- Every member is the encoding of a pair whose key has no `0x00` byte and
whose value is the last one written for that key in `ws`. -/
def MembersWritten (ws : List (Bytes × Bytes)) (s : Store) : Prop :=
  ∀ m ∈ s, ∃ k v, 0 ∉ k ∧ m = memberOf k v ∧ lastIn ws k = some v

/-- The scenario of C5: "obj-1" written with "v1", then with "v2". -/
def callsObj1 : List KvCall :=
  [.write [([0x6F, 0x62, 0x6A, 0x2D, 0x31], [0x76, 0x31])],
   .write [([0x6F, 0x62, 0x6A, 0x2D, 0x31], [0x76, 0x32])]]

/-- What holds of a store built by writes and deletes, relative to the pairs
written so far. -/
def BuiltBy (ws : List (Bytes × Bytes)) (s : Store) : Prop :=
  StoreSorted s ∧ KeysUnique s ∧ MembersWritten ws s

/-- The key-value vectors reached from an op: through the prior context once
it is restored, through the shim context while the op is in flight. -/
def m0_clovis_op.slots (op : m0_clovis_op) : List KvSlot :=
  match op.op_datum with
  | .caller c => c.kv
  | .redis c => c.prev_ctx.kv

/-- An op in flight whose last awaited reply was just counted, after an
earlier reply had been malformed. -/
def erroredOp : m0_clovis_op :=
  { op_datum := .redis { prev_ctx := { is_fake_failure := 0, kv := [keySlot [0x61]] },
                         async_ops_cnt := 1, replies_cnt := 1, had_error := true,
                         skip_value := [] },
    op_rc := 0, signals := [] }

/-- The per-key code the claim assigns to a reply accepted by `kv_status_cb`:
0 for a status reply, 0 for an integer above 0, not-found for any other integer
and for nil; no code for the other tags. -/
def statusCodeSpec : RedisReply → Option Int
  | .status _ => some 0
  | .integer i => if i > 0 then some 0 else some (-ENOENT)
  | .nil => some (-ENOENT)
  | _ => none

/-- An op in flight on two keys, no reply received yet. -/
def twoKeyOp : m0_clovis_op := inFlight [keySlot [0x61], keySlot [0x62]] 2 []

/-- The op after `kv_status_cb` has counted an accepted reply and stored its code
`rc` in slot `idx` and in `op_rc`, before the call of `finalize_op`. -/
def statusStep (op : m0_clovis_op) (c : s3_redis_context_obj) (idx : Nat) (rc : Int) :
    m0_clovis_op :=
  { op with
    op_datum := .redis (({ c with replies_cnt := c.replies_cnt + 1 }).setKv
      (updSlot c.prev_ctx.kv idx (fun sl => { sl with rc := rc })))
    op_rc := rc }

/-- The reply to a point read carries a member: a string, or an array whose
element 0 is a string (`tmp_reply->type == REDIS_REPLY_STRING` in `kv_read_cb`). -/
def readFound : RedisReply → Bool
  | .str _ => true
  | .array (.str _ :: _) => true
  | _ => false

/-- A reply that `kv_read_cb` accepts (array, string or nil) and in which every
string has a value part. -/
def readReplyOk (r : RedisReply) : Bool :=
  [ReplyType.REDIS_REPLY_ARRAY, .REDIS_REPLY_STRING, .REDIS_REPLY_NIL].contains r.type &&
    replySafe r

/-- The reply `r` to the point read of slot `idx` reaches `kv_read_cb` on a
healthy client context. -/
def readDelivery (p : Nat × RedisReply) : Delivery :=
  { fn := some .kv_read_cb, privdata := some p.1, glob_redis_ctx := some false,
    reply := some p.2 }

/-- The op after a callback has counted a reply and stored the slots `kv1` and
the batch code `rc`, before the call of `finalize_op`. -/
def replyStep (op : m0_clovis_op) (c : s3_redis_context_obj) (kv1 : List KvSlot) (rc : Int) :
    m0_clovis_op :=
  { op with
    op_datum := .redis (({ c with replies_cnt := c.replies_cnt + 1 }).setKv kv1)
    op_rc := rc }

/-- Members whose key part is strictly greater than `k0`, in store order. -/
def keysAbove (k0 : Bytes) (s : Store) : Store := s.filter (fun m => lexLt k0 (cstr m))

/-- The tags each callback passes to `redis_reply_check` as `exp_types`. -/
def expectedTags : redisCallbackFn → List ReplyType
  | .kv_read_cb => [.REDIS_REPLY_ARRAY, .REDIS_REPLY_STRING, .REDIS_REPLY_NIL]
  | .kv_next_cb => [.REDIS_REPLY_STRING, .REDIS_REPLY_NIL, .REDIS_REPLY_ARRAY]
  | .kv_status_cb => [.REDIS_REPLY_NIL, .REDIS_REPLY_STATUS, .REDIS_REPLY_INTEGER]

/-- The client context reports an error, the reply is null, or the tag of the
reply is not one of `exp`. -/
def replyBad (glob_err : Bool) (reply : Option RedisReply) (exp : List ReplyType) : Bool :=
  glob_err ||
    match reply with
    | none => true
    | some r => !exp.contains r.type

/-- The op `op1` is `op` (in flight with context `c`) after one reply was
checked: counted once, `had_error` raised when the reply is `bad` and kept
otherwise, and for a bad reply nothing else touched. -/
def CheckedOnce (op op1 : m0_clovis_op) (c : s3_redis_context_obj) (bad : Bool) : Prop :=
  ∃ c1, op1.op_datum = .redis c1 ∧ op1.signals = op.signals ∧
    c1.replies_cnt = c.replies_cnt + 1 ∧ c1.async_ops_cnt = c.async_ops_cnt ∧
    c1.had_error = (c.had_error || bad) ∧
    (bad = true → c1.prev_ctx = c.prev_ctx ∧ op1.op_rc = op.op_rc)

/-- An op in flight on two keys of which one reply was already in error. -/
def twoKeyOpErrored : m0_clovis_op :=
  { op_datum := .redis { prev_ctx := { is_fake_failure := 0,
                                       kv := [keySlot [0x61], keySlot [0x62]] },
                         async_ops_cnt := 2, replies_cnt := 1, had_error := true,
                         skip_value := [] },
    op_rc := -ENOENT, signals := [] }

end S3Kvs

namespace S3Put

/-! ## The multipart PUT-part action -/

/-- Modelled from the spec: the state enum of the bucket metadata collaborator
(declared in a header that is not part of the sources at hand). -/
inductive S3BucketMetadataState where
  | empty
  | loading
  | present
  | saved
  | missing
  | failed
deriving DecidableEq, Repr

/-- Modelled from the spec: the state enum of the (multipart) object metadata
collaborator. -/
inductive S3ObjectMetadataState where
  | empty
  | loading
  | present
  | saved
  | missing
  | failed
deriving DecidableEq, Repr

/-- Modelled from the spec: the state enum of the part metadata collaborator. -/
inductive S3PartMetadataState where
  | empty
  | loading
  | present
  | saved
  | missing
  | failed
deriving DecidableEq, Repr

/-- Modelled from the spec: the state enum of the object writer. -/
inductive S3ClovisWriterOpState where
  | idle
  | writing
  | saved
  | failed
deriving DecidableEq, Repr

/-- Error codes passed to `S3Error`. -/
inductive S3ErrorCode where
  | SignatureDoesNotMatch
  | NoSuchBucket
  | NoSuchUpload
  | ServiceUnavailable
  | InternalError
deriving DecidableEq, Repr

/-- Value given to an outgoing header: a literal, or the length of the XML
rendering of an error (the rendering itself is outside these sources). -/
inductive HeaderValue where
  | text (s : String)
  | xml_length (code : S3ErrorCode)
deriving DecidableEq, Repr

/-- `S3ChunkDetail`: signature, payload hash and size of one signed chunk. -/
structure S3ChunkDetail where
  signature : String
  payload_hash : String
  size : Nat
deriving DecidableEq, Repr

/-- Continuations handed to a collaborator. -/
inductive Handler where
  | next
  | fetch_bucket_info_failed
  | fetch_multipart_failed
  | fetch_firstpart_info_failed
  | write_object_successful
  | write_object_failed
  | request_resume
  | chunk_auth_successful
  | chunk_auth_failed
  | consume_incoming_content
deriving DecidableEq, Repr

/-- Calls made on the collaborators (request, pipeline, metadata, writer, auth
client), in program order. -/
inductive Effect where
  | next
  | done
  | i_am_done
  | request_pause
  | request_resume
  | set_out_header_value (name : String) (value : HeaderValue)
  | send_response_error (code : S3ErrorCode)
  | send_response_200
  | bucket_metadata_load (on_success on_failure : Handler)
  | object_multipart_metadata_load (on_success on_failure : Handler)
  | part_metadata_load (on_success on_failure : Handler) (part : Nat)
  | part_metadata_save (on_success on_failure : Handler)
  | write_content (on_success on_failure : Handler)
  | init_chunk_auth_cycle (on_success on_failure : Handler)
  | add_checksum_for_chunk (signature payload_hash : String)
  | add_last_checksum_for_chunk (signature payload_hash : String)
  | listen_for_incoming_data (on_data : Handler)
deriving DecidableEq, Repr

/-- `S3PartMetadata` as far as the action reads it. -/
structure S3PartMetadata where
  part_number : Int
  state : S3PartMetadataState
  content_length : Nat
deriving DecidableEq, Repr

/-- `S3ClovisWriter` as far as the action reads it. -/
structure S3ClovisWriter where
  offset : Nat
  state : S3ClovisWriterOpState
deriving DecidableEq, Repr

/-- `S3PutMultiObjectAction` with the parts of its request that its methods
read.  A null `shared_ptr` is `none`.  `part_number` is a C `int` (a value from
`INT_MIN` to `INT_MAX`).  `trace` lists the calls made so far, oldest first. -/
structure S3PutMultiObjectAction where
  is_chunked : Bool
  chunk_details : List S3ChunkDetail
  buffered_length : Nat
  buffer_is_freezed : Bool
  data_length : Nat
  has_all_body_content : Bool
  content_md5 : String
  part_number : Int
  total_data_to_stream : Nat
  auth_failed : Bool
  write_failed : Bool
  clovis_write_in_progress : Bool
  clovis_write_completed : Bool
  auth_in_progress : Bool
  auth_completed : Bool
  bucket_metadata : Option S3BucketMetadataState
  object_multipart_metadata : Option S3ObjectMetadataState
  part_metadata : Option S3PartMetadata
  clovis_writer : Option S3ClovisWriter
  trace : List Effect
deriving DecidableEq, Repr

/-- Record calls at the end of the trace. -/
def S3PutMultiObjectAction.emit (a : S3PutMultiObjectAction) (es : List Effect) :
    S3PutMultiObjectAction :=
  { a with trace := a.trace ++ es }

/-- The action as its constructor leaves it, for a request with the given
properties. -/
def construct (is_chunked : Bool) (part_number : Int) (data_length : Nat)
    (chunk_details : List S3ChunkDetail) (buffered_length : Nat) (buffer_is_freezed : Bool)
    (has_all_body_content : Bool) (content_md5 : String) : S3PutMultiObjectAction :=
  { is_chunked := is_chunked, chunk_details := chunk_details,
    buffered_length := buffered_length, buffer_is_freezed := buffer_is_freezed,
    data_length := data_length, has_all_body_content := has_all_body_content,
    content_md5 := content_md5, part_number := part_number, total_data_to_stream := 0,
    auth_failed := false, write_failed := false, clovis_write_in_progress := false,
    clovis_write_completed := false, auth_in_progress := false, auth_completed := false,
    bucket_metadata := none, object_multipart_metadata := none, part_metadata := none,
    clovis_writer := none, trace := [] }

/-- The three calls that emit an error response for `code`. -/
def errorResponse (code : S3ErrorCode) : List Effect :=
  [.set_out_header_value "Content-Type" (.text "application/xml"),
   .set_out_header_value "Content-Length" (.xml_length code),
   .send_response_error code]

/-- `send_response_to_s3_client`: a first `if` on the signature failure, then
(without `else`) the chain starting at the bucket state; then resume, `done`
and `i_am_done`. -/
def send_response_to_s3_client (a : S3PutMultiObjectAction) : Option S3PutMultiObjectAction :=
  let a1 := if a.is_chunked && a.auth_failed then a.emit (errorResponse .SignatureDoesNotMatch) else a
  match a.bucket_metadata with
  | none => none
  | some bucket =>
    let chain : Option (List Effect) :=
      if bucket = .missing then some (errorResponse .NoSuchBucket)
      else if a.object_multipart_metadata = some .missing then some (errorResponse .NoSuchUpload)
      else if a.part_metadata.map (fun p => p.state) = some .missing then
        some [.set_out_header_value "Content-Type" (.text "application/xml"),
              .set_out_header_value "Content-Length" (.xml_length .ServiceUnavailable),
              .set_out_header_value "Retry-After" (.text "1"),
              .send_response_error .ServiceUnavailable]
      else
        match a.clovis_writer with
        | none => none
        | some writer =>
          if writer.state = .failed then some (errorResponse .InternalError)
          else
            match a.part_metadata with
            | none => none
            | some part =>
              if part.state = .saved then
                some [.set_out_header_value "ETag" (.text a.content_md5), .send_response_200]
              else some (errorResponse .InternalError)
    match chain with
    | none => none
    | some es => some ((a1.emit es).emit [.request_resume, .done, .i_am_done])

/-- `chunk_auth_successful`. -/
def chunk_auth_successful (a : S3PutMultiObjectAction) : Option S3PutMultiObjectAction :=
  if a.clovis_write_completed then some (a.emit [.next])
  else some { a with auth_completed := true }

/-- `chunk_auth_failed`. -/
def chunk_auth_failed (a : S3PutMultiObjectAction) : Option S3PutMultiObjectAction :=
  let a := { a with auth_failed := true }
  if a.clovis_write_in_progress then some a
  else send_response_to_s3_client a

/-- `fetch_bucket_info`. -/
def fetch_bucket_info (a : S3PutMultiObjectAction) : Option S3PutMultiObjectAction :=
  let a := if !a.buffer_is_freezed then a.emit [.request_pause] else a
  let a := { a with bucket_metadata := some .empty }
  some (a.emit [.bucket_metadata_load .next .fetch_bucket_info_failed])

/-- `fetch_bucket_info_failed`. -/
def fetch_bucket_info_failed (a : S3PutMultiObjectAction) : Option S3PutMultiObjectAction :=
  send_response_to_s3_client (a.emit [.request_resume])

/-- `fetch_multipart_metadata`. -/
def fetch_multipart_metadata (a : S3PutMultiObjectAction) : Option S3PutMultiObjectAction :=
  let a := { a with object_multipart_metadata := some .empty }
  some (a.emit [.object_multipart_metadata_load .next .fetch_multipart_failed])

/-- `fetch_multipart_failed`. -/
def fetch_multipart_failed (a : S3PutMultiObjectAction) : Option S3PutMultiObjectAction :=
  send_response_to_s3_client (a.emit [.request_resume])

/-- `fetch_firstpart_info`. -/
def fetch_firstpart_info (a : S3PutMultiObjectAction) : Option S3PutMultiObjectAction :=
  let a := if !a.buffer_is_freezed then a.emit [.request_pause] else a
  let a := { a with part_metadata := some { part_number := 1, state := .empty, content_length := 0 } }
  some (a.emit [.part_metadata_load .next .fetch_firstpart_info_failed 1])

/-- `fetch_firstpart_info_failed`. -/
def fetch_firstpart_info_failed (a : S3PutMultiObjectAction) : Option S3PutMultiObjectAction :=
  send_response_to_s3_client (a.emit [.request_resume])

/-- Conversion of a C `int` to `size_t` (64-bit unsigned). -/
def to_size_t (i : Int) : Nat := (i % 2 ^ 64).toNat

/-- Smallest value of a C `int` (32 bits). -/
def INT_MIN : Int := -2147483648

/-- Largest value of a C `int` (32 bits). -/
def INT_MAX : Int := 2147483647

/-- The `int` that holds the result of an `int` operation whose exact value is
`i`: `i` itself when it is in range, reduced modulo `2 ^ 32` into the range
otherwise (two's complement, what the compiled code yields on overflow). -/
def to_int (i : Int) : Int := (i + 2147483648) % 4294967296 - 2147483648

/-- `compute_part_offset`: `part_number` is an `int`, the difference
`part_number - 1` is taken in `int`, then converted to `size_t` for the
product with the `size_t` part-1 length. -/
def compute_part_offset (a : S3PutMultiObjectAction) : Option S3PutMultiObjectAction :=
  let offset : Option Nat :=
    if a.part_number ≠ 1 then
      match a.part_metadata with
      | none => none
      | some part =>
        let part_one_size := part.content_length % 2 ^ 64
        some ((to_size_t (to_int (a.part_number - 1)) * part_one_size) % 2 ^ 64)
    else some 0
  match offset with
  | none => none
  | some offset =>
    let a := { a with clovis_writer := some { offset := offset, state := .idle } }
    some (a.emit [.next])

/-- The loop of `write_object` that hands every ready chunk detail to the auth
client. -/
def drain_chunk_details : List S3ChunkDetail → S3PutMultiObjectAction → S3PutMultiObjectAction
  | [], a => { a with chunk_details := [] }
  | detail :: rest, a =>
    let a := if detail.size = 0
      then a.emit [.add_last_checksum_for_chunk detail.signature detail.payload_hash]
      else a.emit [.add_checksum_for_chunk detail.signature detail.payload_hash]
    drain_chunk_details rest { a with auth_in_progress := true }

/-- `write_object`. -/
def write_object (a : S3PutMultiObjectAction) : Option S3PutMultiObjectAction :=
  let a := if a.is_chunked then
      { drain_chunk_details a.chunk_details a with clovis_write_in_progress := true }
    else a
  match a.clovis_writer with
  | none => none
  | some _ =>
    if a.buffer_is_freezed then
      some (a.emit [.write_content .write_object_successful .write_object_failed])
    else
      some (a.emit [.request_pause, .write_content .request_resume .write_object_failed])

/-- `consume_incoming_content`. -/
def consume_incoming_content (a : S3PutMultiObjectAction) : Option S3PutMultiObjectAction :=
  write_object a

/-- `write_object_successful`. -/
def write_object_successful (a : S3PutMultiObjectAction) : Option S3PutMultiObjectAction :=
  let a := if a.is_chunked then { a with clovis_write_in_progress := false } else a
  if a.is_chunked && a.auth_failed then send_response_to_s3_client a
  else if a.buffered_length > 0 then write_object a
  else if a.is_chunked then
    if a.auth_completed then some (a.emit [.next]) else some a
  else some (a.emit [.next])

/-- `write_object_failed`. -/
def write_object_failed (a : S3PutMultiObjectAction) : Option S3PutMultiObjectAction :=
  if a.is_chunked then
    let a := { a with clovis_write_in_progress := false, write_failed := true }
    if !a.auth_in_progress then send_response_to_s3_client a else some a
  else send_response_to_s3_client a

/-- `save_metadata`. -/
def save_metadata (a : S3PutMultiObjectAction) : Option S3PutMultiObjectAction :=
  match a.clovis_writer with
  | none => none
  | some _ =>
    let part : S3PartMetadata :=
      { part_number := a.part_number, state := .empty, content_length := a.data_length }
    let a := { a with part_metadata := some part }
    some (a.emit [.part_metadata_save .next .next])

/-- `initiate_data_streaming`. -/
def initiate_data_streaming (a : S3PutMultiObjectAction) : Option S3PutMultiObjectAction :=
  let a := { a with total_data_to_stream := a.data_length }
  let a := a.emit [.request_resume]
  let a := if a.is_chunked
    then a.emit [.init_chunk_auth_cycle .chunk_auth_successful .chunk_auth_failed] else a
  if a.total_data_to_stream = 0 then save_metadata a
  else if a.has_all_body_content then write_object a
  else some (a.emit [.listen_for_incoming_data .consume_incoming_content])

/-- Tasks of the action (`add_task` arguments). -/
inductive Task where
  | start_chunk_authentication
  | check_authentication
  | fetch_bucket_info
  | fetch_multipart_metadata
  | fetch_firstpart_info
  | compute_part_offset
  | initiate_data_streaming
  | save_metadata
  | send_response_to_s3_client
deriving DecidableEq, Repr

/-- `setup_steps`: the tasks appended to the list. -/
def setup_steps (part_number : Int) (tasks : List Task) : List Task :=
  tasks ++ [.fetch_bucket_info, .fetch_multipart_metadata]
    ++ (if part_number ≠ 1 then [.fetch_firstpart_info] else [])
    ++ [.compute_part_offset, .initiate_data_streaming, .save_metadata,
        .send_response_to_s3_client]

/-- Number of `request->send_response` calls in a trace. -/
def countResponses (t : List Effect) : Nat :=
  (t.filter (fun e => match e with
    | .send_response_error _ => true
    | .send_response_200 => true
    | _ => false)).length

/-- Number of `next()` calls in a trace. -/
def countNext (t : List Effect) : Nat := (t.filter (fun e => e = .next)).length

/-- Number of completed runs of the terminal classifier in a trace (each ends
with one `done()`). -/
def countClassifier (t : List Effect) : Nat := (t.filter (fun e => e = .done)).length

/-- The calls of a trace that send a response, in order. -/
def responses (t : List Effect) : List Effect :=
  t.filter (fun e => match e with
    | .send_response_error _ => true
    | .send_response_200 => true
    | _ => false)

/-- The writer reports the end of the final write: it holds its new state
(`saved` or `failed`) and calls the continuation that `write_object` registered
for a frozen buffer. -/
def final_write_returns (ok : Bool) (a : S3PutMultiObjectAction) : Option S3PutMultiObjectAction :=
  match a.clovis_writer with
  | none => none
  | some w =>
    if ok then write_object_successful { a with clovis_writer := some { w with state := .saved } }
    else write_object_failed { a with clovis_writer := some { w with state := .failed } }

/-- What a handler sequence left behind: number of `next()` calls, number of
runs of the terminal classifier, number of responses sent. -/
def outcome (a : Option S3PutMultiObjectAction) : Option (Nat × Nat × Nat) :=
  a.map (fun a => (countNext a.trace, countClassifier a.trace, countResponses a.trace))

/-- A chunked upload of part 2 at the moment `write_object` is called for the
final buffer: bucket, multipart and part-1 metadata loaded, writer created, no
buffered bytes left after this write, two chunk details ready (one of 8 bytes
and the terminal one of size 0). -/
def chunkedUpload : S3PutMultiObjectAction :=
  { construct true 2 8 [⟨"sig1", "hash1", 8⟩, ⟨"sig2", "hash2", 0⟩] 0 true true "md5" with
    bucket_metadata := some .present
    object_multipart_metadata := some .present
    part_metadata := some { part_number := 1, state := .present, content_length := 8 }
    clovis_writer := some { offset := 8, state := .idle } }

/-- All collaborators instantiated, with the given flags and states. -/
def classifierInput (is_chunked auth_failed : Bool) (bucket : S3BucketMetadataState)
    (multipart : S3ObjectMetadataState) (part : S3PartMetadataState)
    (writer : S3ClovisWriterOpState) : S3PutMultiObjectAction :=
  { construct is_chunked 2 8 [] 0 true true "md5" with
    auth_failed := auth_failed
    bucket_metadata := some bucket
    object_multipart_metadata := some multipart
    part_metadata := some { part_number := 2, state := part, content_length := 8 }
    clovis_writer := some { offset := 8, state := writer } }

/-- The action with the writer created at `offset` and `next()` called. -/
def withWriter (a : S3PutMultiObjectAction) (offset : Nat) : S3PutMultiObjectAction :=
  { a with clovis_writer := some { offset := offset, state := .idle }, trace := a.trace ++ [.next] }

/-- Part 3 of an upload whose part 1 has 1048576 bytes, before
`compute_part_offset` runs. -/
def partThree : S3PutMultiObjectAction :=
  { construct false 3 1048576 [] 0 false false "md5" with
    bucket_metadata := some .present
    object_multipart_metadata := some .present
    part_metadata := some { part_number := 1, state := .present, content_length := 1048576 } }

/-- Part 1 of an upload before `compute_part_offset` runs (no part metadata). -/
def partOne : S3PutMultiObjectAction :=
  { construct false 1 8 [] 0 false false "md5" with
    bucket_metadata := some .present
    object_multipart_metadata := some .present }

/-- A request whose part number is `INT_MIN`, part 1 having 3 bytes, before
`compute_part_offset` runs. -/
def partIntMin : S3PutMultiObjectAction :=
  { construct false (-2147483648) 8 [] 0 false false "md5" with
    bucket_metadata := some .present
    object_multipart_metadata := some .present
    part_metadata := some { part_number := 1, state := .present, content_length := 3 } }

/-- The chunked upload of scenario E4 at the moment `write_object` is called for
the final buffer: part 1, two chunks of 4 bytes and the terminal chunk of size
0 ready, bucket and multipart metadata loaded, writer created at offset 0, no
buffered bytes left after this write. -/
def uploadE4 : S3PutMultiObjectAction :=
  { construct true 1 8 [⟨"sig1", "hash1", 4⟩, ⟨"sig2", "hash2", 4⟩, ⟨"sig3", "hash3", 0⟩] 0
      true true "md5" with
    bucket_metadata := some .present
    object_multipart_metadata := some .present
    clovis_writer := some { offset := 0, state := .idle } }

/-- Number of `part_metadata->save` calls in a trace (one per run of
`save_metadata`). -/
def countSaves (t : List Effect) : Nat :=
  (t.filter (fun e => e = .part_metadata_save .next .next)).length

/-- An unchunked request for part 2 when the multipart-metadata load calls its
failure callback, having left the metadata in state `st`: bucket present, no
part metadata and no writer yet. -/
def multipartLoadFailed (st : S3ObjectMetadataState) : S3PutMultiObjectAction :=
  { construct false 2 8 [] 0 true true "md5" with
    bucket_metadata := some .present
    object_multipart_metadata := some st }

/-- An unchunked request for part 2 when the part-1 metadata load calls its
failure callback, having left the part metadata in state `st`: bucket and
multipart metadata present, no writer yet. -/
def firstpartLoadFailed (st : S3PartMetadataState) : S3PutMultiObjectAction :=
  { construct false 2 8 [] 0 true true "md5" with
    bucket_metadata := some .present
    object_multipart_metadata := some .present
    part_metadata := some { part_number := 1, state := st, content_length := 0 } }

/-- The call by which `write_object` hands one chunk detail to the auth client:
the terminal checksum for size 0, a mid-stream checksum otherwise. -/
def forwardDetail (detail : S3ChunkDetail) : Effect :=
  if detail.size = 0 then .add_last_checksum_for_chunk detail.signature detail.payload_hash
  else .add_checksum_for_chunk detail.signature detail.payload_hash

/-- The calls by which `write_object` issues the write, for a frozen buffer
and for one that still expects data. -/
def writeCall (buffer_is_freezed : Bool) : List Effect :=
  if buffer_is_freezed then [.write_content .write_object_successful .write_object_failed]
  else [.request_pause, .write_content .request_resume .write_object_failed]

/-- The method a task of the list is bound to (`std::bind` in `setup_steps`);
`none` for the two tasks whose bodies belong to `S3Action`. -/
def Task.handler : Task → Option (S3PutMultiObjectAction → Option S3PutMultiObjectAction)
  | .start_chunk_authentication => none
  | .check_authentication => none
  | .fetch_bucket_info => some S3Put.fetch_bucket_info
  | .fetch_multipart_metadata => some S3Put.fetch_multipart_metadata
  | .fetch_firstpart_info => some S3Put.fetch_firstpart_info
  | .compute_part_offset => some S3Put.compute_part_offset
  | .initiate_data_streaming => some S3Put.initiate_data_streaming
  | .save_metadata => some S3Put.save_metadata
  | .send_response_to_s3_client => some S3Put.send_response_to_s3_client

/-- The action with its task list and the index of the task dispatched most
recently. -/
structure Pipeline where
  action : S3PutMultiObjectAction
  tasks : List Task
  task_iter : Nat
deriving DecidableEq

/-- Modelled from the spec: `next()` of `S3Action` (not part of the sources at
hand) dispatches the task that follows the most recently dispatched one and
does nothing after the last task.  `react` works through the calls a handler
made, oldest first: a `next()` dispatches the following task and works through
the calls of that task in turn; a `part_metadata->save` completes (leaving the
state `saved` when `save_ok`, else `failed`) and invokes the continuation it
was given, which is `next` on both outcomes; every other call needs no
reaction.  `fuel` bounds the number of reactions. -/
def react (save_ok : Bool) : Nat → List Effect → Pipeline → Option Pipeline
  | _, [], p => some p
  | 0, _ :: _, _ => none
  | fuel + 1, e :: es, p =>
    match e with
    | .next =>
      match p.tasks[p.task_iter + 1]? with
      | none => react save_ok fuel es p
      | some t =>
        match t.handler with
        | none => none
        | some h =>
          match h p.action with
          | none => none
          | some a1 =>
            let calls := a1.trace.drop p.action.trace.length
            match react save_ok fuel calls { p with action := a1, task_iter := p.task_iter + 1 } with
            | none => none
            | some p1 => react save_ok fuel es p1
    | .part_metadata_save on_success on_failure =>
      let st : S3PartMetadataState := if save_ok then .saved else .failed
      let a1 := { p.action with
        part_metadata := p.action.part_metadata.map (fun m => { m with state := st }) }
      match (if save_ok then on_success else on_failure) with
      | .next => react save_ok fuel (.next :: es) { p with action := a1 }
      | _ => none
    | _ => react save_ok fuel es p

/-- An unchunked upload of part 1 with declared length 0 after
`compute_part_offset`: bucket and multipart metadata present, writer created
at offset 0, `compute_part_offset` dispatched most recently. -/
def zeroLengthPart : Pipeline :=
  { action :=
      { construct false 1 0 [] 0 true true "md5" with
        bucket_metadata := some .present
        object_multipart_metadata := some .present
        clovis_writer := some { offset := 0, state := .idle } }
    tasks := setup_steps 1 [.check_authentication]
    task_iter := 3 }

/-- An unchunked request for part 2 when the bucket-metadata load calls its
failure callback, having left the metadata in state `st`: no other collaborator
exists yet. -/
def bucketLoadFailed (st : S3BucketMetadataState) : S3PutMultiObjectAction :=
  { construct false 2 8 [] 0 true true "md5" with bucket_metadata := some st }

end S3Put

/-! # Theorems -/

namespace S3Kvs


/-! ## Lemmas: encoding, order, C strings -/

theorem memberOf_eq (k v : Bytes) : memberOf k v = k ++ 0 :: (v ++ [0]) := by
  simp [memberOf, prepare_rkey, redis_key.sent]
  omega

theorem border_min_sent (k : Bytes) : (prepare_border k k.length true false).sent = 0x5B :: k := by
  simp [prepare_border, redis_key.sent]

theorem border_max_sent (k : Bytes) :
    (prepare_border k k.length false true).sent = 0x28 :: (k ++ [0xFF]) := by
  simp [prepare_border, redis_key.sent]

theorem border_excl_sent (k : Bytes) : (prepare_border k k.length false false).sent = 0x28 :: k := by
  simp [prepare_border, redis_key.sent]

theorem parseLexBound_incl (k : Bytes) : parseLexBound (0x5B :: k) = some (.incl k) := by
  cases k <;> rfl

theorem parseLexBound_excl (k : Bytes) : parseLexBound (0x28 :: k) = some (.excl k) := by
  cases k <;> rfl

theorem lexLt_irrefl (a : Bytes) : lexLt a a = false := by
  induction a with
  | nil => rfl
  | cons x xs ih => simp [lexLt, ih]

theorem lexLt_trans : ∀ (a b c : Bytes), lexLt a b = true → lexLt b c = true → lexLt a c = true
  | [], [], _ => by simp [lexLt]
  | [], _ :: _, [] => by simp [lexLt]
  | [], _ :: _, _ :: _ => by simp [lexLt]
  | _ :: _, [], _ => by simp [lexLt]
  | _ :: _, _ :: _, [] => by simp [lexLt]
  | x :: xs, y :: ys, z :: zs => by
    simp only [lexLt, Bool.or_eq_true, decide_eq_true_eq, Bool.and_eq_true, beq_iff_eq]
    intro h1 h2
    rcases h1 with h1 | ⟨h1, h1'⟩ <;> rcases h2 with h2 | ⟨h2, h2'⟩
    · left; omega
    · left; omega
    · left; omega
    · right; exact ⟨by omega, lexLt_trans xs ys zs h1' h2'⟩

theorem lexLt_asymm (a b : Bytes) (h : lexLt a b = true) : lexLt b a = false := by
  cases hba : lexLt b a with
  | false => rfl
  | true =>
    have := lexLt_trans a b a h hba
    rw [lexLt_irrefl] at this
    exact absurd this (by simp)

theorem lexLt_total : ∀ (a b : Bytes), a ≠ b → lexLt a b = true ∨ lexLt b a = true
  | [], [] => by simp
  | [], _ :: _ => by simp [lexLt]
  | _ :: _, [] => by simp [lexLt]
  | x :: xs, y :: ys => by
    intro h
    simp only [lexLt, Bool.or_eq_true, decide_eq_true_eq, Bool.and_eq_true, beq_iff_eq]
    rcases Nat.lt_trichotomy x y with hxy | hxy | hxy
    · left; left; exact hxy
    · subst hxy
      have hne : xs ≠ ys := fun e => h (by rw [e])
      rcases lexLt_total xs ys hne with h1 | h1
      · left; right; exact ⟨rfl, h1⟩
      · right; right; exact ⟨rfl, h1⟩
    · right; left; exact hxy

theorem lexLt_append_left (k a b : Bytes) : lexLt (k ++ a) (k ++ b) = lexLt a b := by
  induction k with
  | nil => rfl
  | cons x xs ih => simp [lexLt, ih]

theorem lexLt_append_nil (k : Bytes) (x : Nat) (r : Bytes) : lexLt k (k ++ x :: r) = true := by
  have := lexLt_append_left k [] (x :: r)
  simpa [lexLt] using this

theorem keyRange_memberOf (k v : Bytes) : keyRange k (memberOf k v) = true := by
  rw [memberOf_eq]
  simp only [keyRange, inLexRange, aboveMin, belowMax, lexLe, Bool.and_eq_true, Bool.not_eq_true']
  refine ⟨lexLt_asymm _ _ (lexLt_append_nil k 0 _), ?_⟩
  rw [lexLt_append_left]
  simp [lexLt]

theorem cstr_append_zero_cstr (v r : Bytes) : cstr (v ++ 0 :: r) = cstr v := by
  induction v with
  | nil => simp [cstr]
  | cons x xs ih =>
    simp only [cstr] at ih ⊢
    by_cases hx : x = 0
    · simp [List.takeWhile_cons, hx]
    · simp [List.takeWhile_cons, hx, ih]

theorem cstr_of_not_mem (v : Bytes) (hv : 0 ∉ v) : cstr v = v := by
  induction v with
  | nil => rfl
  | cons x xs ih =>
    have hx : x ≠ 0 := fun e => hv (by simp [e])
    have hxs : 0 ∉ xs := fun e => hv (by simp [e])
    have := ih hxs
    simp only [cstr] at this ⊢
    simp [List.takeWhile_cons, hx, this]

theorem cstr_append_zero (k r : Bytes) (hk : 0 ∉ k) : cstr (k ++ 0 :: r) = k := by
  rw [cstr_append_zero_cstr, cstr_of_not_mem k hk]

/-! ## Lemmas: single-slot runs -/

theorem memberOf_not_mem_filter (s : Store) (k v : Bytes) :
    memberOf k v ∉ s.filter (fun m => !keyRange k m) := by
  intro h
  have := (List.mem_filter.mp h).2
  simp [keyRange_memberOf] at this

theorem redisExec_zrem_key (s : Store) (k : Bytes) :
    redisExec s (.zremrangebylex (0x5B :: k) (0x28 :: (k ++ [0xFF]))) =
      (s.filter (fun m => !keyRange k m), .integer ((s.filter (keyRange k)).length)) := by
  simp only [redisExec, parseLexBound_incl, parseLexBound_excl]
  rfl

theorem redisExec_zrange_key (s : Store) (k : Bytes) (n : Nat) :
    redisExec s (.zrangebylex (0x5B :: k) (0x28 :: (k ++ [0xFF])) n) =
      (s, .array (((s.filter (keyRange k)).take n).map RedisReply.str)) := by
  simp only [redisExec, parseLexBound_incl, parseLexBound_excl]
  rfl

theorem redisExec_zadd_new (s : Store) (m : Bytes) (h : m ∉ s) :
    redisExec s (.zadd m) = (insertMember m s, .integer 1) := by
  simp [redisExec, h]

theorem kv_write_one (k v : Bytes) :
    kv_write (launch [pairSlot k v]) =
      some (inFlight [pairSlot k v] 1 [],
        [{ cmd := .zremrangebylex (0x5B :: k) (0x28 :: (k ++ [0xFF])), fn := none, privdata := none },
         { cmd := .zadd (memberOf k v), fn := some .kv_status_cb, privdata := some 0 }]) := by
  simp [kv_write, kv_write_body, launch, pairSlot, List.enum, List.enumFrom, schedule_delete_key_op,
    slotBuf, border_min_sent, border_max_sent, new_ctx, inFlight, memberOf]

theorem kv_del_one (k : Bytes) :
    kv_del (launch [keySlot k]) =
      some (inFlight [keySlot k] 1 [],
        [{ cmd := .zremrangebylex (0x5B :: k) (0x28 :: (k ++ [0xFF])),
           fn := some .kv_status_cb, privdata := some 0 }]) := by
  simp [kv_del, kv_del_body, launch, keySlot, List.enum, List.enumFrom, schedule_delete_key_op,
    slotBuf, border_min_sent, border_max_sent, new_ctx, inFlight]

theorem kv_read_one (sl : KvSlot) (k : Bytes) (hk : sl.key = some k) :
    kv_read (launch [sl]) =
      some (inFlight [sl] 1 [],
        [{ cmd := .zrangebylex (0x5B :: k) (0x28 :: (k ++ [0xFF])) 1,
           fn := some .kv_read_cb, privdata := some 0 }]) := by
  simp [kv_read, kv_read_body, launch, List.enum, List.enumFrom, hk,
    slotBuf, border_min_sent, border_max_sent, new_ctx, inFlight]

theorem kv_status_cb_integer_last (sl : KvSlot) (i : Int) :
    kv_status_cb (some false) (some (.integer i)) (some 0) (inFlight [sl] 1 []) =
      some (finished [{ sl with rc := if i > 0 then 0 else -ENOENT }]
        (if i > 0 then 0 else -ENOENT)) := by
  simp [kv_status_cb, redis_reply_check, inFlight, List.contains, RedisReply.type, updSlot,
    s3_redis_context_obj.setKv, finalize_op, finished]

theorem runOp_kv_write_one (s : Store) (k v : Bytes) :
    runOp kv_write s (launch [pairSlot k v]) =
      some (insertMember (memberOf k v) (s.filter (fun m => !keyRange k m)),
            finished [pairSlot k v] 0) := by
  have hm := memberOf_not_mem_filter s k v
  simp only [runOp, kv_write_one, execAll, redisExec_zrem_key, redisExec_zadd_new _ _ hm,
    deliverAll, deliver, kv_status_cb_integer_last]
  simp [pairSlot]

theorem runOp_kv_del_one (s : Store) (k : Bytes) :
    runOp kv_del s (launch [keySlot k]) =
      some (s.filter (fun m => !keyRange k m),
            finished [{ keySlot k with rc := if (s.filter (keyRange k)).length > 0 then 0 else -ENOENT }]
              (if (s.filter (keyRange k)).length > 0 then 0 else -ENOENT)) := by
  simp only [runOp, kv_del_one, execAll, redisExec_zrem_key,
    deliverAll, deliver, kv_status_cb_integer_last]
  simp

theorem kv_read_cb_empty_last (sl : KvSlot) :
    kv_read_cb (some false) (some (.array [])) (some 0) (inFlight [sl] 1 []) =
      some (finished [{ sl with rc := -ENOENT }] (-ENOENT)) := by
  simp [kv_read_cb, redis_reply_check, inFlight, List.contains, RedisReply.type, updSlot,
    s3_redis_context_obj.setKv, finalize_op, finished]

theorem kv_read_cb_str_last (sl : KvSlot) (m : Bytes) (rest : List RedisReply) (off : Nat)
    (h : parse_val m m.length = some off) :
    kv_read_cb (some false) (some (.array (.str m :: rest))) (some 0) (inFlight [sl] 1 []) =
      some (finished [{ sl with rc := 0, val := some (cstr (m.drop off)) }] 0) := by
  simp [kv_read_cb, redis_reply_check, inFlight, List.contains, RedisReply.type, updSlot,
    s3_redis_context_obj.setKv, finalize_op, finished, h]

theorem runOp_kv_read_none (s : Store) (sl : KvSlot) (k : Bytes) (hk : sl.key = some k)
    (h : s.filter (keyRange k) = []) :
    runOp kv_read s (launch [sl]) = some (s, finished [{ sl with rc := -ENOENT }] (-ENOENT)) := by
  simp only [runOp, kv_read_one sl k hk, execAll, redisExec_zrange_key, h, List.take_nil,
    List.map_nil, deliverAll, deliver, kv_read_cb_empty_last]

theorem runOp_kv_read_some (s : Store) (sl : KvSlot) (k m : Bytes) (l : List Bytes) (off : Nat)
    (hk : sl.key = some k) (h : s.filter (keyRange k) = m :: l)
    (hoff : parse_val m m.length = some off) :
    runOp kv_read s (launch [sl]) =
      some (s, finished [{ sl with rc := 0, val := some (cstr (m.drop off)) }] 0) := by
  simp only [runOp, kv_read_one sl k hk, execAll, redisExec_zrange_key, h, List.take_succ_cons,
    List.take_zero, List.map_cons, List.map_nil, deliverAll, deliver,
    kv_read_cb_str_last sl m [] off hoff]

theorem strlen_memberOf (k v : Bytes) (hk : 0 ∉ k) : strlen (memberOf k v) = k.length := by
  rw [strlen, memberOf_eq, cstr_append_zero k _ hk]

theorem parse_val_memberOf (k v : Bytes) (hk : 0 ∉ k) :
    parse_val (memberOf k v) (memberOf k v).length = some (k.length + 1) := by
  have hl : (memberOf k v).length = k.length + v.length + 2 := by
    rw [memberOf_eq]; simp; omega
  simp only [parse_val, strlen_memberOf k v hk, hl]
  rw [if_pos (by omega)]

theorem drop_memberOf (k v : Bytes) : (memberOf k v).drop (k.length + 1) = v ++ [0] := by
  rw [memberOf_eq]
  have : k ++ 0 :: (v ++ [0]) = (k ++ [0]) ++ (v ++ [0]) := by simp
  rw [this, List.drop_left' (by simp)]

theorem cstr_value_memberOf (k v : Bytes) : cstr ((memberOf k v).drop (k.length + 1)) = cstr v := by
  rw [drop_memberOf]
  have := cstr_append_zero_cstr v []
  simpa using this

theorem mem_insertMember (m x : Bytes) (t : Store) : x ∈ insertMember m t ↔ x = m ∨ x ∈ t := by
  induction t with
  | nil => simp [insertMember]
  | cons y ys ih =>
    simp only [insertMember]
    split
    · simp
    · split
      · rename_i h; subst h; simp
      · simp [ih]; tauto

theorem insertMember_perm (m : Bytes) (t : Store) (h : m ∉ t) :
    (insertMember m t).Perm (m :: t) := by
  induction t with
  | nil => simp [insertMember]
  | cons y ys ih =>
    have hy : m ≠ y := fun e => h (by simp [e])
    have hys : m ∉ ys := fun e => h (by simp [e])
    simp only [insertMember]
    split
    · exact List.Perm.refl _
    · exact ((ih hys).cons y).trans (List.Perm.swap m y ys)

theorem filter_insertMember_fresh (p : Bytes → Bool) (m : Bytes) (t : Store)
    (hm : p m = true) (ht : ∀ x ∈ t, p x = false) : (insertMember m t).filter p = [m] := by
  induction t with
  | nil => simp [insertMember, hm]
  | cons y ys ih =>
    have hy : p y = false := ht y (by simp)
    have hys : ∀ x ∈ ys, p x = false := fun x hx => ht x (by simp [hx])
    have hne : m ≠ y := fun e => by rw [e, hy] at hm; exact absurd hm (by simp)
    have hnil : ys.filter p = [] := by
      rw [List.filter_eq_nil_iff]; intro a ha; simp [hys a ha]
    simp only [insertMember]
    split
    · simp [List.filter_cons, hm, hy, hnil]
    · simp [List.filter_cons, hy, ih hys]

theorem filter_keyRange_after_write (s : Store) (k v : Bytes) :
    (insertMember (memberOf k v) (s.filter (fun m => !keyRange k m))).filter (keyRange k) =
      [memberOf k v] := by
  apply filter_insertMember_fresh _ _ _ (keyRange_memberOf k v)
  intro x hx
  have := (List.mem_filter.mp hx).2
  simpa using this

/-! ## Lemmas: every reply is counted once and finalization follows the count -/

theorem kv_next_loop_safe (cnt : Nat) (es : List RedisReply) (hs : es.all strSafe = true) :
    ∀ (idx : Nat) (kv : List KvSlot) (rc : Int), ∃ r, kv_next_loop cnt es idx kv rc = some r := by
  induction es with
  | nil => intro idx kv rc; exact ⟨_, rfl⟩
  | cons e es ih =>
    intro idx kv rc
    simp only [List.all_cons, Bool.and_eq_true] at hs
    cases e with
    | str s =>
      have h1 : (parse_val s s.length).isSome = true := hs.1
      obtain ⟨off, hoff⟩ := Option.isSome_iff_exists.mp h1
      by_cases hlt : idx < cnt
      · simp only [kv_next_loop, hlt, if_true, hoff]
        exact ih hs.2 _ _ _
      · simp only [kv_next_loop, hlt, if_false]
        exact ⟨_, rfl⟩
    | nil => exact ⟨_, rfl⟩
    | status _ => exact ⟨_, rfl⟩
    | integer _ => exact ⟨_, rfl⟩
    | array _ => exact ⟨_, rfl⟩
    | error _ => exact ⟨_, rfl⟩

theorem counted_intro (op op1 : m0_clovis_op) (x : Option m0_clovis_op)
    (h : x = finalize_op op1) (hc : CountedOnce op op1) :
    ∃ op1, x = finalize_op op1 ∧ CountedOnce op op1 := ⟨op1, h, hc⟩

theorem kv_status_cb_counts (e : Bool) (reply : Option RedisReply) (i : Nat) (op : m0_clovis_op)
    (c : s3_redis_context_obj) (hc : op.op_datum = .redis c) :
    ∃ op1, kv_status_cb (some e) reply (some i) op = finalize_op op1 ∧ CountedOnce op op1 := by
  cases reply with
  | none =>
    apply counted_intro
    · simp only [kv_status_cb, redis_reply_check, hc]; rfl
    · exact ⟨rfl, c, _, hc, rfl, rfl, rfl⟩
  | some r =>
    cases e with
    | true =>
      apply counted_intro
      · simp only [kv_status_cb, redis_reply_check, hc]; rfl
      · exact ⟨rfl, c, _, hc, rfl, rfl, rfl⟩
    | false =>
      cases r <;> (
        apply counted_intro
        · simp [kv_status_cb, redis_reply_check, hc, RedisReply.type]; rfl
        · exact ⟨rfl, c, _, hc, rfl, rfl, rfl⟩)

theorem kv_read_cb_counts (e : Bool) (reply : Option RedisReply) (i : Nat) (op : m0_clovis_op)
    (c : s3_redis_context_obj) (hc : op.op_datum = .redis c)
    (hs : ∀ r, reply = some r → replySafe r = true) :
    ∃ op1, kv_read_cb (some e) reply (some i) op = finalize_op op1 ∧ CountedOnce op op1 := by
  cases reply with
  | none =>
    apply counted_intro
    · simp only [kv_read_cb, redis_reply_check, hc]; rfl
    · exact ⟨rfl, c, _, hc, rfl, rfl, rfl⟩
  | some r =>
    have hr := hs r rfl
    cases e with
    | true =>
      apply counted_intro
      · simp only [kv_read_cb, redis_reply_check, hc]; rfl
      · exact ⟨rfl, c, _, hc, rfl, rfl, rfl⟩
    | false =>
      cases r with
      | str s =>
        obtain ⟨off, hoff⟩ := Option.isSome_iff_exists.mp (show (parse_val s s.length).isSome = true from hr)
        apply counted_intro
        · simp [kv_read_cb, redis_reply_check, hc, RedisReply.type, hoff]; rfl
        · exact ⟨rfl, c, _, hc, rfl, rfl, rfl⟩
      | array es =>
        cases es with
        | nil =>
          apply counted_intro
          · simp [kv_read_cb, redis_reply_check, hc, RedisReply.type]; rfl
          · exact ⟨rfl, c, _, hc, rfl, rfl, rfl⟩
        | cons e0 rest =>
          simp only [replySafe, List.all_cons, Bool.and_eq_true] at hr
          cases e0 with
          | str s =>
            obtain ⟨off, hoff⟩ := Option.isSome_iff_exists.mp
              (show (parse_val s s.length).isSome = true from hr.1)
            apply counted_intro
            · simp [kv_read_cb, redis_reply_check, hc, RedisReply.type, hoff]; rfl
            · exact ⟨rfl, c, _, hc, rfl, rfl, rfl⟩
          | nil =>
            apply counted_intro
            · simp [kv_read_cb, redis_reply_check, hc, RedisReply.type]; rfl
            · exact ⟨rfl, c, _, hc, rfl, rfl, rfl⟩
          | status _ =>
            apply counted_intro
            · simp [kv_read_cb, redis_reply_check, hc, RedisReply.type]; rfl
            · exact ⟨rfl, c, _, hc, rfl, rfl, rfl⟩
          | integer _ =>
            apply counted_intro
            · simp [kv_read_cb, redis_reply_check, hc, RedisReply.type]; rfl
            · exact ⟨rfl, c, _, hc, rfl, rfl, rfl⟩
          | array _ =>
            apply counted_intro
            · simp [kv_read_cb, redis_reply_check, hc, RedisReply.type]; rfl
            · exact ⟨rfl, c, _, hc, rfl, rfl, rfl⟩
          | error _ =>
            apply counted_intro
            · simp [kv_read_cb, redis_reply_check, hc, RedisReply.type]; rfl
            · exact ⟨rfl, c, _, hc, rfl, rfl, rfl⟩
      | nil =>
        apply counted_intro
        · simp [kv_read_cb, redis_reply_check, hc, RedisReply.type]; rfl
        · exact ⟨rfl, c, _, hc, rfl, rfl, rfl⟩
      | status _ =>
        apply counted_intro
        · simp [kv_read_cb, redis_reply_check, hc, RedisReply.type]; rfl
        · exact ⟨rfl, c, _, hc, rfl, rfl, rfl⟩
      | integer _ =>
        apply counted_intro
        · simp [kv_read_cb, redis_reply_check, hc, RedisReply.type]; rfl
        · exact ⟨rfl, c, _, hc, rfl, rfl, rfl⟩
      | error _ =>
        apply counted_intro
        · simp [kv_read_cb, redis_reply_check, hc, RedisReply.type]; rfl
        · exact ⟨rfl, c, _, hc, rfl, rfl, rfl⟩

theorem kv_next_pending_safe (reply : RedisReply) (skip : Bytes) (hs : replySafe reply = true) :
    (kv_next_pending reply skip).all strSafe = true := by
  have h0 : ∀ (p : List RedisReply), p.all strSafe = true →
      (match p with
        | .str s :: es =>
          if skip.length > 0 ∧ cstr (s.drop (parse_key s s.length)) = skip then es else p
        | _ => p).all strSafe = true := by
    intro p hp
    split
    · split
      · simp only [List.all_cons, Bool.and_eq_true] at hp; exact hp.2
      · exact hp
    · exact hp
  unfold kv_next_pending
  apply h0
  cases reply with
  | array es =>
    cases es with
    | nil => rfl
    | cons e0 rest => exact hs
  | str s => simpa [strSafe, replySafe] using hs
  | nil => rfl
  | status _ => rfl
  | integer _ => rfl
  | error _ => rfl

theorem kv_next_cb_counts (e : Bool) (reply : Option RedisReply) (i : Nat) (op : m0_clovis_op)
    (c : s3_redis_context_obj) (hc : op.op_datum = .redis c)
    (hs : ∀ r, reply = some r → replySafe r = true) :
    ∃ op1, kv_next_cb (some e) reply (some i) op = finalize_op op1 ∧ CountedOnce op op1 := by
  cases reply with
  | none =>
    apply counted_intro
    · simp only [kv_next_cb, redis_reply_check, hc]; rfl
    · exact ⟨rfl, c, _, hc, rfl, rfl, rfl⟩
  | some r =>
    have hr := hs r rfl
    cases e with
    | true =>
      apply counted_intro
      · simp only [kv_next_cb, redis_reply_check, hc]; rfl
      · exact ⟨rfl, c, _, hc, rfl, rfl, rfl⟩
    | false =>
      by_cases ht : [ReplyType.REDIS_REPLY_STRING, .REDIS_REPLY_NIL, .REDIS_REPLY_ARRAY].contains r.type
          = true
      · obtain ⟨⟨kv1, rc1⟩, hloop⟩ := kv_next_loop_safe c.prev_ctx.kv.length
          (kv_next_pending r c.skip_value) (kv_next_pending_safe r c.skip_value hr) 0
          (c.prev_ctx.kv.map (fun sl => { sl with rc := -ENOENT })) (-ENOENT)
        apply counted_intro
        · simp only [kv_next_cb, redis_reply_check, hc, ht, Bool.not_true, Bool.false_eq_true,
            if_false]
          simp only [s3_redis_context_obj.setKv, hloop]
          rfl
        · exact ⟨rfl, c, _, hc, rfl, rfl, rfl⟩
      · apply counted_intro
        · simp only [kv_next_cb, redis_reply_check, hc, ht, Bool.not_false, if_true,
            Bool.false_eq_true, if_false]
          rfl
        · exact ⟨rfl, c, _, hc, rfl, rfl, rfl⟩

theorem finalize_op_counted (op op1 : m0_clovis_op) (r : Nat) (hr : Remaining op (r + 1))
    (h : CountedOnce op op1) :
    ∃ op2, finalize_op op1 = some op2 ∧
      (0 < r → Remaining op2 r ∧ op2.signals = op.signals) ∧ (r = 0 → CompletedFrom op op2) := by
  obtain ⟨hsig, c, c1, hc, hc1, hn, hcnt⟩ := h
  obtain ⟨c', hc', hrem⟩ := hr
  rw [hc] at hc'
  cases hc'
  by_cases h0 : 0 < r
  · refine ⟨op1, ?_, fun _ => ⟨⟨c1, hc1, by omega⟩, hsig⟩, fun h => by omega⟩
    simp only [finalize_op, hc1]
    rw [if_pos (by omega)]
  · have hr0 : r = 0 := by omega
    subst hr0
    have hle : ¬ (c1.async_ops_cnt > c1.replies_cnt) := by omega
    cases hhe : c1.had_error with
    | false =>
      refine ⟨_, by simp only [finalize_op, hc1, if_neg hle, hhe]; rfl, fun h => by omega, fun _ => ?_⟩
      exact ⟨⟨_, by rw [← hsig]⟩, _, rfl⟩
    | true =>
      refine ⟨_, by simp only [finalize_op, hc1, if_neg hle, hhe]; rfl, fun h => by omega, fun _ => ?_⟩
      exact ⟨⟨_, by rw [← hsig]⟩, _, rfl⟩

theorem deliver_counts (d : Delivery) (op : m0_clovis_op) (c : s3_redis_context_obj)
    (hd : d.safe = true) (hc : op.op_datum = .redis c) :
    ∃ op1, deliver d op = finalize_op op1 ∧ CountedOnce op op1 := by
  obtain ⟨fn, privdata, glob, reply⟩ := d
  simp only [Delivery.safe, Bool.and_eq_true] at hd
  obtain ⟨⟨⟨h1, h2⟩, h3⟩, h4'⟩ := hd
  obtain ⟨f, rfl⟩ := Option.isSome_iff_exists.mp h1
  obtain ⟨i, rfl⟩ := Option.isSome_iff_exists.mp h2
  obtain ⟨e, rfl⟩ := Option.isSome_iff_exists.mp h3
  have h4 : ∀ r, reply = some r → replySafe r = true := by
    intro r hr
    subst hr
    exact h4'
  cases f with
  | kv_read_cb => exact kv_read_cb_counts e reply i op c hc h4
  | kv_next_cb => exact kv_next_cb_counts e reply i op c hc h4
  | kv_status_cb => exact kv_status_cb_counts e reply i op c hc

theorem deliver_progress (d : Delivery) (op : m0_clovis_op) (r : Nat)
    (hd : d.safe = true) (hr : Remaining op (r + 1)) :
    ∃ op2, deliver d op = some op2 ∧
      (0 < r → Remaining op2 r ∧ op2.signals = op.signals) ∧ (r = 0 → CompletedFrom op op2) := by
  obtain ⟨c, hc, _⟩ := id hr
  obtain ⟨op1, h1, hcount⟩ := deliver_counts d op c hd hc
  rw [h1]
  exact finalize_op_counted op op1 r hr hcount

theorem deliverAll_progress : ∀ (ds : List Delivery) (op : m0_clovis_op) (r : Nat),
    (∀ d ∈ ds, d.safe = true) → Remaining op r → ds.length ≤ r →
    ∃ op2, deliverAll ds op = some op2 ∧
      (ds.length < r → Remaining op2 (r - ds.length) ∧ op2.signals = op.signals) ∧
      (ds.length = r → 0 < r → CompletedFrom op op2)
  | [], op, r, _, hr, _ => ⟨op, rfl, fun _ => ⟨by simpa using hr, rfl⟩, fun h h0 => by
      simp at h; omega⟩
  | d :: ds, op, r, hs, hr, hlen => by
    have hlen' : ds.length + 1 ≤ r := by simpa using hlen
    obtain ⟨r', rfl⟩ : ∃ r', r = r' + 1 := ⟨r - 1, by omega⟩
    obtain ⟨op1, h1, hpos, hzero⟩ := deliver_progress d op r' (hs d (by simp)) hr
    simp only [deliverAll, h1]
    by_cases h0 : r' = 0
    · subst h0
      have hnil : ds = [] := by
        cases ds with
        | nil => rfl
        | cons _ _ => simp at hlen'
      subst hnil
      exact ⟨op1, rfl, fun h => by simp at h, fun _ _ => hzero rfl⟩
    · obtain ⟨hrem, hsig⟩ := hpos (by omega)
      obtain ⟨op2, h2, hlt, heq⟩ := deliverAll_progress ds op1 r'
        (fun d hd => hs d (by simp [hd])) hrem (by omega)
      refine ⟨op2, h2, fun h => ?_, fun h _ => ?_⟩
      · have hl : ds.length < r' := by simpa using h
        obtain ⟨ha, hb⟩ := hlt hl
        refine ⟨?_, by rw [hb, hsig]⟩
        have : r' + 1 - (d :: ds).length = r' - ds.length := by simp
        rw [this]; exact ha
      · have hl : ds.length = r' := by simpa using h
        obtain ⟨⟨sig, hsg⟩, hcc⟩ := heq hl (by omega)
        exact ⟨⟨sig, by rw [hsg, hsig]⟩, hcc⟩

theorem callbackCount_map_enumFrom (f : Nat × KvSlot → AsyncCommand)
    (hf : ∀ x, (f x).fn.isSome = true) (kv : List KvSlot) (i : Nat) :
    callbackCount ((kv.enumFrom i).map f) = kv.length := by
  induction kv generalizing i with
  | nil => rfl
  | cons sl rest ih =>
    have := ih (i + 1)
    simp only [callbackCount] at this ⊢
    simp [List.enumFrom, List.filter_cons, hf, this]

theorem callbackCount_flatMap_enumFrom (f : Nat × KvSlot → List AsyncCommand)
    (hf : ∀ x, callbackCount (f x) = 1) (kv : List KvSlot) (i : Nat) :
    callbackCount ((kv.enumFrom i).flatMap f) = kv.length := by
  induction kv generalizing i with
  | nil => rfl
  | cons sl rest ih =>
    have h1 := ih (i + 1)
    have h2 := hf (i, sl)
    simp only [callbackCount] at h1 h2 ⊢
    simp [List.enumFrom, List.flatMap_cons, List.filter_append, h1, h2]
    omega

theorem issue_launch (kind : KvsOpKind) (kv : List KvSlot) (hkv : kv ≠ []) :
    ∃ op1 cmds, kind.issue (launch kv) = some (op1, cmds) ∧ op1.signals = [] ∧
      Remaining op1 (expectedReplies kind kv) ∧ callbackCount cmds = expectedReplies kind kv := by
  cases kind with
  | kv_read =>
    simp only [KvsOpKind.issue, kv_read, launch]
    refine ⟨_, _, rfl, rfl, ⟨_, rfl, ?_⟩, ?_⟩
    · simp [new_ctx, expectedReplies]
    · show callbackCount ((kv.enumFrom 0).map _) = kv.length
      apply callbackCount_map_enumFrom
      intro x
      rfl
  | kv_del =>
    simp only [KvsOpKind.issue, kv_del, launch]
    refine ⟨_, _, rfl, rfl, ⟨_, rfl, ?_⟩, ?_⟩
    · simp [new_ctx, expectedReplies]
    · show callbackCount ((kv.enumFrom 0).map _) = kv.length
      apply callbackCount_map_enumFrom
      intro x
      rfl
  | kv_write =>
    simp only [KvsOpKind.issue, kv_write, launch]
    refine ⟨_, _, rfl, rfl, ⟨_, rfl, ?_⟩, ?_⟩
    · simp [new_ctx, expectedReplies]
    · show callbackCount ((kv.enumFrom 0).flatMap _) = kv.length
      apply callbackCount_flatMap_enumFrom
      intro x
      rfl
  | kv_next =>
    cases kv with
    | nil => exact absurd rfl hkv
    | cons sl0 rest =>
      by_cases h : (slotBuf sl0.key).length > 0
      · simp only [KvsOpKind.issue, kv_next, launch, h, if_true]
        refine ⟨_, _, rfl, rfl, ⟨_, rfl, ?_⟩, rfl⟩
        simp [new_ctx, expectedReplies]
      · simp only [KvsOpKind.issue, kv_next, launch, h, if_false]
        refine ⟨_, _, rfl, rfl, ⟨_, rfl, ?_⟩, rfl⟩
        simp [new_ctx, expectedReplies]

/-- C10 (as amended): for each of `kv_read`, `kv_write`, `kv_del` on a batch of
`n >= 1` keys and for `kv_next` (one reply), and for every sequence `ds` of
replies, one per command that carries a callback, in any arrival order and of
any tag (null and error replies included): after `j < n` replies nothing has
been signalled and `async_ops_cnt - replies_cnt = n - j`; the last reply, after
which the two counts are equal, restores the prior context and signals the op
(stable or failed) exactly once. -/
theorem finalize_op_exactly_once (kind : KvsOpKind) (kv : List KvSlot) (ds : List Delivery)
    (hkv : kv ≠ []) (hsafe : ∀ d ∈ ds, d.safe = true)
    (hlen : ds.length = expectedReplies kind kv) :
    ∃ op1 cmds, kind.issue (launch kv) = some (op1, cmds) ∧
      callbackCount cmds = ds.length ∧
      (∀ j, j < ds.length → ∃ opj, deliverAll (ds.take j) op1 = some opj ∧
        opj.signals = [] ∧ outstanding opj = some ((ds.length - j : Nat) : Int)) ∧
      (∃ opn sig, deliverAll ds op1 = some opn ∧ opn.signals = [sig] ∧
        outstanding opn = none) := by
  obtain ⟨op1, cmds, hissue, hsig, hrem, hcount⟩ := issue_launch kind kv hkv
  refine ⟨op1, cmds, hissue, by rw [hcount, hlen], ?_, ?_⟩
  · intro j hj
    have hs : ∀ d ∈ ds.take j, d.safe = true :=
      fun d hd => hsafe d (List.mem_of_mem_take hd)
    have hl : (ds.take j).length = j := by simp; omega
    obtain ⟨opj, h1, h2, _⟩ := deliverAll_progress (ds.take j) op1 _ hs hrem (by rw [hl]; omega)
    obtain ⟨⟨c, hc, hcnt⟩, hb⟩ := h2 (by rw [hl]; omega)
    refine ⟨opj, h1, by rw [hb, hsig], ?_⟩
    rw [hl, ← hlen] at hcnt
    simp only [outstanding, hc, hcnt]
    congr 1
    omega
  · obtain ⟨opn, h1, _, h3⟩ := deliverAll_progress ds op1 _ hsafe hrem (by omega)
    have hpos : 0 < expectedReplies kind kv := by
      cases kind <;> simp [expectedReplies] <;> exact List.length_pos.mpr hkv
    obtain ⟨⟨sig, hsg⟩, cc, hcc⟩ := h3 hlen hpos
    exact ⟨opn, sig, h1, by rw [hsg, hsig]; rfl, by simp only [outstanding, hcc]⟩

/-- Witness of C10: a point read of two keys whose replies arrive in the
reverse order of the commands. -/
theorem finalize_op_exactly_once_witness :
    ∃ op1 cmds, KvsOpKind.kv_read.issue (launch [keySlot [0x61], keySlot [0x62]]) =
        some (op1, cmds) ∧
      callbackCount cmds = reversedReplies.length ∧
      (∀ j, j < reversedReplies.length → ∃ opj,
        deliverAll (reversedReplies.take j) op1 = some opj ∧
        opj.signals = [] ∧ outstanding opj = some ((reversedReplies.length - j : Nat) : Int)) ∧
      (∃ opn sig, deliverAll reversedReplies op1 = some opn ∧ opn.signals = [sig] ∧
        outstanding opn = none) :=
  finalize_op_exactly_once .kv_read [keySlot [0x61], keySlot [0x62]] reversedReplies
    (by decide) (by decide) rfl

/-- C10 as stated fails for an empty batch (`n = 0`): `kv_read` installs the
shim context with `async_ops_cnt = replies_cnt = 0` and issues no command, so
no reply arrives and the op is left in flight, never signalled. -/
theorem empty_batch_never_finalized :
    runOp kv_read [] (launch []) = some ([], inFlight [] 0 []) ∧
      kv_read (launch []) = some (inFlight [] 0 [], []) ∧
      (inFlight [] 0 []).signals = [] := by
  decide

/-! ## Read after write (C1) -/

/-- C1 (as amended): for every prior store state, every key `k` without a
`0x00` byte (non-empty and without `0xFF` or not) and every value `v`,
`kv_write(k, v)` followed by `kv_read(k)` completes with per-key code 0, batch
code 0, and the returned value is `v` up to its first `0x00` byte; it is `v`
itself when `v` contains no `0x00` byte. -/
theorem kv_read_after_kv_write (s : Store) (k v : Bytes) (r0 : Int) (hk : 0 ∉ k) :
    ∃ s1 op1, runOp kv_write s (launch [pairSlot k v]) = some (s1, op1) ∧
      runOp kv_read s1 (launch [{ key := some k, val := none, rc := r0 }]) =
        some (s1, finished [{ key := some k, val := some (cstr v), rc := 0 }] 0) ∧
      (0 ∉ v → cstr v = v) := by
  refine ⟨_, _, runOp_kv_write_one s k v, ?_, cstr_of_not_mem v⟩
  rw [runOp_kv_read_some _ _ k (memberOf k v) [] (k.length + 1) rfl
    (filter_keyRange_after_write s k v) (parse_val_memberOf k v hk), cstr_value_memberOf]

/-- Witness of C1 on a store that already holds another key. -/
theorem kv_read_after_kv_write_witness :
    ∃ s1 op1, runOp kv_write [[0x61, 0, 0x78, 0]] (launch [pairSlot [0x6B] [0x76]]) = some (s1, op1) ∧
      runOp kv_read s1 (launch [{ key := some [0x6B], val := none, rc := 7 }]) =
        some (s1, finished [{ key := some [0x6B], val := some (cstr [0x76]), rc := 0 }] 0) ∧
      (0 ∉ [0x76] → cstr [0x76] = [0x76]) :=
  kv_read_after_kv_write [[0x61, 0, 0x78, 0]] [0x6B] [0x76] 7 (by decide)

/-- C1 as stated fails for a value with an embedded `0x00` byte: after writing
key `k` = "k" with value "a\0b" to the empty store, reading `k` returns the
value "a", not the value written. -/
theorem kv_read_truncates_value_at_nul :
    runOp kv_write [] (launch [pairSlot [0x6B] [0x61, 0, 0x62]]) =
        some ([[0x6B, 0, 0x61, 0, 0x62, 0]], finished [pairSlot [0x6B] [0x61, 0, 0x62]] 0) ∧
      runOp kv_read [[0x6B, 0, 0x61, 0, 0x62, 0]] (launch [keySlot [0x6B]]) =
        some ([[0x6B, 0, 0x61, 0, 0x62, 0]],
          finished [{ key := some [0x6B], val := some [0x61], rc := 0 }] 0) ∧
      ([0x61] : Bytes) ≠ [0x61, 0, 0x62] := by
  decide

/-! ## Reading a key that was never written (C3) -/

/-- C3 at the failing input: on the store built by `kv_write("ab", "v")` alone,
`kv_read("a")` of the never written key "a" ends with per-slot code 0, batch
code 0 and the value "v" of the key "ab". -/
theorem kv_read_unwritten_key_returns_longer_key :
    runOp kv_write [] (launch [pairSlot [0x61, 0x62] [0x76]]) =
        some ([[0x61, 0x62, 0, 0x76, 0]], finished [pairSlot [0x61, 0x62] [0x76]] 0) ∧
      runOp kv_read [[0x61, 0x62, 0, 0x76, 0]] (launch [keySlot [0x61]]) =
        some ([[0x61, 0x62, 0, 0x76, 0]],
          finished [{ key := some [0x61], val := some [0x76], rc := 0 }] 0) := by
  decide

end S3Kvs

namespace S3Put

/-! ## The join of write and chunk authentication (C6) -/

/-- C6 at the failing input: a chunked upload whose chunk details were handed
to the auth client and whose final write was issued; the write succeeds with
no buffered bytes left, then chunk authentication succeeds.  After both
outcomes there is no `next()`, no run of the terminal classifier and no
response.  The same holds for: write fails then auth succeeds, auth succeeds
then write fails, auth fails then write fails. -/
theorem chunked_join_left_waiting :
    outcome (((write_object chunkedUpload).bind (final_write_returns true)).bind
        chunk_auth_successful) = some (0, 0, 0) ∧
      outcome (((write_object chunkedUpload).bind (final_write_returns false)).bind
        chunk_auth_successful) = some (0, 0, 0) ∧
      outcome (((write_object chunkedUpload).bind chunk_auth_successful).bind
        (final_write_returns false)) = some (0, 0, 0) ∧
      outcome (((write_object chunkedUpload).bind chunk_auth_failed).bind
        (final_write_returns false)) = some (0, 0, 0) := by
  decide

/-- The four other orders of the join do act: auth succeeds then write
succeeds advances once; the three orders that end in the classifier send two
responses each. -/
theorem chunked_join_other_orders :
    outcome (((write_object chunkedUpload).bind chunk_auth_successful).bind
        (final_write_returns true)) = some (1, 0, 0) ∧
      outcome (((write_object chunkedUpload).bind (final_write_returns true)).bind
        chunk_auth_failed) = some (0, 1, 2) ∧
      outcome (((write_object chunkedUpload).bind chunk_auth_failed).bind
        (final_write_returns true)) = some (0, 1, 2) ∧
      outcome (((write_object chunkedUpload).bind (final_write_returns false)).bind
        chunk_auth_failed) = some (0, 1, 2) := by
  decide

/-! ## The terminal classifier (C7, C8) -/

/-- C7 at the failing input: a chunked request with `auth_failed` set, bucket
and multipart metadata present, part-1 metadata present, writer saved (the
state in which `write_object_successful` calls the classifier after a failed
chunk authentication).  The classifier sends `SignatureDoesNotMatch` and then
also `InternalError`; with the bucket missing instead, it sends
`SignatureDoesNotMatch` and then also `NoSuchBucket`. -/
theorem classifier_sends_second_response_after_signature :
    (send_response_to_s3_client
        (classifierInput true true .present .present .present .saved)).map
      (fun a => responses a.trace) =
      some [.send_response_error .SignatureDoesNotMatch, .send_response_error .InternalError] ∧
    (send_response_to_s3_client
        (classifierInput true true .missing .present .present .saved)).map
      (fun a => responses a.trace) =
      some [.send_response_error .SignatureDoesNotMatch, .send_response_error .NoSuchBucket] := by
  decide

/-- C8 at its failing inputs: for a chunked request with `auth_failed` set, one
invocation of the classifier calls `request->send_response` twice, whatever the
states of bucket, multipart metadata, part metadata and writer (the case of the
claim, bucket missing, included). -/
theorem classifier_sends_twice_when_auth_failed (bucket : S3BucketMetadataState)
    (multipart : S3ObjectMetadataState) (part : S3PartMetadataState)
    (writer : S3ClovisWriterOpState) :
    (send_response_to_s3_client
        (classifierInput true true bucket multipart part writer)).map
      (fun a => countResponses a.trace) = some 2 := by
  cases bucket <;> cases multipart <;> cases part <;> cases writer <;> rfl

/-- Without the signature failure the classifier sends exactly one response. -/
theorem classifier_sends_once_otherwise (is_chunked auth_failed : Bool)
    (bucket : S3BucketMetadataState) (multipart : S3ObjectMetadataState)
    (part : S3PartMetadataState) (writer : S3ClovisWriterOpState)
    (h : (is_chunked && auth_failed) = false) :
    (send_response_to_s3_client
        (classifierInput is_chunked auth_failed bucket multipart part writer)).map
      (fun a => countResponses a.trace) = some 1 := by
  cases is_chunked <;> cases auth_failed <;> first
    | exact absurd h (by decide)
    | (cases bucket <;> cases multipart <;> cases part <;> cases writer <;> rfl)

/-! ## The part offset (C9) -/

theorem toNat_emod_mul_emod (i : Int) (n M : Nat) (hM : 0 < M) :
    (((i % (M : Int)).toNat * (n % M) % M : Nat) : Int) = (i * n) % (M : Int) := by
  have hM' : (M : Int) ≠ 0 := by omega
  have h1 : (0 : Int) ≤ i % (M : Int) := Int.emod_nonneg _ hM'
  push_cast
  rw [Int.toNat_of_nonneg h1]
  rw [Int.mul_emod, Int.emod_emod_of_dvd _ (dvd_refl _), Int.emod_emod_of_dvd _ (dvd_refl _),
    ← Int.mul_emod]

theorem to_size_t_mul_mod (i : Int) (n : Nat) :
    ((to_size_t i * (n % 2 ^ 64) % 2 ^ 64 : Nat) : Int) = (i * n) % 2 ^ 64 := by
  have h := toNat_emod_mul_emod i n (2 ^ 64) (by norm_num)
  have e : ((2 ^ 64 : Nat) : Int) = 2 ^ 64 := by norm_num
  rw [e] at h
  exact h

theorem to_int_of_in_range (i : Int) (hlo : INT_MIN ≤ i) (hhi : i ≤ INT_MAX) : to_int i = i := by
  simp only [INT_MIN, INT_MAX] at hlo hhi
  simp only [to_int]
  omega

/-- C9 (as amended): `compute_part_offset` creates the writer at offset 0 when
`part_number = 1`, whatever `part_metadata` is (it is not read, it may be
null); for every other `int` part number above `INT_MIN` (so that
`part_number - 1` is an `int`) and every part-1 length `L` it creates the
writer at `(part_number - 1) * L` modulo `2 ^ 64`; in both cases it then calls
`next()` exactly once and does nothing else. -/
theorem compute_part_offset_spec (a : S3PutMultiObjectAction)
    (hlo : INT_MIN < a.part_number) (hhi : a.part_number ≤ INT_MAX) :
    (a.part_number = 1 → compute_part_offset a = some (withWriter a 0)) ∧
    (∀ part : S3PartMetadata, a.part_number ≠ 1 → a.part_metadata = some part →
      ∃ offset : Nat, compute_part_offset a = some (withWriter a offset) ∧
        (offset : Int) = ((a.part_number - 1) * (part.content_length : Int)) % 2 ^ 64) ∧
    (∀ offset, countNext (withWriter a offset).trace = countNext a.trace + 1) := by
  have hsub : to_int (a.part_number - 1) = a.part_number - 1 := by
    apply to_int_of_in_range
    · simp only [INT_MIN] at hlo ⊢
      omega
    · simp only [INT_MAX] at hhi ⊢
      omega
  refine ⟨fun h1 => ?_, fun part hne hp => ?_, fun offset => ?_⟩
  · simp [compute_part_offset, h1, withWriter, S3PutMultiObjectAction.emit]
  · refine ⟨_, ?_, to_size_t_mul_mod (a.part_number - 1) part.content_length⟩
    simp [compute_part_offset, hne, hp, hsub, withWriter, S3PutMultiObjectAction.emit]
  · simp [withWriter, countNext, List.filter_append]

/-- Witness of C9: part 1 gets offset 0 without part metadata; part 3 with a
part-1 length of 1048576 gets offset 2097152. -/
theorem compute_part_offset_spec_witness :
    compute_part_offset partOne = some (withWriter partOne 0) ∧
    (∃ offset : Nat, compute_part_offset partThree = some (withWriter partThree offset) ∧
        (offset : Int) = ((3 - 1) * ((1048576 : Nat) : Int)) % 2 ^ 64) ∧
    compute_part_offset partThree = some (withWriter partThree 2097152) ∧
    countNext (withWriter partThree 2097152).trace = countNext partThree.trace + 1 :=
  ⟨(compute_part_offset_spec partOne (by decide) (by decide)).1 rfl,
   (compute_part_offset_spec partThree (by decide) (by decide)).2.1 _ (by decide) rfl,
   by decide,
   (compute_part_offset_spec partThree (by decide) (by decide)).2.2 2097152⟩

/-- C9 as stated fails at `part_number = INT_MIN` with a part-1 length of 3:
`part_number - 1` does not fit an `int` and comes out as `INT_MAX`, so the
writer is created at offset 3 * 2147483647 = 6442450941, while
`(part_number - 1) * L` modulo `2 ^ 64` is 18446744067267100669. -/
theorem compute_part_offset_at_int_min :
    partIntMin.part_number = INT_MIN ∧
      to_int (partIntMin.part_number - 1) = INT_MAX ∧
      compute_part_offset partIntMin = some (withWriter partIntMin 6442450941) ∧
      ((partIntMin.part_number - 1) * ((3 : Nat) : Int)) % 2 ^ 64 = 18446744067267100669 ∧
      ((6442450941 : Nat) : Int) ≠ 18446744067267100669 := by
  decide

end S3Put

namespace S3Kvs

/-! ## Lemmas: a batch of writes or deletes run to completion -/

theorem kv_write_body_pair (i : Nat) (k v : Bytes) :
    kv_write_body i (pairSlot k v) =
      [{ cmd := .zremrangebylex (0x5B :: k) (0x28 :: (k ++ [0xFF])), fn := none, privdata := none },
       { cmd := .zadd (memberOf k v), fn := some .kv_status_cb, privdata := some i }] := by
  simp [kv_write_body, pairSlot, schedule_delete_key_op, slotBuf, border_min_sent,
    border_max_sent, memberOf]

theorem kv_del_body_key (i : Nat) (k : Bytes) :
    kv_del_body i (keySlot k) =
      { cmd := .zremrangebylex (0x5B :: k) (0x28 :: (k ++ [0xFF])),
        fn := some .kv_status_cb, privdata := some i } := by
  simp [kv_del_body, keySlot, schedule_delete_key_op, slotBuf, border_min_sent, border_max_sent]

theorem status_delivery_safe (i : Nat) (n : Int) :
    Delivery.safe { fn := some .kv_status_cb, privdata := some i, glob_redis_ctx := some false,
                    reply := some (.integer n) } = true :=
  rfl

theorem writeCmds_cons (i : Nat) (p : Bytes × Bytes) (ps : List (Bytes × Bytes)) :
    writeCmds i (p :: ps) =
      { cmd := .zremrangebylex (0x5B :: p.1) (0x28 :: (p.1 ++ [0xFF])), fn := none,
        privdata := none } ::
      { cmd := .zadd (memberOf p.1 p.2), fn := some .kv_status_cb, privdata := some i } ::
      writeCmds (i + 1) ps := by
  simp [writeCmds, List.enumFrom_cons, List.flatMap_cons, kv_write_body_pair]

theorem delCmds_cons (i : Nat) (k : Bytes) (ks : List Bytes) :
    delCmds i (k :: ks) =
      { cmd := .zremrangebylex (0x5B :: k) (0x28 :: (k ++ [0xFF])),
        fn := some .kv_status_cb, privdata := some i } :: delCmds (i + 1) ks := by
  simp [delCmds, List.enumFrom_cons, kv_del_body_key]

theorem run_write_batch : ∀ (pairs : List (Bytes × Bytes)) (s : Store) (i : Nat)
    (op : m0_clovis_op) (r : Nat), Remaining op r → pairs.length ≤ r →
    (execAll s (writeCmds i pairs)).1 = pairs.foldl putPair s ∧
    ∃ op2, deliverAll (execAll s (writeCmds i pairs)).2 op = some op2
  | [], s, i, op, r, _, _ => ⟨rfl, op, rfl⟩
  | p :: ps, s, i, op, r, hr, hlen => by
    have hlen' : ps.length + 1 ≤ r := by simpa using hlen
    obtain ⟨r', rfl⟩ : ∃ r', r = r' + 1 := ⟨r - 1, by omega⟩
    have hm := memberOf_not_mem_filter s p.1 p.2
    obtain ⟨op1, h1, hpos, _⟩ := deliver_progress _ op r' (status_delivery_safe i 1) hr
    simp only [deliver] at h1
    rw [writeCmds_cons]
    simp only [execAll, redisExec_zrem_key,
      redisExec_zadd_new _ _ hm, List.foldl_cons, deliverAll, deliver, h1]
    by_cases h0 : r' = 0
    · have hnil : ps = [] := by
        cases ps with
        | nil => rfl
        | cons _ _ => simp at hlen'; omega
      subst hnil
      exact ⟨rfl, op1, rfl⟩
    · obtain ⟨hrem, _⟩ := hpos (by omega)
      exact run_write_batch ps _ (i + 1) op1 r' hrem (by omega)

theorem run_del_batch : ∀ (keys : List Bytes) (s : Store) (i : Nat)
    (op : m0_clovis_op) (r : Nat), Remaining op r → keys.length ≤ r →
    (execAll s (delCmds i keys)).1 = keys.foldl (fun s k => removeKey k s) s ∧
    ∃ op2, deliverAll (execAll s (delCmds i keys)).2 op = some op2
  | [], s, i, op, r, _, _ => ⟨rfl, op, rfl⟩
  | k :: ks, s, i, op, r, hr, hlen => by
    have hlen' : ks.length + 1 ≤ r := by simpa using hlen
    obtain ⟨r', rfl⟩ : ∃ r', r = r' + 1 := ⟨r - 1, by omega⟩
    obtain ⟨op1, h1, hpos, _⟩ := deliver_progress _ op r'
      (status_delivery_safe i ((s.filter (keyRange k)).length)) hr
    simp only [deliver] at h1
    rw [delCmds_cons]
    simp only [execAll, redisExec_zrem_key,
      List.foldl_cons, deliverAll, deliver, h1]
    by_cases h0 : r' = 0
    · have hnil : ks = [] := by
        cases ks with
        | nil => rfl
        | cons _ _ => simp at hlen'; omega
      subst hnil
      exact ⟨rfl, op1, rfl⟩
    · obtain ⟨hrem, _⟩ := hpos (by omega)
      exact run_del_batch ks _ (i + 1) op1 r' hrem (by omega)

theorem remaining_new_ctx (op : m0_clovis_op) (ctx : s3_clovis_context_obj) (n : Nat) :
    Remaining { op with op_datum := .redis (new_ctx ctx n) } n :=
  ⟨_, rfl, by simp [new_ctx]⟩

theorem applyCall_write (s : Store) (pairs : List (Bytes × Bytes)) :
    applyCall s (.write pairs) = some (pairs.foldl putPair s) := by
  obtain ⟨hs, op2, hd⟩ := run_write_batch pairs s 0 _ _
    (remaining_new_ctx (launch (pairs.map (fun p => pairSlot p.1 p.2)))
      ⟨0, pairs.map (fun p => pairSlot p.1 p.2)⟩ pairs.length) (le_refl _)
  simp only [writeCmds, launch] at hs hd
  simp only [applyCall, runOp, kv_write, launch, List.enum, List.length_map, hd, hs,
    Option.map_some']

theorem applyCall_del (s : Store) (keys : List Bytes) :
    applyCall s (.del keys) = some (keys.foldl (fun s k => removeKey k s) s) := by
  obtain ⟨hs, op2, hd⟩ := run_del_batch keys s 0 _ _
    (remaining_new_ctx (launch (keys.map keySlot)) ⟨0, keys.map keySlot⟩ keys.length) (le_refl _)
  simp only [delCmds, launch] at hs hd
  simp only [applyCall, runOp, kv_del, launch, List.enum, List.length_map, hd, hs,
    Option.map_some']

/-! ## Lemmas: one member per key -/

theorem lexLt_cons_same (x : Nat) (a b : Bytes) : lexLt (x :: a) (x :: b) = lexLt a b := by
  simp [lexLt]

theorem keyRange_cons_same (x : Nat) (k m : Bytes) : keyRange (x :: k) (x :: m) = keyRange k m := by
  simp [keyRange, inLexRange, aboveMin, belowMax, lexLe, lexLt_cons_same]

theorem keyRange_of_cstr_eq : ∀ (m k : Bytes), cstr m = k → keyRange k m = true
  | [], k, h => by
    have : k = [] := by rw [← h]; rfl
    subst this
    decide
  | y :: ys, k, h => by
    by_cases hy : y = 0
    · subst hy
      have : k = [] := by rw [← h]; simp [cstr]
      subst this
      simp [keyRange, inLexRange, aboveMin, belowMax, lexLe, lexLt]
    · have hk : k = y :: cstr ys := by rw [← h]; simp [cstr, List.takeWhile_cons, hy]
      subst hk
      rw [keyRange_cons_same]
      exact keyRange_of_cstr_eq ys _ rfl

theorem cstr_of_startsWithKey (k m : Bytes) (h : startsWithKey k m = true) : cstr m = cstr k := by
  simp only [startsWithKey, List.isPrefixOf_iff_prefix] at h
  obtain ⟨t, rfl⟩ := h
  have := cstr_append_zero_cstr k t
  simpa using this

theorem keyRange_of_startsWithKey (k m : Bytes) (h : startsWithKey k m = true) :
    keyRange k m = true := by
  simp only [startsWithKey, List.isPrefixOf_iff_prefix] at h
  obtain ⟨t, rfl⟩ := h
  simp only [keyRange, inLexRange, aboveMin, belowMax, lexLe, Bool.and_eq_true, Bool.not_eq_true',
    List.append_assoc, List.singleton_append]
  refine ⟨lexLt_asymm _ _ (lexLt_append_nil k 0 _), ?_⟩
  rw [lexLt_append_left]
  simp [lexLt]

theorem startsWithKey_memberOf (k v : Bytes) : startsWithKey k (memberOf k v) = true := by
  simp only [startsWithKey, List.isPrefixOf_iff_prefix, memberOf_eq]
  exact ⟨v ++ [0], by simp⟩

theorem cstr_memberOf (k v : Bytes) (hk : 0 ∉ k) : cstr (memberOf k v) = k := by
  rw [memberOf_eq, cstr_append_zero k _ hk]

theorem keysUnique_removeKey (k : Bytes) (s : Store) (h : KeysUnique s) :
    KeysUnique (removeKey k s) :=
  List.Pairwise.filter _ h

theorem mem_removeKey (k x : Bytes) (s : Store) :
    x ∈ removeKey k s ↔ x ∈ s ∧ keyRange k x = false := by
  simp [removeKey, List.mem_filter]

theorem memberOf_not_mem_removeKey (s : Store) (k v : Bytes) : memberOf k v ∉ removeKey k s := by
  intro h
  have := ((mem_removeKey k _ s).mp h).2
  rw [keyRange_memberOf] at this
  exact absurd this (by simp)

theorem keysUnique_putPair (s : Store) (p : Bytes × Bytes) (hk : 0 ∉ p.1) (h : KeysUnique s) :
    KeysUnique (putPair s p) := by
  have hperm := insertMember_perm (memberOf p.1 p.2) (removeKey p.1 s)
    (memberOf_not_mem_removeKey s p.1 p.2)
  refine (hperm.pairwise_iff (fun hab => Ne.symm hab)).mpr ?_
  refine List.pairwise_cons.mpr ⟨fun x hx heq => ?_, keysUnique_removeKey _ _ h⟩
  have hr := ((mem_removeKey p.1 x s).mp hx).2
  rw [cstr_memberOf p.1 p.2 hk] at heq
  rw [keyRange_of_cstr_eq x p.1 heq.symm] at hr
  exact absurd hr (by simp)

theorem startsWithKey_count_le_one (s : Store) (h : KeysUnique s) (k : Bytes) :
    (s.filter (startsWithKey k)).length ≤ 1 := by
  have hf : (s.filter (startsWithKey k)).Pairwise (fun a b => cstr a ≠ cstr b) :=
    List.Pairwise.filter _ h
  have hall : ∀ x ∈ s.filter (startsWithKey k), cstr x = cstr k := fun x hx =>
    cstr_of_startsWithKey k x (List.mem_filter.mp hx).2
  cases hl : s.filter (startsWithKey k) with
  | nil => simp
  | cons a t =>
    cases t with
    | nil => simp
    | cons b t' =>
      rw [hl] at hf hall
      have h1 := (List.pairwise_cons.mp hf).1 b (by simp)
      exact absurd ((hall a (by simp)).trans (hall b (by simp)).symm) h1

theorem startsWithKey_count_after_put (s : Store) (k v : Bytes) :
    ((putPair s (k, v)).filter (startsWithKey k)).length = 1 := by
  have : (putPair s (k, v)).filter (startsWithKey k) = [memberOf k v] := by
    apply filter_insertMember_fresh _ _ _ (startsWithKey_memberOf k v)
    intro x hx
    have hr := ((mem_removeKey k x s).mp hx).2
    cases hsw : startsWithKey k x with
    | false => rfl
    | true =>
      rw [keyRange_of_startsWithKey k x hsw] at hr
      exact absurd hr (by simp)
  rw [this]; rfl

theorem keysUnique_foldl_putPair : ∀ (pairs : List (Bytes × Bytes)) (s : Store),
    (∀ p ∈ pairs, 0 ∉ p.1) → KeysUnique s → KeysUnique (pairs.foldl putPair s)
  | [], _, _, h => h
  | p :: ps, s, hk, h =>
    keysUnique_foldl_putPair ps _ (fun q hq => hk q (by simp [hq]))
      (keysUnique_putPair s p (hk p (by simp)) h)

theorem keysUnique_foldl_removeKey : ∀ (keys : List Bytes) (s : Store),
    KeysUnique s → KeysUnique (keys.foldl (fun s k => removeKey k s) s)
  | [], _, h => h
  | k :: ks, s, h => keysUnique_foldl_removeKey ks _ (keysUnique_removeKey k s h)

theorem applyCalls_keysUnique : ∀ (calls : List KvCall) (s : Store),
    (∀ c ∈ calls, ∀ k ∈ c.keys, 0 ∉ k) → KeysUnique s →
    ∃ s1, applyCalls calls s = some s1 ∧ KeysUnique s1
  | [], s, _, h => ⟨s, rfl, h⟩
  | c :: cs, s, hk, h => by
    have hrest : ∀ c' ∈ cs, ∀ k ∈ c'.keys, 0 ∉ k := fun c' hc' => hk c' (by simp [hc'])
    cases c with
    | write pairs =>
      simp only [applyCalls, applyCall_write]
      apply applyCalls_keysUnique cs _ hrest
      apply keysUnique_foldl_putPair pairs s _ h
      intro p hp
      exact hk (.write pairs) (by simp) p.1 (by simp [KvCall.keys]; exact ⟨p.2, hp⟩)
    | del keys =>
      simp only [applyCalls, applyCall_del]
      exact applyCalls_keysUnique cs _ hrest (keysUnique_foldl_removeKey keys s h)

/-! ## At most one value per key (C2) -/

/-- C2 (as amended): every sequence of `kv_write` and `kv_del` calls with keys
free of `0x00`, applied to the empty set in issue order, runs to completion and
leaves a store in which, for every `k`, at most one member starts with
`k || 0x00`; and from that store, for every key `k` without `0x00` and all
values, `kv_write(k, v1)` then `kv_write(k, v2)` leave exactly one such member
and `kv_read(k)` then returns code 0 and `v2` up to its first `0x00` byte (so
`v2` itself when it has no `0x00` byte). -/
theorem at_most_one_member_per_key (calls : List KvCall)
    (hkeys : ∀ c ∈ calls, ∀ k ∈ c.keys, 0 ∉ k) :
    ∃ s, applyCalls calls [] = some s ∧
      (∀ k, (s.filter (startsWithKey k)).length ≤ 1) ∧
      ∀ (k v1 v2 : Bytes) (r0 : Int), 0 ∉ k →
        ∃ s1 o1 s2 o2, runOp kv_write s (launch [pairSlot k v1]) = some (s1, o1) ∧
          runOp kv_write s1 (launch [pairSlot k v2]) = some (s2, o2) ∧
          (s2.filter (startsWithKey k)).length = 1 ∧
          runOp kv_read s2 (launch [{ key := some k, val := none, rc := r0 }]) =
            some (s2, finished [{ key := some k, val := some (cstr v2), rc := 0 }] 0) ∧
          (0 ∉ v2 → cstr v2 = v2) := by
  obtain ⟨s, hs, hu⟩ := applyCalls_keysUnique calls [] hkeys List.Pairwise.nil
  refine ⟨s, hs, startsWithKey_count_le_one s hu, fun k v1 v2 r0 hk => ?_⟩
  refine ⟨_, _, _, _, runOp_kv_write_one s k v1, runOp_kv_write_one _ k v2,
    startsWithKey_count_after_put _ k v2, ?_, cstr_of_not_mem v2⟩
  rw [runOp_kv_read_some _ _ k (memberOf k v2) [] (k.length + 1) rfl
    (filter_keyRange_after_write _ k v2) (parse_val_memberOf k v2 hk), cstr_value_memberOf]

/-- Witness of C2 on three calls. -/
theorem at_most_one_member_per_key_witness :
    ∃ s, applyCalls sampleCalls [] = some s ∧
      (∀ k, (s.filter (startsWithKey k)).length ≤ 1) ∧
      ∀ (k v1 v2 : Bytes) (r0 : Int), 0 ∉ k →
        ∃ s1 o1 s2 o2, runOp kv_write s (launch [pairSlot k v1]) = some (s1, o1) ∧
          runOp kv_write s1 (launch [pairSlot k v2]) = some (s2, o2) ∧
          (s2.filter (startsWithKey k)).length = 1 ∧
          runOp kv_read s2 (launch [{ key := some k, val := none, rc := r0 }]) =
            some (s2, finished [{ key := some k, val := some (cstr v2), rc := 0 }] 0) ∧
          (0 ∉ v2 → cstr v2 = v2) :=
  at_most_one_member_per_key sampleCalls (by decide)

/-- C2 as stated fails for a second value with an embedded `0x00` byte: after
`kv_write("k", "a")` and `kv_write("k", "b\0c")` on the empty store exactly one
member starts with "k\0", but `kv_read("k")` returns "b", not "b\0c". -/
theorem second_write_value_truncated_at_nul :
    applyCalls [.write [([0x6B], [0x61])], .write [([0x6B], [0x62, 0, 0x63])]] [] =
        some [[0x6B, 0, 0x62, 0, 0x63, 0]] ∧
      ([[0x6B, 0, 0x62, 0, 0x63, 0]].filter (startsWithKey [0x6B])).length = 1 ∧
      runOp kv_read [[0x6B, 0, 0x62, 0, 0x63, 0]] (launch [keySlot [0x6B]]) =
        some ([[0x6B, 0, 0x62, 0, 0x63, 0]],
          finished [{ key := some [0x6B], val := some [0x62], rc := 0 }] 0) ∧
      ([0x62] : Bytes) ≠ [0x62, 0, 0x63] := by
  decide

/-! ## Lemmas: the range scan -/

theorem updSlot_append (pre post : List KvSlot) (sl : KvSlot) (f : KvSlot → KvSlot) :
    updSlot (pre ++ sl :: post) pre.length f = pre ++ f sl :: post := by
  have h : (pre ++ sl :: post)[pre.length]? = some sl := by
    rw [List.getElem?_append_right (le_refl _)]
    simp
  simp only [updSlot, h]
  induction pre with
  | nil => rfl
  | cons x xs ih => simp [List.set, ih]

theorem parse_val_of_memberOk (m : Bytes) (h : memberOk m = true) :
    parse_val m m.length = some (strlen m + 1) := by
  simp only [memberOk, parse_val] at h ⊢
  split
  · rfl
  · rename_i hn; simp [hn] at h

theorem kv_next_loop_fill : ∀ (ms : List Bytes) (pre post : List KvSlot) (rc : Int),
    (∀ m ∈ ms, memberOk m = true) →
    kv_next_loop (pre ++ post).length (ms.map RedisReply.str) pre.length (pre ++ post) rc =
      some (pre ++ fillSlots ms post, if ms = [] ∨ post = [] then rc else 0)
  | [], pre, post, rc, _ => by simp [kv_next_loop, fillSlots]
  | m :: ms, pre, [], rc, _ => by simp [kv_next_loop, fillSlots]
  | m :: ms, pre, sl :: post, rc, hok => by
    have hlt : pre.length < (pre ++ sl :: post).length := by simp
    have hpv := parse_val_of_memberOk m (hok m (by simp))
    have ih := kv_next_loop_fill ms (pre ++ [slotOfMember m]) post 0
      (fun x hx => hok x (by simp [hx]))
    have e1 : (pre ++ [slotOfMember m] ++ post).length = (pre ++ sl :: post).length := by simp
    have e2 : (pre ++ [slotOfMember m]).length = pre.length + 1 := by simp
    rw [e1, e2] at ih
    simp only [List.map_cons, kv_next_loop, hlt, if_true, hpv, updSlot_append, parse_key,
      List.drop_zero]
    have e3 : pre ++ { rc := 0, key := some (cstr m), val := some (cstr (m.drop (strlen m + 1))) } :: post
        = pre ++ [slotOfMember m] ++ post := by simp [slotOfMember]
    rw [e3, ih]
    simp [fillSlots]

theorem kv_next_loop_pending (cnt : Nat) (ms : List Bytes) (skip : Bytes) (kv : List KvSlot)
    (rc : Int) :
    kv_next_loop cnt (kv_next_pending (.array (ms.map RedisReply.str)) skip) 0 kv rc =
      kv_next_loop cnt ((skipFirst skip ms).map RedisReply.str) 0 kv rc := by
  cases ms with
  | nil => rfl
  | cons m rest =>
    simp only [kv_next_pending, List.map_cons, parse_key, List.drop_zero, skipFirst]
    split <;> rfl

theorem skipFirst_subset (skip : Bytes) (ms : List Bytes) : ∀ m ∈ skipFirst skip ms, m ∈ ms := by
  cases ms with
  | nil => intro m hm; exact hm
  | cons x xs =>
    intro m hm
    simp only [skipFirst] at hm
    split at hm
    · simp [hm]
    · exact hm

theorem kv_next_cb_members (kv : List KvSlot) (skip : Bytes) (ms : List Bytes)
    (hok : ∀ m ∈ ms, memberOk m = true) :
    kv_next_cb (some false) (some (.array (ms.map RedisReply.str))) (some 0)
        (inFlight kv 1 skip) =
      some (finished (fillSlots (skipFirst skip ms) (kv.map resetSlot))
        (if skipFirst skip ms = [] ∨ kv.map resetSlot = [] then -ENOENT else 0)) := by
  have hfill := kv_next_loop_fill (skipFirst skip ms) [] (kv.map resetSlot) (-ENOENT)
    (fun m hm => hok m (skipFirst_subset skip ms m hm))
  simp only [List.nil_append, List.length_nil, List.length_map] at hfill
  have hl := kv_next_loop_pending kv.length ms skip (kv.map resetSlot) (-ENOENT)
  rw [hfill] at hl
  have hl' : kv_next_loop kv.length (kv_next_pending (.array (ms.map RedisReply.str)) skip) 0
      (kv.map (fun sl => { sl with rc := -ENOENT })) (-ENOENT) = _ := hl
  have hcont : redis_reply_check false (some (.array (ms.map RedisReply.str))) (some 0)
      [.REDIS_REPLY_STRING, .REDIS_REPLY_NIL, .REDIS_REPLY_ARRAY] (inFlight kv 1 skip) =
      some (.REPL_CONTINUE,
        { op_datum := .redis { prev_ctx := { is_fake_failure := 0, kv := kv }, async_ops_cnt := 1,
                               replies_cnt := 1, had_error := false, skip_value := skip },
          op_rc := 0, signals := [] }) := by
    simp [redis_reply_check, inFlight, RedisReply.type]
  simp only [kv_next_cb, hcont, hl']
  simp [finalize_op, s3_redis_context_obj.setKv, finished]

theorem redisExec_zrange_after (s : Store) (k0 : Bytes) (n : Nat) :
    redisExec s (.zrangebylex (0x28 :: k0) [0x2B] n) =
      (s, .array (((s.filter (fun m => lexLt k0 m)).take n).map RedisReply.str)) := by
  have h : (fun m => inLexRange (.excl k0) .posInf m) = (fun m => lexLt k0 m) := by
    funext m; simp [inLexRange, aboveMin, belowMax]
  simp only [redisExec, parseLexBound_excl]
  simp only [parseLexBound, h]

theorem redisExec_zrange_all (s : Store) (n : Nat) :
    redisExec s (.zrangebylex [0x2D] [0x2B] n) =
      (s, .array ((s.take n).map RedisReply.str)) := by
  have h : (fun m => inLexRange .negInf .posInf m) = (fun _ => true) := by
    funext m; simp [inLexRange, aboveMin, belowMax]
  simp only [redisExec, parseLexBound, h, List.filter_true]

/-- Range scan from a non-empty start key. -/
theorem runOp_kv_next_after (s : Store) (k0 : Bytes) (rest : List KvSlot) (hk0 : k0 ≠ [])
    (hok : ∀ m ∈ s, memberOk m = true) :
    runOp kv_next s (launch (keySlot k0 :: rest)) =
      some (s, finished
        (fillSlots (skipFirst k0 ((s.filter (fun m => lexLt k0 m)).take (rest.length + 1 + 1)))
          (({ keySlot k0 with key := none } :: rest).map resetSlot))
        (if skipFirst k0 ((s.filter (fun m => lexLt k0 m)).take (rest.length + 1 + 1)) = []
          then -ENOENT else 0)) := by
  have hpos : (slotBuf (keySlot k0).key).length > 0 := by
    simp [slotBuf, keySlot]; exact List.length_pos.mpr hk0
  have hissue : kv_next (launch (keySlot k0 :: rest)) =
      some (inFlight ({ keySlot k0 with key := none } :: rest) 1 k0,
        [{ cmd := .zrangebylex (0x28 :: k0) [0x2B] (rest.length + 1 + 1),
           fn := some .kv_next_cb, privdata := some 0 }]) := by
    simp only [kv_next, launch, hpos, if_true]
    simp [keySlot, slotBuf, border_excl_sent, new_ctx, inFlight]
  have hmem : ∀ m ∈ (s.filter (fun m => lexLt k0 m)).take (rest.length + 1 + 1),
      memberOk m = true := fun m hm => hok m (List.mem_filter.mp (List.mem_of_mem_take hm)).1
  simp only [runOp, hissue, execAll, redisExec_zrange_after, deliverAll, deliver,
    kv_next_cb_members _ _ _ hmem]
  simp

/-- Range scan from the beginning (empty start key in slot 0). -/
theorem runOp_kv_next_first (s : Store) (sl0 : KvSlot) (rest : List KvSlot)
    (h0 : slotBuf sl0.key = []) (hok : ∀ m ∈ s, memberOk m = true) :
    runOp kv_next s (launch (sl0 :: rest)) =
      some (s, finished (fillSlots (s.take (rest.length + 1)) ((sl0 :: rest).map resetSlot))
        (if s.take (rest.length + 1) = [] then -ENOENT else 0)) := by
  have hissue : kv_next (launch (sl0 :: rest)) =
      some (inFlight (sl0 :: rest) 1 [],
        [{ cmd := .zrangebylex [0x2D] [0x2B] (rest.length + 1),
           fn := some .kv_next_cb, privdata := some 0 }]) := by
    simp [kv_next, launch, h0, new_ctx, inFlight]
  have hmem : ∀ m ∈ s.take (rest.length + 1), memberOk m = true :=
    fun m hm => hok m (List.mem_of_mem_take hm)
  have hskip : ∀ ms : List Bytes, skipFirst [] ms = ms := by
    intro ms; cases ms <;> simp [skipFirst]
  simp only [runOp, hissue, execAll, redisExec_zrange_all, deliverAll, deliver,
    kv_next_cb_members _ _ _ hmem, hskip]
  simp

/-! ## Lemmas: keys of members and their order -/

theorem results_fillSlots : ∀ (ms : List Bytes) (post : List KvSlot),
    (∀ sl ∈ post, sl.rc ≠ 0) → results (fillSlots ms post) = (ms.take post.length).map pairOfMember
  | [], post, h => by
    simp only [fillSlots, List.take_nil, List.map_nil, results]
    rw [List.filterMap_eq_nil_iff]
    intro sl hsl
    simp [h sl hsl]
  | m :: ms, [], _ => by simp [fillSlots, results]
  | m :: ms, sl :: post, h => by
    have ih := results_fillSlots ms post (fun x hx => h x (by simp [hx]))
    simp only [results] at ih
    simp [fillSlots, results, slotOfMember, pairOfMember, ih]

theorem zero_not_mem_cstr (m : Bytes) : 0 ∉ cstr m := by
  intro h
  have := List.mem_takeWhile_imp h
  simp at this

theorem memberOk_split (m : Bytes) (h : memberOk m = true) : ∃ r, m = cstr m ++ 0 :: r := by
  have hlen : strlen m + 1 < m.length := by
    simp only [memberOk, parse_val] at h
    by_contra hn
    simp [hn] at h
  have hsplit : m = cstr m ++ m.dropWhile (fun b => b != 0) :=
    (List.takeWhile_append_dropWhile _ m).symm
  cases hd : m.dropWhile (fun b => b != 0) with
  | nil =>
    rw [hd, List.append_nil] at hsplit
    have : m.length = strlen m := by rw [strlen, ← hsplit]
    omega
  | cons x r =>
    have hx := List.head_dropWhile_not (fun b => b != 0) m (by rw [hd]; simp)
    simp only [hd, List.head_cons, bne_iff_ne, ne_eq, Decidable.not_not, Bool.not_eq_true,
      bne_eq_false_iff_eq] at hx
    refine ⟨r, ?_⟩
    rw [hd, hx] at hsplit
    exact hsplit

theorem lexLt_nil_right (a : Bytes) : lexLt a [] = false := by
  cases a <;> rfl

theorem lexLt_embed : ∀ (k1 k2 r1 r2 : Bytes), 0 ∉ k1 → 0 ∉ k2 → k1 ≠ k2 →
    lexLt (k1 ++ 0 :: r1) (k2 ++ 0 :: r2) = lexLt k1 k2
  | [], [], _, _, _, _, h => absurd rfl h
  | [], y :: ys, r1, r2, _, h2, _ => by
    have hy : y ≠ 0 := fun e => h2 (by simp [e])
    have : 0 < y := Nat.pos_of_ne_zero hy
    simp [lexLt, this]
  | x :: xs, [], r1, r2, h1, _, _ => by
    have hx : x ≠ 0 := fun e => h1 (by simp [e])
    simp [lexLt, hx]
  | x :: xs, y :: ys, r1, r2, h1, h2, hne => by
    have h1' : 0 ∉ xs := fun e => h1 (by simp [e])
    have h2' : 0 ∉ ys := fun e => h2 (by simp [e])
    rw [List.cons_append, List.cons_append, lexLt, lexLt]
    by_cases hxy : x = y
    · subst hxy
      have hne' : xs ≠ ys := fun e => hne (by rw [e])
      rw [lexLt_embed xs ys r1 r2 h1' h2' hne']
    · have hb : (x == y) = false := by simp [hxy]
      rw [hb]; rfl

theorem lexLt_cstr_of_lexLt (m1 m2 : Bytes) (h1 : memberOk m1 = true) (h2 : memberOk m2 = true)
    (hlt : lexLt m1 m2 = true) (hne : cstr m1 ≠ cstr m2) : lexLt (cstr m1) (cstr m2) = true := by
  obtain ⟨r1, e1⟩ := memberOk_split m1 h1
  obtain ⟨r2, e2⟩ := memberOk_split m2 h2
  rw [e1, e2, lexLt_embed _ _ r1 r2 (zero_not_mem_cstr m1) (zero_not_mem_cstr m2) hne] at hlt
  exact hlt

theorem keys_sorted (s : Store) (hs : StoreSorted s) (hu : KeysUnique s)
    (hok : ∀ m ∈ s, memberOk m = true) :
    (s.map cstr).Pairwise (fun a b => lexLt a b = true) := by
  rw [List.pairwise_map]
  have hboth := List.Pairwise.and hs hu
  exact hboth.imp_of_mem (fun {a b} ha hb hab =>
    lexLt_cstr_of_lexLt a b (hok a ha) (hok b hb) hab.1 hab.2)

theorem lexLt_cstr_not_below : ∀ (k0 m : Bytes), 0 ∉ k0 → lexLt k0 m = true →
    lexLt (cstr m) k0 = false
  | [], m, _, _ => lexLt_nil_right _
  | x :: xs, [], _, h => by simp [lexLt] at h
  | x :: xs, y :: ys, h0, h => by
    have hx : x ≠ 0 := fun e => h0 (by simp [e])
    have h0' : 0 ∉ xs := fun e => h0 (by simp [e])
    simp only [lexLt, Bool.or_eq_true, decide_eq_true_eq, Bool.and_eq_true, beq_iff_eq] at h
    by_cases hy : y = 0
    · subst hy
      rcases h with h | ⟨h, _⟩ <;> omega
    · have hc : cstr (y :: ys) = y :: cstr ys := by simp [cstr, List.takeWhile_cons, hy]
      rw [hc]
      rcases h with h | ⟨h, h'⟩
      · have h1 : ¬ y < x := by omega
        have h2 : ¬ y = x := by omega
        simp [lexLt, h1, h2]
      · subst h
        simp [lexLt, lexLt_cstr_not_below xs ys h0' h']

theorem lexLt_cstr_above (k0 m : Bytes) (h0 : 0 ∉ k0) (h : lexLt k0 m = true)
    (hne : cstr m ≠ k0) : lexLt k0 (cstr m) = true := by
  rcases lexLt_total k0 (cstr m) (Ne.symm hne) with h1 | h1
  · exact h1
  · rw [lexLt_cstr_not_below k0 m h0 h] at h1
    exact absurd h1 (by simp)

theorem fst_pairOfMember (ms : List Bytes) : (ms.map pairOfMember).map (fun p => p.1) = ms.map cstr := by
  simp [pairOfMember, Function.comp_def]

/-- Keys left after the skip step are above the start key and ascending. -/
theorem skipFirst_keys_above (k0 : Bytes) (ms : List Bytes) (h0 : 0 ∉ k0) (hk0 : k0 ≠ [])
    (habove : ∀ m ∈ ms, lexLt k0 m = true)
    (hsorted : (ms.map cstr).Pairwise (fun a b => lexLt a b = true)) :
    ((skipFirst k0 ms).map cstr).Pairwise (fun a b => lexLt a b = true) ∧
      ∀ m ∈ skipFirst k0 ms, lexLt k0 (cstr m) = true := by
  cases ms with
  | nil => exact ⟨List.Pairwise.nil, fun m hm => by simp [skipFirst] at hm⟩
  | cons m0 rest =>
    have hpw : (∀ a ∈ rest.map cstr, lexLt (cstr m0) a = true) ∧
        (rest.map cstr).Pairwise (fun a b => lexLt a b = true) :=
      List.pairwise_cons.mp hsorted
    have hlen : k0.length > 0 := List.length_pos.mpr hk0
    by_cases hskip : cstr m0 = k0
    · have e : skipFirst k0 (m0 :: rest) = rest := by simp [skipFirst, hlen, hskip]
      rw [e]
      refine ⟨hpw.2, fun m hm => ?_⟩
      rw [← hskip]
      exact hpw.1 (cstr m) (List.mem_map_of_mem _ hm)
    · have e : skipFirst k0 (m0 :: rest) = m0 :: rest := by simp [skipFirst, hskip]
      rw [e]
      have h0m := lexLt_cstr_above k0 m0 h0 (habove m0 (by simp)) hskip
      refine ⟨hsorted, fun m hm => ?_⟩
      rcases List.mem_cons.mp hm with rfl | hm
      · exact h0m
      · exact lexLt_trans _ _ _ h0m (hpw.1 (cstr m) (List.mem_map_of_mem _ hm))

/-! ## Range scan after a start key (C4) -/

/-- C4: for every store state (members in ascending order, each with a value
part) that satisfies the at-most-one-member-per-key invariant, every non-empty
start key `k0` (a key: no `0x00` byte) held in slot 0 and every number
`n = rest.length + 1` of slots, `kv_next` completes, fills at most `n` result
slots, and the returned keys are in ascending byte-wise order and all strictly
greater than `k0`, so none equals `k0`. -/
theorem kv_next_after_start_key (s : Store) (k0 : Bytes) (rest : List KvSlot)
    (hs : StoreSorted s) (hok : ∀ m ∈ s, memberOk m = true) (hu : KeysUnique s)
    (hk0 : k0 ≠ []) (h0 : 0 ∉ k0) :
    ∃ res rc, runOp kv_next s (launch (keySlot k0 :: rest)) = some (s, finished res rc) ∧
      (results res).length ≤ rest.length + 1 ∧
      ((results res).map (fun p => p.1)).Pairwise (fun a b => lexLt a b = true) ∧
      ∀ p ∈ results res, lexLt k0 p.1 = true ∧ p.1 ≠ k0 := by
  refine ⟨_, _, runOp_kv_next_after s k0 rest hk0 hok, ?_⟩
  have hreset : ∀ sl ∈ ({ keySlot k0 with key := none } :: rest).map resetSlot, sl.rc ≠ 0 := by
    intro sl hsl
    obtain ⟨x, _, rfl⟩ := List.mem_map.mp hsl
    simp [resetSlot, ENOENT]
  rw [results_fillSlots _ _ hreset]
  have hsub : ((s.filter (fun m => lexLt k0 m)).take (rest.length + 1 + 1)).Sublist s :=
    (List.take_sublist _ _).trans (List.filter_sublist _)
  have hsorted := (keys_sorted s hs hu hok).sublist (hsub.map cstr)
  have habove : ∀ m ∈ (s.filter (fun m => lexLt k0 m)).take (rest.length + 1 + 1),
      lexLt k0 m = true := fun m hm => (List.mem_filter.mp (List.mem_of_mem_take hm)).2
  obtain ⟨hpw, hgt⟩ := skipFirst_keys_above k0 _ h0 hk0 habove hsorted
  refine ⟨by simp, ?_, ?_⟩
  · rw [fst_pairOfMember]
    exact hpw.sublist ((List.take_sublist _ _).map cstr)
  · intro p hp
    obtain ⟨m, hm, rfl⟩ := List.mem_map.mp hp
    have hlt := hgt m (List.mem_of_mem_take hm)
    refine ⟨hlt, fun e => ?_⟩
    have : lexLt k0 k0 = true := by
      have h2 := hlt
      simp only [pairOfMember] at e
      rw [e] at h2
      exact h2
    rw [lexLt_irrefl] at this
    exact absurd this (by simp)

/-- Witness of C4: on keys "a", "b", "c" with value "x", the scan from start
key "a" with 10 slots returns ("b", "x") and ("c", "x"). -/
theorem kv_next_after_start_key_witness :
    (∃ res rc, runOp kv_next storeABC (launch (keySlot [0x61] :: List.replicate 9 emptySlot)) =
        some (storeABC, finished res rc) ∧
      (results res).length ≤ (List.replicate 9 emptySlot).length + 1 ∧
      ((results res).map (fun p => p.1)).Pairwise (fun a b => lexLt a b = true) ∧
      ∀ p ∈ results res, lexLt [0x61] p.1 = true ∧ p.1 ≠ [0x61]) ∧
    (runOp kv_next storeABC (launch (keySlot [0x61] :: List.replicate 9 emptySlot))).map
        (fun r => results (match r.2.op_datum with
          | .caller c => c.kv
          | .redis c => c.prev_ctx.kv)) =
      some [([0x62], [0x78]), ([0x63], [0x78])] :=
  ⟨kv_next_after_start_key storeABC [0x61] (List.replicate 9 emptySlot)
      (by decide) (by decide) (by decide)
      (by decide) (by decide),
   by decide⟩

/-! ## Lemmas: stores built by writes and deletes -/

theorem sorted_insertMember (m : Bytes) : ∀ (t : Store), StoreSorted t →
    StoreSorted (insertMember m t)
  | [], _ => by simp [insertMember, StoreSorted]
  | x :: xs, h => by
    have hx := List.pairwise_cons.mp h
    simp only [insertMember]
    split
    · rename_i hlt
      refine List.pairwise_cons.mpr ⟨fun y hy => ?_, h⟩
      rcases List.mem_cons.mp hy with rfl | hy
      · exact hlt
      · exact lexLt_trans _ _ _ hlt (hx.1 y hy)
    · rename_i hnlt
      split
      · exact h
      · rename_i hne
        refine List.pairwise_cons.mpr ⟨fun y hy => ?_, sorted_insertMember m xs hx.2⟩
        rcases (mem_insertMember m y xs).mp hy with rfl | hy
        · rcases lexLt_total _ _ hne with h1 | h1
          · exact absurd h1 hnlt
          · exact h1
        · exact hx.1 y hy

theorem sorted_removeKey (k : Bytes) (s : Store) (h : StoreSorted s) : StoreSorted (removeKey k s) :=
  List.Pairwise.filter _ h

theorem sorted_putPair (s : Store) (p : Bytes × Bytes) (h : StoreSorted s) :
    StoreSorted (putPair s p) :=
  sorted_insertMember _ _ (sorted_removeKey _ _ h)

theorem lastIn_append_single (ws : List (Bytes × Bytes)) (p : Bytes × Bytes) (k : Bytes) :
    lastIn (ws ++ [p]) k = if p.1 = k then some p.2 else lastIn ws k := by
  simp only [lastIn, List.reverse_append, List.reverse_cons, List.reverse_nil, List.nil_append,
    List.singleton_append, List.find?_cons]
  by_cases h : p.1 = k <;> simp [h]

theorem membersWritten_removeKey (ws : List (Bytes × Bytes)) (k : Bytes) (s : Store)
    (h : MembersWritten ws s) : MembersWritten ws (removeKey k s) :=
  fun m hm => h m ((mem_removeKey k m s).mp hm).1

theorem membersWritten_putPair (ws : List (Bytes × Bytes)) (s : Store) (p : Bytes × Bytes)
    (hk : 0 ∉ p.1) (h : MembersWritten ws s) : MembersWritten (ws ++ [p]) (putPair s p) := by
  intro m hm
  rcases (mem_insertMember _ m _).mp hm with rfl | hm
  · exact ⟨p.1, p.2, hk, rfl, by rw [lastIn_append_single]; simp⟩
  · obtain ⟨hms, hr⟩ := (mem_removeKey p.1 m s).mp hm
    obtain ⟨k, v, hk0, rfl, hl⟩ := h m hms
    refine ⟨k, v, hk0, rfl, ?_⟩
    have hne : p.1 ≠ k := by
      intro e
      rw [← e, keyRange_memberOf] at hr
      exact absurd hr (by simp)
    rw [lastIn_append_single, if_neg hne, hl]

theorem builtBy_putPairs : ∀ (pairs : List (Bytes × Bytes)) (ws : List (Bytes × Bytes))
    (s : Store), (∀ p ∈ pairs, 0 ∉ p.1) → BuiltBy ws s →
    BuiltBy (ws ++ pairs) (pairs.foldl putPair s)
  | [], ws, s, _, h => by simpa using h
  | p :: ps, ws, s, hk, h => by
    have hp := hk p (by simp)
    have h1 : BuiltBy (ws ++ [p]) (putPair s p) :=
      ⟨sorted_putPair s p h.1, keysUnique_putPair s p hp h.2.1,
        membersWritten_putPair ws s p hp h.2.2⟩
    have := builtBy_putPairs ps (ws ++ [p]) _ (fun q hq => hk q (by simp [hq])) h1
    simpa using this

theorem builtBy_removeKeys : ∀ (keys : List Bytes) (ws : List (Bytes × Bytes)) (s : Store),
    BuiltBy ws s → BuiltBy ws (keys.foldl (fun s k => removeKey k s) s)
  | [], _, _, h => h
  | k :: ks, ws, s, h =>
    builtBy_removeKeys ks ws _
      ⟨sorted_removeKey k s h.1, keysUnique_removeKey k s h.2.1,
        membersWritten_removeKey ws k s h.2.2⟩

theorem applyCalls_builtBy : ∀ (calls : List KvCall) (ws : List (Bytes × Bytes)) (s : Store),
    (∀ c ∈ calls, ∀ k ∈ c.keys, 0 ∉ k) → BuiltBy ws s →
    ∃ s1, applyCalls calls s = some s1 ∧ BuiltBy (ws ++ writesOf calls) s1
  | [], ws, s, _, h => ⟨s, rfl, by simpa [writesOf] using h⟩
  | c :: cs, ws, s, hk, h => by
    have hrest : ∀ c' ∈ cs, ∀ k ∈ c'.keys, 0 ∉ k := fun c' hc' => hk c' (by simp [hc'])
    cases c with
    | write pairs =>
      have hp : ∀ p ∈ pairs, 0 ∉ p.1 := fun p hp =>
        hk (.write pairs) (by simp) p.1 (by simp [KvCall.keys]; exact ⟨p.2, hp⟩)
      obtain ⟨s1, h1, h2⟩ := applyCalls_builtBy cs (ws ++ pairs) _ hrest
        (builtBy_putPairs pairs ws s hp h)
      refine ⟨s1, by simp only [applyCalls, applyCall_write, h1], ?_⟩
      simpa [writesOf] using h2
    | del keys =>
      obtain ⟨s1, h1, h2⟩ := applyCalls_builtBy cs ws _ hrest (builtBy_removeKeys keys ws s h)
      exact ⟨s1, by simp only [applyCalls, applyCall_del, h1], by simpa [writesOf] using h2⟩

theorem memberOk_memberOf (k v : Bytes) (hk : 0 ∉ k) : memberOk (memberOf k v) = true := by
  simp [memberOk, parse_val_memberOf k v hk]

theorem pairOfMember_memberOf (k v : Bytes) (hk : 0 ∉ k) :
    pairOfMember (memberOf k v) = (k, cstr v) := by
  simp only [pairOfMember, strlen_memberOf k v hk, cstr_value_memberOf, cstr_memberOf k v hk]

/-! ## Range scan from the beginning (C5) -/

/-- C5 (as amended): for every store built from the empty set by `kv_write` and
`kv_del` calls with keys free of `0x00`, and every number `n = rest.length + 1`
of slots whose slot 0 holds an empty start key, `kv_next` completes and returns
`min(n, number of stored keys)` pairs; their keys are the first `n` of the
stored keys, which are in strictly ascending byte-wise order (so they are the
smallest ones, in order); and each pair carries the value last written for its
key up to that value's first `0x00` byte, which is the whole value when it has
no `0x00` byte. -/
theorem kv_next_from_beginning (calls : List KvCall) (sl0 : KvSlot) (rest : List KvSlot)
    (hkeys : ∀ c ∈ calls, ∀ k ∈ c.keys, 0 ∉ k) (h0 : slotBuf sl0.key = []) :
    ∃ s res rc, applyCalls calls [] = some s ∧
      runOp kv_next s (launch (sl0 :: rest)) = some (s, finished res rc) ∧
      (results res).length = min (rest.length + 1) s.length ∧
      (results res).map (fun p => p.1) = (s.map cstr).take (rest.length + 1) ∧
      (s.map cstr).Pairwise (fun a b => lexLt a b = true) ∧
      ∀ p ∈ results res, ∃ v, lastWritten calls p.1 = some v ∧ p.2 = cstr v ∧
        (0 ∉ v → p.2 = v) := by
  obtain ⟨s, hs, hsorted, huniq, hmem⟩ := applyCalls_builtBy calls [] [] hkeys
    ⟨List.Pairwise.nil, List.Pairwise.nil, fun m hm => by simp at hm⟩
  simp only [List.nil_append] at hmem
  have hok : ∀ m ∈ s, memberOk m = true := by
    intro m hm
    obtain ⟨k, v, hk, rfl, _⟩ := hmem m hm
    exact memberOk_memberOf k v hk
  have hreset : ∀ sl ∈ (sl0 :: rest).map resetSlot, sl.rc ≠ 0 := by
    intro sl hsl
    obtain ⟨x, _, rfl⟩ := List.mem_map.mp hsl
    simp [resetSlot, ENOENT]
  refine ⟨s, _, _, hs, runOp_kv_next_first s sl0 rest h0 hok, ?_⟩
  rw [results_fillSlots _ _ hreset]
  have hlen : ((sl0 :: rest).map resetSlot).length = rest.length + 1 := by simp
  rw [hlen, List.take_take, Nat.min_self]
  refine ⟨by simp, ?_, keys_sorted s hsorted huniq hok, ?_⟩
  · rw [fst_pairOfMember, List.map_take]
  · intro p hp
    obtain ⟨m, hm, rfl⟩ := List.mem_map.mp hp
    obtain ⟨k, v, hk, rfl, hl⟩ := hmem m (List.mem_of_mem_take hm)
    rw [pairOfMember_memberOf k v hk]
    exact ⟨v, hl, rfl, fun hv => cstr_of_not_mem v hv⟩

/-- Witness of C5: "obj-1" written with "v1" and then with "v2"; the scan from
the beginning with 10 slots returns the single pair ("obj-1", "v2"). -/
theorem kv_next_from_beginning_witness :
    (∃ s res rc, applyCalls callsObj1 [] = some s ∧
      runOp kv_next s (launch (emptySlot :: List.replicate 9 emptySlot)) =
        some (s, finished res rc) ∧
      (results res).length = min ((List.replicate 9 emptySlot).length + 1) s.length ∧
      (results res).map (fun p => p.1) =
        (s.map cstr).take ((List.replicate 9 emptySlot).length + 1) ∧
      (s.map cstr).Pairwise (fun a b => lexLt a b = true) ∧
      ∀ p ∈ results res, ∃ v, lastWritten callsObj1 p.1 = some v ∧ p.2 = cstr v ∧
        (0 ∉ v → p.2 = v)) ∧
    ((applyCalls callsObj1 []).bind (fun s =>
        runOp kv_next s (launch (emptySlot :: List.replicate 9 emptySlot)))).map
      (fun r => results (match r.2.op_datum with
        | .caller c => c.kv
        | .redis c => c.prev_ctx.kv)) =
      some [([0x6F, 0x62, 0x6A, 0x2D, 0x31], [0x76, 0x32])] :=
  ⟨kv_next_from_beginning callsObj1 emptySlot (List.replicate 9 emptySlot) (by decide) rfl,
   by decide⟩

/-- C5 as stated fails for a value with an embedded `0x00` byte: after
`kv_write("k", "a\0b")` on the empty store, the scan from the beginning returns
the pair ("k", "a"), although the value last written for "k" is "a\0b". -/
theorem kv_next_value_truncated_at_nul :
    applyCalls [.write [([0x6B], [0x61, 0, 0x62])]] [] = some [[0x6B, 0, 0x61, 0, 0x62, 0]] ∧
      runOp kv_next [[0x6B, 0, 0x61, 0, 0x62, 0]] (launch [emptySlot, emptySlot]) =
        some ([[0x6B, 0, 0x61, 0, 0x62, 0]],
          finished [{ key := some [0x6B], val := some [0x61], rc := 0 },
                    { key := none, val := none, rc := -ENOENT }] 0) ∧
      lastWritten [.write [([0x6B], [0x61, 0, 0x62])]] [0x6B] = some [0x61, 0, 0x62] := by
  decide

end S3Kvs

namespace S3Kvs

/-! ## Completion of an operation (C11) -/

/-- C11: when `finalize_op` runs on an op whose `replies_cnt` has reached
`async_ops_cnt`, it sets `op_datum` back to the caller's prior context in every
case; without `had_error` the op is signalled stable and `op_rc` and the prior
context are left as they are; with `had_error` the op gets `op_rc = -ETIMEDOUT`,
the prior context gets `is_fake_failure = 1` and the op is signalled failed.  So
the op is signalled stable if and only if `had_error` is false. -/
theorem finalize_op_completion (op : m0_clovis_op) (c : s3_redis_context_obj)
    (hc : op.op_datum = .redis c) (hdone : c.async_ops_cnt ≤ c.replies_cnt) :
    ∃ op1, finalize_op op = some op1 ∧
      (c.had_error = false →
        op1.op_datum = .caller c.prev_ctx ∧ op1.op_rc = op.op_rc ∧
        op1.signals = op.signals ++ [.s3_clovis_op_stable]) ∧
      (c.had_error = true →
        op1.op_datum = .caller { c.prev_ctx with is_fake_failure := 1 } ∧
        op1.op_rc = -ETIMEDOUT ∧
        op1.signals = op.signals ++ [.s3_clovis_op_failed]) ∧
      (op1.signals = op.signals ++ [.s3_clovis_op_stable] ↔ c.had_error = false) := by
  have hle : ¬ (c.async_ops_cnt > c.replies_cnt) := by omega
  cases hhe : c.had_error with
  | false =>
    have hf : finalize_op op =
        some { op_datum := .caller c.prev_ctx, op_rc := op.op_rc,
               signals := op.signals ++ [.s3_clovis_op_stable] } := by
      simp [finalize_op, hc, hle, hhe]
    exact ⟨_, hf, fun _ => ⟨rfl, rfl, rfl⟩, fun h => (by cases h), ⟨fun _ => rfl, fun _ => rfl⟩⟩
  | true =>
    have hf : finalize_op op =
        some { op_datum := .caller { c.prev_ctx with is_fake_failure := 1 },
               op_rc := -ETIMEDOUT, signals := op.signals ++ [.s3_clovis_op_failed] } := by
      simp [finalize_op, hc, hle, hhe]
    refine ⟨_, hf, fun h => (by cases h), fun _ => ⟨rfl, rfl, rfl⟩, ⟨fun h => ?_, fun h => (by cases h)⟩⟩
    simp at h

/-- Witness of C11: the last reply of an op with `had_error` set. -/
theorem finalize_op_completion_witness :
    ∃ op1, finalize_op erroredOp = some op1 ∧
      (true = false →
        op1.op_datum = .caller { is_fake_failure := 0, kv := [keySlot [0x61]] } ∧
        op1.op_rc = erroredOp.op_rc ∧
        op1.signals = erroredOp.signals ++ [.s3_clovis_op_stable]) ∧
      (true = true →
        op1.op_datum = .caller { is_fake_failure := 1, kv := [keySlot [0x61]] } ∧
        op1.op_rc = -ETIMEDOUT ∧
        op1.signals = erroredOp.signals ++ [.s3_clovis_op_failed]) ∧
      (op1.signals = erroredOp.signals ++ [.s3_clovis_op_stable] ↔ true = false) :=
  finalize_op_completion erroredOp _ rfl (by decide)

end S3Kvs

namespace S3Kvs

/-! ## The member written for a pair (C12) -/

theorem prepare_rkey_exact (k v : Bytes) :
    prepare_rkey k k.length v v.length =
      { len := k.length + v.length + 2, buf := k ++ [0] ++ v ++ [0] } := by
  simp [prepare_rkey]

/-- C12 (as amended): for every key `k` and value `v`, the buffer built by
`prepare_rkey` is `k || 0x00 || v || 0x00` with `len = klen + vlen + 2`; the
`ZADD` that `kv_write` issues for the pair (after the delete of the key range,
with `kv_status_cb` and the slot index) sends all `len` bytes, and after the
operation that byte string is a member of the ordered set. -/
theorem kv_write_member_bytes (k v : Bytes) :
    prepare_rkey k k.length v v.length =
        { len := k.length + v.length + 2, buf := k ++ [0] ++ v ++ [0] } ∧
      (k ++ [0] ++ v ++ [0]).length = k.length + v.length + 2 ∧
      (∀ i, kv_write_body i (pairSlot k v) =
        [schedule_delete_key_op k k.length none none,
         { cmd := .zadd (k ++ [0] ++ v ++ [0]), fn := some .kv_status_cb, privdata := some i }]) ∧
      ∀ s, ∃ s1 op1, runOp kv_write s (launch [pairSlot k v]) = some (s1, op1) ∧
        (k ++ [0] ++ v ++ [0]) ∈ s1 := by
  have hm : memberOf k v = k ++ [0] ++ v ++ [0] := by rw [memberOf_eq]; simp
  refine ⟨prepare_rkey_exact k v, by simp; omega, fun i => ?_, fun s => ?_⟩
  · simp [kv_write_body, pairSlot, slotBuf, prepare_rkey, redis_key.sent]
    omega
  · refine ⟨_, _, runOp_kv_write_one s k v, ?_⟩
    rw [← hm]
    exact (mem_insertMember _ _ _).mpr (Or.inl rfl)

/-- C12 as stated fails: for key "k" and value "v" the member that `kv_write`
adds is the four bytes "k\0v\0", not the three bytes "k\0v". -/
theorem member_has_trailing_zero_byte :
    kv_write (launch [pairSlot [0x6B] [0x76]]) =
        some (inFlight [pairSlot [0x6B] [0x76]] 1 [],
          [{ cmd := .zremrangebylex [0x5B, 0x6B] [0x28, 0x6B, 0xFF], fn := none,
             privdata := none },
           { cmd := .zadd [0x6B, 0, 0x76, 0], fn := some .kv_status_cb, privdata := some 0 }]) ∧
      (prepare_rkey [0x6B] 1 [0x76] 1).len = 4 ∧
      ([0x6B, 0, 0x76, 0] : Bytes) ≠ [0x6B] ++ [0] ++ [0x76] ∧
      (4 : Nat) ≠ 1 + 1 + 1 := by
  decide

/-! ## The range of a key (C13) -/

/-- C13 at the failing input: key `k` = "a" and the stored member of key "ab"
with value "v".  The borders built for "a" are `[a` and `(a 0xFF`; the member
"ab\0v\0" lies between them although its key "ab" is not "a", and `kv_del("a")`
removes it from the set. -/
theorem key_range_holds_longer_key :
    parseLexBound (prepare_border [0x61] 1 true false).sent = some (.incl [0x61]) ∧
      parseLexBound (prepare_border [0x61] 1 false true).sent = some (.excl [0x61, 0xFF]) ∧
      memberOf [0x61, 0x62] [0x76] = [0x61, 0x62, 0, 0x76, 0] ∧
      cstr [0x61, 0x62, 0, 0x76, 0] = [0x61, 0x62] ∧
      inLexRange (.incl [0x61]) (.excl [0x61, 0xFF]) [0x61, 0x62, 0, 0x76, 0] = true ∧
      ([0x61, 0x62] : Bytes) ≠ [0x61] ∧
      runOp kv_del [[0x61, 0x62, 0, 0x76, 0]] (launch [keySlot [0x61]]) =
        some ([], finished [keySlot [0x61]] 0) := by
  decide

/-! ## Codes set by the status callback (C14) -/

theorem finalize_op_keeps_slots (op : m0_clovis_op) (c : s3_redis_context_obj)
    (hc : op.op_datum = .redis c) :
    ∃ op2, finalize_op op = some op2 ∧ op2.slots = op.slots ∧
      (c.had_error = false → op2.op_rc = op.op_rc) := by
  by_cases hgt : c.async_ops_cnt > c.replies_cnt
  · exact ⟨op, by simp [finalize_op, hc, hgt], rfl, fun _ => rfl⟩
  · cases hhe : c.had_error with
    | false =>
      have hf : finalize_op op =
          some { op_datum := .caller c.prev_ctx, op_rc := op.op_rc,
                 signals := op.signals ++ [.s3_clovis_op_stable] } := by
        simp [finalize_op, hc, hgt, hhe]
      exact ⟨_, hf, by simp [m0_clovis_op.slots, hc], fun _ => rfl⟩
    | true =>
      have hf : finalize_op op =
          some { op_datum := .caller { c.prev_ctx with is_fake_failure := 1 },
                 op_rc := -ETIMEDOUT, signals := op.signals ++ [.s3_clovis_op_failed] } := by
        simp [finalize_op, hc, hgt, hhe]
      exact ⟨_, hf, by simp [m0_clovis_op.slots, hc], fun h => (by cases h)⟩

theorem updSlot_of_getElem (kv : List KvSlot) (idx : Nat) (sl : KvSlot) (f : KvSlot → KvSlot)
    (h : kv[idx]? = some sl) : updSlot kv idx f = kv.set idx (f sl) := by
  simp [updSlot, h]

theorem kv_status_cb_accepted (op : m0_clovis_op) (c : s3_redis_context_obj)
    (reply : RedisReply) (idx : Nat) (code : Int)
    (hc : op.op_datum = .redis c) (hcode : statusCodeSpec reply = some code) :
    kv_status_cb (some false) (some reply) (some idx) op =
      finalize_op (statusStep op c idx code) := by
  cases reply with
  | status s =>
    simp only [statusCodeSpec, Option.some.injEq] at hcode
    subst hcode
    simp [kv_status_cb, redis_reply_check, hc, RedisReply.type, statusStep]
  | integer i =>
    simp only [statusCodeSpec] at hcode
    by_cases hi : i > 0
    · simp only [hi, if_true, Option.some.injEq] at hcode
      subst hcode
      simp [kv_status_cb, redis_reply_check, hc, RedisReply.type, hi, statusStep]
    · simp only [hi, if_false, Option.some.injEq] at hcode
      subst hcode
      simp [kv_status_cb, redis_reply_check, hc, RedisReply.type, hi, statusStep]
  | nil =>
    simp only [statusCodeSpec, Option.some.injEq] at hcode
    subst hcode
    simp [kv_status_cb, redis_reply_check, hc, RedisReply.type, statusStep]
  | str _ => simp [statusCodeSpec] at hcode
  | array _ => simp [statusCodeSpec] at hcode
  | error _ => simp [statusCodeSpec] at hcode

/-- C14: for every reply accepted by `kv_status_cb` (live client context
without error, tag status, integer or nil) on an op in flight, the callback
sets `rcs[processing_idx]` and `op_rc` both to the code of the reply (0 for
status, 0 for an integer above 0, `-ENOENT` for any other integer and for nil),
changes no other slot and no key or value, and then calls `finalize_op`, which
leaves the slots as they are and, unless an earlier reply had an error, leaves
`op_rc` as well. -/
theorem kv_status_cb_sets_codes (op : m0_clovis_op) (c : s3_redis_context_obj)
    (reply : RedisReply) (idx : Nat) (sl : KvSlot) (code : Int)
    (hc : op.op_datum = .redis c) (hcode : statusCodeSpec reply = some code)
    (hsl : c.prev_ctx.kv[idx]? = some sl) :
    ∃ op1 op2, kv_status_cb (some false) (some reply) (some idx) op = finalize_op op1 ∧
      finalize_op op1 = some op2 ∧
      op1.op_rc = code ∧
      op1.slots = c.prev_ctx.kv.set idx { sl with rc := code } ∧
      op2.slots = op1.slots ∧
      op2.slots[idx]? = some { sl with rc := code } ∧
      (∀ j, j ≠ idx → op2.slots[j]? = c.prev_ctx.kv[j]?) ∧
      (c.had_error = false → op2.op_rc = code) := by
  have hidx : idx < c.prev_ctx.kv.length := by
    rcases Nat.lt_or_ge idx c.prev_ctx.kv.length with h | h
    · exact h
    · rw [List.getElem?_eq_none h] at hsl; cases hsl
  have h1 := kv_status_cb_accepted op c reply idx code hc hcode
  obtain ⟨op2, h2, hs2, hrc2⟩ := finalize_op_keeps_slots _ _
    (rfl : (statusStep op c idx code).op_datum = .redis _)
  have hslots : (statusStep op c idx code).slots =
      c.prev_ctx.kv.set idx { sl with rc := code } := by
    simp [statusStep, m0_clovis_op.slots, s3_redis_context_obj.setKv, updSlot, hsl]
  refine ⟨_, op2, h1, h2, rfl, hslots, hs2, ?_, fun j hj => ?_, fun h => ?_⟩
  · rw [hs2, hslots, List.getElem?_set_self hidx]
  · rw [hs2, hslots, List.getElem?_set_ne (Ne.symm hj)]
  · rw [hrc2 h]; rfl

/-- Witness of C14: the delete of the second of two keys found nothing
(integer reply 0); slot 1 and `op_rc` get `-ENOENT`, slot 0 keeps its code. -/
theorem kv_status_cb_sets_codes_witness :
    ∃ op1 op2, kv_status_cb (some false) (some (.integer 0)) (some 1) twoKeyOp =
        finalize_op op1 ∧
      finalize_op op1 = some op2 ∧
      op1.op_rc = -ENOENT ∧
      op1.slots = [keySlot [0x61], keySlot [0x62]].set 1 { keySlot [0x62] with rc := -ENOENT } ∧
      op2.slots = op1.slots ∧
      op2.slots[1]? = some { keySlot [0x62] with rc := -ENOENT } ∧
      (∀ j, j ≠ 1 → op2.slots[j]? = [keySlot [0x61], keySlot [0x62]][j]?) ∧
      (false = false → op2.op_rc = -ENOENT) :=
  kv_status_cb_sets_codes twoKeyOp _ (.integer 0) 1 (keySlot [0x62]) (-ENOENT) rfl rfl rfl

end S3Kvs

namespace S3Kvs

/-! ## The batch code of a point read (C15) -/

theorem kv_read_cb_code (op : m0_clovis_op) (c : s3_redis_context_obj) (i : Nat)
    (r : RedisReply) (hc : op.op_datum = .redis c) (hr : readReplyOk r = true) :
    ∃ kv1, kv_read_cb (some false) (some r) (some i) op =
      finalize_op (replyStep op c kv1 (if readFound r then 0 else -ENOENT)) := by
  simp only [readReplyOk, Bool.and_eq_true] at hr
  obtain ⟨hty, hsafe⟩ := hr
  cases r with
  | str s =>
    obtain ⟨off, hoff⟩ := Option.isSome_iff_exists.mp
      (show (parse_val s s.length).isSome = true from hsafe)
    exact ⟨_, by simp [kv_read_cb, redis_reply_check, hc, RedisReply.type, hoff, readFound,
      replyStep]; rfl⟩
  | array es =>
    cases es with
    | nil =>
      exact ⟨_, by simp [kv_read_cb, redis_reply_check, hc, RedisReply.type, readFound,
        replyStep]; rfl⟩
    | cons e0 rest =>
      simp only [replySafe, List.all_cons, Bool.and_eq_true] at hsafe
      cases e0 with
      | str s =>
        obtain ⟨off, hoff⟩ := Option.isSome_iff_exists.mp
          (show (parse_val s s.length).isSome = true from hsafe.1)
        exact ⟨_, by simp [kv_read_cb, redis_reply_check, hc, RedisReply.type, hoff, readFound,
          replyStep]; rfl⟩
      | nil =>
        exact ⟨_, by simp [kv_read_cb, redis_reply_check, hc, RedisReply.type, readFound,
          replyStep]; rfl⟩
      | status _ =>
        exact ⟨_, by simp [kv_read_cb, redis_reply_check, hc, RedisReply.type, readFound,
          replyStep]; rfl⟩
      | integer _ =>
        exact ⟨_, by simp [kv_read_cb, redis_reply_check, hc, RedisReply.type, readFound,
          replyStep]; rfl⟩
      | array _ =>
        exact ⟨_, by simp [kv_read_cb, redis_reply_check, hc, RedisReply.type, readFound,
          replyStep]; rfl⟩
      | error _ =>
        exact ⟨_, by simp [kv_read_cb, redis_reply_check, hc, RedisReply.type, readFound,
          replyStep]; rfl⟩
  | nil =>
    exact ⟨_, by simp [kv_read_cb, redis_reply_check, hc, RedisReply.type, readFound,
      replyStep]; rfl⟩
  | status _ => simp [RedisReply.type] at hty
  | integer _ => simp [RedisReply.type] at hty
  | error _ => simp [RedisReply.type] at hty

theorem deliverAll_reads_last : ∀ (rs : List (Nat × RedisReply)) (op : m0_clovis_op)
    (c : s3_redis_context_obj) (p : Nat × RedisReply),
    op.op_datum = .redis c → c.had_error = false →
    c.async_ops_cnt = c.replies_cnt + ((rs.length + 1 : Nat) : Int) →
    (∀ q ∈ rs, readReplyOk q.2 = true) → readReplyOk p.2 = true →
    ∃ op1, deliverAll (rs.map readDelivery ++ [readDelivery p]) op = some op1 ∧
      op1.signals = op.signals ++ [.s3_clovis_op_stable] ∧
      op1.op_rc = (if readFound p.2 then 0 else -ENOENT)
  | [], op, c, p, hc, he, hn, _, hp => by
    obtain ⟨kv1, h1⟩ := kv_read_cb_code op c p.1 p.2 hc hp
    have hf : finalize_op (replyStep op c kv1 (if readFound p.2 then 0 else -ENOENT)) =
        some { op_datum := .caller { c.prev_ctx with kv := kv1 },
               op_rc := (if readFound p.2 then 0 else -ENOENT),
               signals := op.signals ++ [.s3_clovis_op_stable] } := by
      simp only [List.length_nil, Nat.zero_add, Nat.cast_one] at hn
      simp [finalize_op, replyStep, s3_redis_context_obj.setKv, hn, he]
    have hd : deliverAll ([].map readDelivery ++ [readDelivery p]) op =
        some { op_datum := .caller { c.prev_ctx with kv := kv1 },
               op_rc := (if readFound p.2 then 0 else -ENOENT),
               signals := op.signals ++ [.s3_clovis_op_stable] } := by
      simp only [List.map_nil, List.nil_append, deliverAll, deliver, readDelivery, h1, hf]
    exact ⟨_, hd, rfl, rfl⟩
  | q :: rs, op, c, p, hc, he, hn, hrs, hp => by
    obtain ⟨kv1, h1⟩ := kv_read_cb_code op c q.1 q.2 hc (hrs q (by simp))
    have hf : finalize_op (replyStep op c kv1 (if readFound q.2 then 0 else -ENOENT)) =
        some (replyStep op c kv1 (if readFound q.2 then 0 else -ENOENT)) := by
      have : c.replies_cnt + 1 < c.async_ops_cnt := by
        rw [hn]
        simp only [List.length_cons]
        push_cast
        omega
      simp [finalize_op, replyStep, s3_redis_context_obj.setKv, this]
    obtain ⟨op1, h2, hsig, hrc⟩ := deliverAll_reads_last rs
      (replyStep op c kv1 (if readFound q.2 then 0 else -ENOENT)) _ p rfl
      (by simpa [s3_redis_context_obj.setKv] using he)
      (by
        simp only [s3_redis_context_obj.setKv]
        rw [hn]
        simp only [List.length_cons]
        push_cast
        omega)
      (fun x hx => hrs x (by simp [hx])) hp
    refine ⟨op1, ?_, hsig, hrc⟩
    simp only [List.map_cons, List.cons_append, deliverAll, deliver, readDelivery, h1, hf]
    exact h2

/-- C15 (as amended): for every `kv_read` over a batch of n >= 1 keys and every
arrival order of the n well-formed replies (accepted tag, every string with a
value part), the op completes as stable and the batch-level code `op_rc` is 0
if the reply processed last carried a member and `-ENOENT` otherwise: each run
of `kv_read_cb` overwrites `op_rc`. -/
theorem kv_read_op_rc_of_last_reply (kv : List KvSlot) (rs : List (Nat × RedisReply))
    (p : Nat × RedisReply) (hn : kv.length = rs.length + 1)
    (hrs : ∀ q ∈ rs, readReplyOk q.2 = true) (hp : readReplyOk p.2 = true) :
    ∃ op0 cmds op1, kv_read (launch kv) = some (op0, cmds) ∧ cmds.length = rs.length + 1 ∧
      deliverAll (rs.map readDelivery ++ [readDelivery p]) op0 = some op1 ∧
      op1.signals = [.s3_clovis_op_stable] ∧
      (op1.op_rc = 0 ↔ readFound p.2 = true) ∧
      (op1.op_rc = -ENOENT ↔ readFound p.2 = false) := by
  obtain ⟨op1, h1, hsig, hrc⟩ := deliverAll_reads_last rs
    { launch kv with op_datum := .redis (new_ctx { is_fake_failure := 0, kv := kv } kv.length) }
    _ p rfl rfl (by simp [new_ctx, hn]) hrs hp
  refine ⟨_, _, op1, rfl, by simp [hn], h1, by simpa [launch] using hsig, ?_, ?_⟩
  · rw [hrc]
    cases readFound p.2 <;> simp [ENOENT]
  · rw [hrc]
    cases readFound p.2 <;> simp [ENOENT]

/-- Witness of C15: batch of two keys, the reply for slot 1 (found) arrives
first and the reply for slot 0 (empty array) last: `op_rc` is `-ENOENT`. -/
theorem kv_read_op_rc_of_last_reply_witness :
    ∃ op0 cmds op1, kv_read (launch [keySlot [0x61], keySlot [0x62]]) = some (op0, cmds) ∧
      cmds.length = [((1 : Nat), RedisReply.array [.str [0x62, 0, 0x78, 0]])].length + 1 ∧
      deliverAll ([((1 : Nat), RedisReply.array [.str [0x62, 0, 0x78, 0]])].map readDelivery ++
        [readDelivery (0, .array [])]) op0 = some op1 ∧
      op1.signals = [.s3_clovis_op_stable] ∧
      (op1.op_rc = 0 ↔ readFound (.array []) = true) ∧
      (op1.op_rc = -ENOENT ↔ readFound (.array []) = false) :=
  kv_read_op_rc_of_last_reply [keySlot [0x61], keySlot [0x62]]
    [(1, .array [.str [0x62, 0, 0x78, 0]])] (0, .array []) rfl (by decide) (by decide)

/-- C15 as stated fails: the set holds key "a" only and `kv_read` asks for "a"
and "b"; the replies arrive in issue order.  Key "a" was found (its code is 0
and its value is returned), yet the batch-level code is `-ENOENT`, the code of
the reply processed last. -/
theorem kv_read_op_rc_not_found_though_key_found :
    runOp kv_read [[0x61, 0, 0x78, 0]] (launch [keySlot [0x61], keySlot [0x62]]) =
      some ([[0x61, 0, 0x78, 0]],
        finished [{ key := some [0x61], val := some [0x78], rc := 0 },
                  { key := some [0x62], val := none, rc := -ENOENT }] (-ENOENT)) := by
  decide

end S3Kvs

namespace S3Kvs

/-! ## The number of pairs a scan returns (C19) -/

theorem lexLt_of_lexLt_cstr (k0 m : Bytes) (hok : memberOk m = true)
    (h : lexLt k0 (cstr m) = true) : lexLt k0 m = true := by
  obtain ⟨r, hr⟩ := memberOk_split m hok
  rw [hr]
  exact lexLt_trans _ _ _ h (lexLt_append_nil _ _ _)

theorem lexLt_of_cstr_eq (k0 m : Bytes) (hok : memberOk m = true) (h : cstr m = k0) :
    lexLt k0 m = true := by
  obtain ⟨r, hr⟩ := memberOk_split m hok
  rw [hr, h]
  exact lexLt_append_nil _ _ _

theorem keysAbove_eq_filter (k0 : Bytes) (s : Store) (h0 : 0 ∉ k0)
    (hok : ∀ m ∈ s, memberOk m = true) :
    keysAbove k0 s = (s.filter (fun m => lexLt k0 m)).filter (fun m => decide (cstr m ≠ k0)) := by
  rw [List.filter_filter]
  apply List.filter_congr
  intro m hm
  cases h1 : lexLt k0 (cstr m) with
  | true =>
    have hne : cstr m ≠ k0 := by
      intro e
      rw [e, lexLt_irrefl] at h1
      cases h1
    simp [hne, lexLt_of_lexLt_cstr k0 m (hok m hm) h1]
  | false =>
    by_cases hne : cstr m = k0
    · simp [hne]
    · cases h2 : lexLt k0 m with
      | true =>
        rw [lexLt_cstr_above k0 m h0 h2 hne] at h1
        cases h1
      | false => simp

theorem skipFirst_take_eq (k0 : Bytes) (n : Nat) (h0 : 0 ∉ k0) (hk0 : k0 ≠ []) :
    ∀ (g : List Bytes), (∀ m ∈ g, lexLt k0 m = true) →
      (g.map cstr).Pairwise (fun a b => lexLt a b = true) →
      (skipFirst k0 (g.take (n + 1))).take n =
        (g.filter (fun m => decide (cstr m ≠ k0))).take n
  | [], _, _ => by simp [skipFirst]
  | m :: g, habove, hsorted => by
    have hlen : k0.length > 0 := List.length_pos.mpr hk0
    simp only [List.map_cons, List.pairwise_cons, List.mem_map, forall_exists_index,
      and_imp, forall_apply_eq_imp_iff₂] at hsorted
    have hrest : ∀ x ∈ g, cstr x ≠ k0 := by
      intro x hx e
      have h1 := hsorted.1 x hx
      rw [e, lexLt_cstr_not_below k0 m h0 (habove m (by simp))] at h1
      cases h1
    have hfil : g.filter (fun m => decide (cstr m ≠ k0)) = g := by
      rw [List.filter_eq_self]
      intro x hx
      simp [hrest x hx]
    by_cases hm : cstr m = k0
    · have hfm : (m :: g).filter (fun m => decide (cstr m ≠ k0)) = g := by
        rw [List.filter_cons_of_neg (by simp [hm]), hfil]
      have hsk : skipFirst k0 (m :: g.take n) = g.take n := by
        simp [skipFirst, hm, hlen]
      rw [hfm, List.take_succ_cons, hsk, List.take_take, Nat.min_self]
    · have hfm : (m :: g).filter (fun m => decide (cstr m ≠ k0)) = m :: g := by
        rw [List.filter_cons_of_pos (by simp [hm]), hfil]
      have hsk : skipFirst k0 (m :: g.take n) = m :: g.take n := by
        simp [skipFirst, hm]
      rw [hfm, List.take_succ_cons, hsk, ← List.take_succ_cons, List.take_take]
      simp

theorem take_smallest (n : Nat) (f : List Bytes)
    (hsorted : (f.map cstr).Pairwise (fun a b => lexLt a b = true)) :
    ∀ m ∈ f, m ∉ f.take n → ∀ x ∈ f.take n, lexLt (cstr x) (cstr m) = true := by
  intro m hm hnot x hx
  have hsplit : f = f.take n ++ f.drop n := (List.take_append_drop n f).symm
  have hmd : m ∈ f.drop n := by
    rw [hsplit] at hm
    rcases List.mem_append.mp hm with h | h
    · exact absurd h hnot
    · exact h
  rw [hsplit, List.map_append, List.pairwise_append] at hsorted
  exact hsorted.2.2 _ (List.mem_map_of_mem _ hx) _ (List.mem_map_of_mem _ hmd)

/-- C19: for every store in which members ascend, carry a value part and no two
have the same key, every non-empty start key `k0` (without `0x00`) and every
n >= 1 result slots, `kv_next` issues one scan with the exclusive lower border
`(k0`, upper bound `+` and `LIMIT 0 n+1` (for an empty start key: bounds `-`
and `+`, `LIMIT 0 n`); it returns exactly min(n, number of stored keys strictly
greater than `k0`) pairs, the pairs of the first such members in order, so
every stored key above `k0` that is not returned is greater than every key
returned. -/
theorem kv_next_returns_min_count (s : Store) (k0 : Bytes) (rest : List KvSlot)
    (hs : StoreSorted s) (hok : ∀ m ∈ s, memberOk m = true) (hu : KeysUnique s)
    (hk0 : k0 ≠ []) (h0 : 0 ∉ k0) :
    (kv_next (launch (keySlot k0 :: rest))).map (fun r => r.2) =
      some [{ cmd := .zrangebylex (0x28 :: k0) [0x2B] (rest.length + 1 + 1),
              fn := some .kv_next_cb, privdata := some 0 }] ∧
    (kv_next (launch (emptySlot :: rest))).map (fun r => r.2) =
      some [{ cmd := .zrangebylex [0x2D] [0x2B] (rest.length + 1),
              fn := some .kv_next_cb, privdata := some 0 }] ∧
    ∃ res rc, runOp kv_next s (launch (keySlot k0 :: rest)) = some (s, finished res rc) ∧
      results res = ((keysAbove k0 s).take (rest.length + 1)).map pairOfMember ∧
      (results res).length = min (rest.length + 1) (keysAbove k0 s).length ∧
      ∀ m ∈ keysAbove k0 s, m ∉ (keysAbove k0 s).take (rest.length + 1) →
        ∀ p ∈ results res, lexLt p.1 (cstr m) = true := by
  have hkeys := keys_sorted s hs hu hok
  have hres : results (fillSlots
      (skipFirst k0 ((s.filter (fun m => lexLt k0 m)).take (rest.length + 1 + 1)))
      (({ keySlot k0 with key := none } :: rest).map resetSlot)) =
      ((keysAbove k0 s).take (rest.length + 1)).map pairOfMember := by
    have hreset : ∀ sl ∈ ({ keySlot k0 with key := none } :: rest).map resetSlot, sl.rc ≠ 0 := by
      intro sl hsl
      obtain ⟨x, _, rfl⟩ := List.mem_map.mp hsl
      simp [resetSlot, ENOENT]
    rw [results_fillSlots _ _ hreset, keysAbove_eq_filter k0 s h0 hok]
    have hlen : (({ keySlot k0 with key := none } :: rest).map resetSlot).length =
        rest.length + 1 := by simp
    rw [hlen, skipFirst_take_eq k0 (rest.length + 1) h0 hk0 _
      (fun m hm => (List.mem_filter.mp hm).2)
      (hkeys.sublist ((List.filter_sublist _).map cstr))]
  refine ⟨?_, ?_, _, _, runOp_kv_next_after s k0 rest hk0 hok, hres, ?_, ?_⟩
  · have hlen : k0.length > 0 := List.length_pos.mpr hk0
    simp [kv_next, launch, keySlot, slotBuf, hlen, prepare_border, redis_key.sent]
  · simp [kv_next, launch, emptySlot, slotBuf]
  · rw [hres]
    simp
  · intro m hm hnot p hp
    rw [hres] at hp
    obtain ⟨x, hx, rfl⟩ := List.mem_map.mp hp
    exact take_smallest _ _ (hkeys.sublist ((List.filter_sublist _).map cstr)) m hm hnot x hx

/-- Witness of C19: keys "a", "b", "c" stored, scan from start key "a" with one
result slot: the scan asks for two members, drops the member of "a" and
returns ("b", "x"). -/
theorem kv_next_returns_min_count_witness :
    ((kv_next (launch (keySlot [0x61] :: []))).map (fun r => r.2) =
      some [{ cmd := .zrangebylex (0x28 :: [0x61]) [0x2B] (([] : List KvSlot).length + 1 + 1),
              fn := some .kv_next_cb, privdata := some 0 }] ∧
    (kv_next (launch (emptySlot :: []))).map (fun r => r.2) =
      some [{ cmd := .zrangebylex [0x2D] [0x2B] (([] : List KvSlot).length + 1),
              fn := some .kv_next_cb, privdata := some 0 }] ∧
    ∃ res rc, runOp kv_next storeABC (launch (keySlot [0x61] :: [])) =
        some (storeABC, finished res rc) ∧
      results res =
        ((keysAbove [0x61] storeABC).take (([] : List KvSlot).length + 1)).map pairOfMember ∧
      (results res).length =
        min (([] : List KvSlot).length + 1) (keysAbove [0x61] storeABC).length ∧
      ∀ m ∈ keysAbove [0x61] storeABC,
        m ∉ (keysAbove [0x61] storeABC).take (([] : List KvSlot).length + 1) →
        ∀ p ∈ results res, lexLt p.1 (cstr m) = true) ∧
    (runOp kv_next storeABC (launch [keySlot [0x61]])).map (fun r => results r.2.slots) =
      some [([0x62], [0x78])] :=
  ⟨kv_next_returns_min_count storeABC [0x61] [] (by decide) (by decide) (by decide)
      (by decide) (by decide), by decide⟩

/-! ## Filling the result vector (C20) -/

theorem fillSlots_length : ∀ (ms : List Bytes) (post : List KvSlot),
    (fillSlots ms post).length = post.length
  | [], post => by simp [fillSlots]
  | _ :: _, [] => by simp [fillSlots]
  | _ :: ms, _ :: post => by simp [fillSlots, fillSlots_length ms post]

theorem fillSlots_getElem_filled : ∀ (ms : List Bytes) (post : List KvSlot) (i : Nat)
    (m : Bytes), i < post.length → ms[i]? = some m →
    (fillSlots ms post)[i]? = some (slotOfMember m)
  | [], _, _, _, _, h => by simp at h
  | _ :: _, [], _, _, hi, _ => by simp at hi
  | m0 :: ms, _ :: post, 0, m, _, h => by
    simp only [List.getElem?_cons_zero, Option.some.injEq] at h
    simp [fillSlots, h]
  | m0 :: ms, _ :: post, i + 1, m, hi, h => by
    simp only [List.getElem?_cons_succ] at h
    simp only [fillSlots, List.getElem?_cons_succ]
    exact fillSlots_getElem_filled ms post i m (by simpa using hi) h

theorem fillSlots_getElem_rest : ∀ (ms : List Bytes) (post : List KvSlot) (i : Nat),
    ms.length ≤ i → (fillSlots ms post)[i]? = post[i]?
  | [], _, _, _ => by simp [fillSlots]
  | _ :: _, [], _, _ => by simp [fillSlots]
  | m0 :: ms, _ :: post, 0, h => by simp at h
  | m0 :: ms, _ :: post, i + 1, h => by
    simp only [fillSlots, List.getElem?_cons_succ]
    exact fillSlots_getElem_rest ms post i (by simpa using h)

/-- C20 (as amended): for every array reply of string elements `ms` that each
hold a `0x00` separator, and a result vector `kv` of cnt slots, `kv_next_cb`
completes the op as stable and: element 0 is dropped if and only if a skip
value is recorded and the key part of element 0 equals it; with `rem` the
elements left and r = min(cnt, length of rem), slot i < r holds code 0, the key
part of `rem[i]` (bytes before the first `0x00`) and as value the bytes after
that `0x00` up to, not including, the next `0x00` byte; slots r..cnt-1 keep key
and value and hold code `-ENOENT`; `op_rc` is 0 if r > 0 and `-ENOENT`
otherwise. -/
theorem kv_next_cb_fills_slots (kv : List KvSlot) (skip : Bytes) (ms : List Bytes)
    (hok : ∀ m ∈ ms, memberOk m = true) :
    ∃ rem res rc,
      kv_next_cb (some false) (some (.array (ms.map RedisReply.str))) (some 0)
        (inFlight kv 1 skip) = some (finished res rc) ∧
      (rem = match ms with
        | [] => []
        | e0 :: es => if skip.length > 0 ∧ cstr e0 = skip then es else e0 :: es) ∧
      res.length = kv.length ∧
      (∀ i m, i < kv.length → rem[i]? = some m →
        res[i]? = some { rc := 0, key := some (cstr m),
                         val := some (cstr (m.drop (strlen m + 1))) }) ∧
      (∀ i sl, rem.length ≤ i → kv[i]? = some sl → res[i]? = some { sl with rc := -ENOENT }) ∧
      (0 < min kv.length rem.length → rc = 0) ∧
      (min kv.length rem.length = 0 → rc = -ENOENT) := by
  refine ⟨skipFirst skip ms, _, _, kv_next_cb_members kv skip ms hok, ?_, ?_, ?_, ?_, ?_, ?_⟩
  · cases ms <;> rfl
  · simp [fillSlots_length]
  · intro i m hi hm
    exact fillSlots_getElem_filled _ _ i m (by simpa using hi) hm
  · intro i sl hi hsl
    rw [fillSlots_getElem_rest _ _ i hi]
    simp [hsl, resetSlot]
  · intro hpos
    have h1 : skipFirst skip ms ≠ [] := by
      intro e
      rw [e] at hpos
      simp at hpos
    have h2 : kv.map resetSlot ≠ [] := by
      intro e
      have : kv = [] := by simpa using e
      rw [this] at hpos
      simp at hpos
    simp [h1, h2]
  · intro hz
    have h : skipFirst skip ms = [] ∨ kv.map resetSlot = [] := by
      rcases Nat.min_eq_zero_iff.mp hz with h | h
      · exact Or.inr (by simp [List.length_eq_zero.mp h])
      · exact Or.inl (List.length_eq_zero.mp h)
    exact if_pos h

/-- Witness of C20: reply "a\0x\0", "b\0y\0", "c\0z\0" with skip value "a"
and three result slots: "a" is dropped, slots 0 and 1 are filled with ("b", "y")
and ("c", "z"), slot 2 holds `-ENOENT`, `op_rc` is 0. -/
theorem kv_next_cb_fills_slots_witness :
    (∃ rem res rc,
      kv_next_cb (some false)
        (some (.array ([[0x61, 0, 0x78, 0], [0x62, 0, 0x79, 0], [0x63, 0, 0x7A, 0]].map
          RedisReply.str))) (some 0)
        (inFlight [emptySlot, emptySlot, emptySlot] 1 [0x61]) = some (finished res rc) ∧
      (rem = match ([[0x61, 0, 0x78, 0], [0x62, 0, 0x79, 0], [0x63, 0, 0x7A, 0]] : List Bytes) with
        | [] => []
        | e0 :: es => if ([0x61] : Bytes).length > 0 ∧ cstr e0 = [0x61] then es else e0 :: es) ∧
      res.length = [emptySlot, emptySlot, emptySlot].length ∧
      (∀ i m, i < [emptySlot, emptySlot, emptySlot].length → rem[i]? = some m →
        res[i]? = some { rc := 0, key := some (cstr m),
                         val := some (cstr (m.drop (strlen m + 1))) }) ∧
      (∀ i sl, rem.length ≤ i → [emptySlot, emptySlot, emptySlot][i]? = some sl →
        res[i]? = some { sl with rc := -ENOENT }) ∧
      (0 < min [emptySlot, emptySlot, emptySlot].length rem.length → rc = 0) ∧
      (min [emptySlot, emptySlot, emptySlot].length rem.length = 0 → rc = -ENOENT)) ∧
    kv_next_cb (some false)
        (some (.array [.str [0x61, 0, 0x78, 0], .str [0x62, 0, 0x79, 0],
          .str [0x63, 0, 0x7A, 0]])) (some 0)
        (inFlight [emptySlot, emptySlot, emptySlot] 1 [0x61]) =
      some (finished [{ rc := 0, key := some [0x62], val := some [0x79] },
                      { rc := 0, key := some [0x63], val := some [0x7A] },
                      { rc := -ENOENT, key := none, val := none }] 0) :=
  ⟨kv_next_cb_fills_slots [emptySlot, emptySlot, emptySlot] [0x61]
      [[0x61, 0, 0x78, 0], [0x62, 0, 0x79, 0], [0x63, 0, 0x7A, 0]] (by decide), by decide⟩

/-- C20 as stated fails for an element whose value part holds a `0x00` byte:
the element "k\0a\0b\0" (the member `kv_write` stores for key "k" and value
"a\0b") split at its first `0x00` byte has the value part "a\0b\0", but
`kv_next_cb` fills the slot with the value "a". -/
theorem kv_next_cb_value_cut_at_second_nul :
    memberOf [0x6B] [0x61, 0, 0x62] = [0x6B, 0, 0x61, 0, 0x62, 0] ∧
      memberOk [0x6B, 0, 0x61, 0, 0x62, 0] = true ∧
      kv_next_cb (some false) (some (.array [.str [0x6B, 0, 0x61, 0, 0x62, 0]])) (some 0)
          (inFlight [emptySlot] 1 []) =
        some (finished [{ rc := 0, key := some [0x6B], val := some [0x61] }] 0) ∧
      ([0x6B, 0, 0x61, 0, 0x62, 0] : Bytes).drop (strlen [0x6B, 0, 0x61, 0, 0x62, 0] + 1) =
        [0x61, 0, 0x62, 0] ∧
      ([0x61] : Bytes) ≠ [0x61, 0, 0x62, 0] ∧ ([0x61] : Bytes) ≠ [0x61, 0, 0x62] := by
  decide

end S3Kvs

namespace S3Put

/-! ## Scenario E4: write completes before chunk authentication (C16) -/

/-- C16 at the failing input: scenario E4 (chunks of 4, 4 and 0 bytes, final
write issued with no buffered bytes left).  The write completion neither
advances nor records `clovis_write_completed`; the subsequent
`chunk_auth_successful` only sets `auth_completed`: `next()` is never called,
`save_metadata` never runs and no response is sent. -/
theorem scenario_e4_never_advances :
    ((write_object uploadE4).bind (final_write_returns true)).map
        (fun a => (a.clovis_write_completed, a.auth_completed, countNext a.trace)) =
      some (false, false, 0) ∧
    (((write_object uploadE4).bind (final_write_returns true)).bind chunk_auth_successful).map
        (fun a => (a.clovis_write_completed, a.auth_completed, countNext a.trace,
          countSaves a.trace, responses a.trace)) =
      some (false, true, 0, 0, []) := by
  decide

/-! ## Scenario E5: chunk authentication fails during the write (C17) -/

/-- C17 at the failing input: scenario E5 on part 2 (bucket, multipart and
part-1 metadata present).  `chunk_auth_failed` arrives while the write is in
progress and sends nothing; the write then succeeds and the classifier sends
`SignatureDoesNotMatch` followed by `InternalError`.  `save_metadata` never
runs.  On part 1 (no part metadata object) the classifier dereferences the null
`part_metadata` after the first response. -/
theorem scenario_e5_sends_two_responses :
    ((write_object chunkedUpload).bind chunk_auth_failed).map
        (fun a => (a.auth_failed, responses a.trace)) = some (true, []) ∧
    (((write_object chunkedUpload).bind chunk_auth_failed).bind (final_write_returns true)).map
        (fun a => (responses a.trace, countSaves a.trace)) =
      some ([.send_response_error .SignatureDoesNotMatch,
             .send_response_error .InternalError], 0) ∧
    ((write_object uploadE4).bind chunk_auth_failed).bind (final_write_returns true) = none := by
  decide

/-! ## Failure callbacks of the metadata loads (C18) -/

/-- C18 (as amended): for an unchunked request with the bucket present, when
the multipart-metadata load calls its failure callback and has left the
metadata in state `missing`, the handler resumes the request and the response
emitted is `NoSuchUpload`; when the part-1 metadata load calls its failure
callback (multipart metadata present) and has left the part metadata in state
`missing`, the response emitted is `ServiceUnavailable` with header
`Retry-After: 1`.  In both cases this is the only response, followed by
resume, `done` and `i_am_done`. -/
theorem load_failure_responses_when_missing (a : S3PutMultiObjectAction)
    (hch : a.is_chunked = false) (hb : a.bucket_metadata = some .present) :
    (a.object_multipart_metadata = some .missing →
      ∃ a1, fetch_multipart_failed a = some a1 ∧
        a1.trace = a.trace ++
          [.request_resume,
           .set_out_header_value "Content-Type" (.text "application/xml"),
           .set_out_header_value "Content-Length" (.xml_length .NoSuchUpload),
           .send_response_error .NoSuchUpload,
           .request_resume, .done, .i_am_done]) ∧
    (a.object_multipart_metadata = some .present →
      a.part_metadata.map (fun p => p.state) = some .missing →
      ∃ a1, fetch_firstpart_info_failed a = some a1 ∧
        a1.trace = a.trace ++
          [.request_resume,
           .set_out_header_value "Content-Type" (.text "application/xml"),
           .set_out_header_value "Content-Length" (.xml_length .ServiceUnavailable),
           .set_out_header_value "Retry-After" (.text "1"),
           .send_response_error .ServiceUnavailable,
           .request_resume, .done, .i_am_done]) := by
  constructor
  · intro hm
    have h : fetch_multipart_failed a = some
        (((a.emit [.request_resume]).emit (errorResponse .NoSuchUpload)).emit
          [.request_resume, .done, .i_am_done]) := by
      simp [fetch_multipart_failed, send_response_to_s3_client, S3PutMultiObjectAction.emit,
        hch, hb, hm]
    exact ⟨_, h, by simp [S3PutMultiObjectAction.emit, errorResponse]⟩
  · intro hm hp
    have h : fetch_firstpart_info_failed a = some
        (((a.emit [.request_resume]).emit
          [.set_out_header_value "Content-Type" (.text "application/xml"),
           .set_out_header_value "Content-Length" (.xml_length .ServiceUnavailable),
           .set_out_header_value "Retry-After" (.text "1"),
           .send_response_error .ServiceUnavailable]).emit
          [.request_resume, .done, .i_am_done]) := by
      simp [fetch_firstpart_info_failed, send_response_to_s3_client,
        S3PutMultiObjectAction.emit, hch, hb, hm] at hp ⊢
      simp [hp]
    exact ⟨_, h, by simp [S3PutMultiObjectAction.emit]⟩

/-- Witness of C18: the two failure callbacks on part 2 of an unchunked upload
whose load left the state `missing`. -/
theorem load_failure_responses_when_missing_witness :
    (∃ a1, fetch_multipart_failed (multipartLoadFailed .missing) = some a1 ∧
      a1.trace = (multipartLoadFailed .missing).trace ++
        [.request_resume,
         .set_out_header_value "Content-Type" (.text "application/xml"),
         .set_out_header_value "Content-Length" (.xml_length .NoSuchUpload),
         .send_response_error .NoSuchUpload,
         .request_resume, .done, .i_am_done]) ∧
    (∃ a1, fetch_firstpart_info_failed (firstpartLoadFailed .missing) = some a1 ∧
      a1.trace = (firstpartLoadFailed .missing).trace ++
        [.request_resume,
         .set_out_header_value "Content-Type" (.text "application/xml"),
         .set_out_header_value "Content-Length" (.xml_length .ServiceUnavailable),
         .set_out_header_value "Retry-After" (.text "1"),
         .send_response_error .ServiceUnavailable,
         .request_resume, .done, .i_am_done]) :=
  ⟨(load_failure_responses_when_missing (multipartLoadFailed .missing) rfl rfl).1 rfl,
   (load_failure_responses_when_missing (firstpartLoadFailed .missing) rfl rfl).2 rfl rfl⟩

/-- C18 as stated fails: when the load leaves the state `failed`, neither
callback emits the response of the claim.  The classifier goes past the tests
for `missing` and reads the state of the writer, which does not exist yet (a
null pointer): no `NoSuchUpload` and no `ServiceUnavailable` is sent. -/
theorem load_failure_state_failed_no_response :
    fetch_multipart_failed (multipartLoadFailed .failed) = none ∧
      fetch_firstpart_info_failed (firstpartLoadFailed .failed) = none ∧
      (multipartLoadFailed .failed).clovis_writer = none ∧
      (firstpartLoadFailed .failed).clovis_writer = none := by
  decide

end S3Put

namespace S3Kvs

/-! ## The reply check (C21) -/

theorem checked_intro (op op1 : m0_clovis_op) (c : s3_redis_context_obj) (bad : Bool)
    (x : Option m0_clovis_op) (h : x = finalize_op op1) (hc : CheckedOnce op op1 c bad) :
    ∃ op1, x = finalize_op op1 ∧ CheckedOnce op op1 c bad := ⟨op1, h, hc⟩

theorem checked_bad (op : m0_clovis_op) (c : s3_redis_context_obj) :
    CheckedOnce op
      { op with op_datum := .redis { c with replies_cnt := c.replies_cnt + 1, had_error := true } }
      c true :=
  ⟨_, rfl, rfl, rfl, rfl, by simp, fun _ => ⟨rfl, rfl⟩⟩

theorem checked_good (op : m0_clovis_op) (c : s3_redis_context_obj) (kv : List KvSlot)
    (rc : Int) :
    CheckedOnce op
      { op with
        op_datum := .redis (({ c with replies_cnt := c.replies_cnt + 1 }).setKv kv)
        op_rc := rc }
      c false :=
  ⟨_, rfl, rfl, rfl, rfl, by simp [s3_redis_context_obj.setKv], fun h => (by cases h)⟩

theorem kv_status_cb_checked (e : Bool) (reply : Option RedisReply) (i : Nat)
    (op : m0_clovis_op) (c : s3_redis_context_obj) (hc : op.op_datum = .redis c) :
    ∃ op1, kv_status_cb (some e) reply (some i) op = finalize_op op1 ∧
      CheckedOnce op op1 c (replyBad e reply (expectedTags .kv_status_cb)) := by
  cases reply with
  | none =>
    have hb : replyBad e none (expectedTags .kv_status_cb) = true := by simp [replyBad]
    rw [hb]
    exact checked_intro op _ c true _
      (by simp only [kv_status_cb, redis_reply_check, hc]) (checked_bad op c)
  | some r =>
    cases e with
    | true =>
      have hb : replyBad true (some r) (expectedTags .kv_status_cb) = true := by simp [replyBad]
      rw [hb]
      exact checked_intro op _ c true _
        (by simp only [kv_status_cb, redis_reply_check, hc]; rfl) (checked_bad op c)
    | false =>
      cases r with
      | status s =>
        exact checked_intro op _ c false _
          (by simp [kv_status_cb, redis_reply_check, hc, RedisReply.type]; rfl)
          (checked_good op c _ _)
      | integer n =>
        exact checked_intro op _ c false _
          (by simp [kv_status_cb, redis_reply_check, hc, RedisReply.type]; rfl)
          (checked_good op c _ _)
      | nil =>
        exact checked_intro op _ c false _
          (by simp [kv_status_cb, redis_reply_check, hc, RedisReply.type]; rfl)
          (checked_good op c _ _)
      | str s =>
        exact checked_intro op _ c true _
          (by simp [kv_status_cb, redis_reply_check, hc, RedisReply.type])
          (checked_bad op c)
      | array es =>
        exact checked_intro op _ c true _
          (by simp [kv_status_cb, redis_reply_check, hc, RedisReply.type])
          (checked_bad op c)
      | error s =>
        exact checked_intro op _ c true _
          (by simp [kv_status_cb, redis_reply_check, hc, RedisReply.type])
          (checked_bad op c)

theorem kv_read_cb_checked (e : Bool) (reply : Option RedisReply) (i : Nat)
    (op : m0_clovis_op) (c : s3_redis_context_obj) (hc : op.op_datum = .redis c)
    (hs : ∀ r, reply = some r → replySafe r = true) :
    ∃ op1, kv_read_cb (some e) reply (some i) op = finalize_op op1 ∧
      CheckedOnce op op1 c (replyBad e reply (expectedTags .kv_read_cb)) := by
  cases reply with
  | none =>
    have hb : replyBad e none (expectedTags .kv_read_cb) = true := by simp [replyBad]
    rw [hb]
    exact checked_intro op _ c true _
      (by simp only [kv_read_cb, redis_reply_check, hc]) (checked_bad op c)
  | some r =>
    have hr := hs r rfl
    cases e with
    | true =>
      have hb : replyBad true (some r) (expectedTags .kv_read_cb) = true := by simp [replyBad]
      rw [hb]
      exact checked_intro op _ c true _
        (by simp only [kv_read_cb, redis_reply_check, hc]; rfl) (checked_bad op c)
    | false =>
      cases r with
      | str s =>
        obtain ⟨off, hoff⟩ := Option.isSome_iff_exists.mp
          (show (parse_val s s.length).isSome = true from hr)
        exact checked_intro op _ c false _
          (by simp [kv_read_cb, redis_reply_check, hc, RedisReply.type, hoff]; rfl)
          (checked_good op c _ _)
      | array es =>
        cases es with
        | nil =>
          exact checked_intro op _ c false _
            (by simp [kv_read_cb, redis_reply_check, hc, RedisReply.type]; rfl)
            (checked_good op c _ _)
        | cons e0 rest =>
          simp only [replySafe, List.all_cons, Bool.and_eq_true] at hr
          cases e0 with
          | str s =>
            obtain ⟨off, hoff⟩ := Option.isSome_iff_exists.mp
              (show (parse_val s s.length).isSome = true from hr.1)
            exact checked_intro op _ c false _
              (by simp [kv_read_cb, redis_reply_check, hc, RedisReply.type, hoff]; rfl)
              (checked_good op c _ _)
          | nil =>
            exact checked_intro op _ c false _
              (by simp [kv_read_cb, redis_reply_check, hc, RedisReply.type]; rfl)
              (checked_good op c _ _)
          | status _ =>
            exact checked_intro op _ c false _
              (by simp [kv_read_cb, redis_reply_check, hc, RedisReply.type]; rfl)
              (checked_good op c _ _)
          | integer _ =>
            exact checked_intro op _ c false _
              (by simp [kv_read_cb, redis_reply_check, hc, RedisReply.type]; rfl)
              (checked_good op c _ _)
          | array _ =>
            exact checked_intro op _ c false _
              (by simp [kv_read_cb, redis_reply_check, hc, RedisReply.type]; rfl)
              (checked_good op c _ _)
          | error _ =>
            exact checked_intro op _ c false _
              (by simp [kv_read_cb, redis_reply_check, hc, RedisReply.type]; rfl)
              (checked_good op c _ _)
      | nil =>
        exact checked_intro op _ c false _
          (by simp [kv_read_cb, redis_reply_check, hc, RedisReply.type]; rfl)
          (checked_good op c _ _)
      | status _ =>
        exact checked_intro op _ c true _
          (by simp [kv_read_cb, redis_reply_check, hc, RedisReply.type])
          (checked_bad op c)
      | integer _ =>
        exact checked_intro op _ c true _
          (by simp [kv_read_cb, redis_reply_check, hc, RedisReply.type])
          (checked_bad op c)
      | error _ =>
        exact checked_intro op _ c true _
          (by simp [kv_read_cb, redis_reply_check, hc, RedisReply.type])
          (checked_bad op c)

theorem kv_next_cb_checked (e : Bool) (reply : Option RedisReply) (i : Nat)
    (op : m0_clovis_op) (c : s3_redis_context_obj) (hc : op.op_datum = .redis c)
    (hs : ∀ r, reply = some r → replySafe r = true) :
    ∃ op1, kv_next_cb (some e) reply (some i) op = finalize_op op1 ∧
      CheckedOnce op op1 c (replyBad e reply (expectedTags .kv_next_cb)) := by
  cases reply with
  | none =>
    have hb : replyBad e none (expectedTags .kv_next_cb) = true := by simp [replyBad]
    rw [hb]
    exact checked_intro op _ c true _
      (by simp only [kv_next_cb, redis_reply_check, hc]) (checked_bad op c)
  | some r =>
    have hr := hs r rfl
    cases e with
    | true =>
      have hb : replyBad true (some r) (expectedTags .kv_next_cb) = true := by simp [replyBad]
      rw [hb]
      exact checked_intro op _ c true _
        (by simp only [kv_next_cb, redis_reply_check, hc]; rfl) (checked_bad op c)
    | false =>
      by_cases ht : [ReplyType.REDIS_REPLY_STRING, .REDIS_REPLY_NIL, .REDIS_REPLY_ARRAY].contains
          r.type = true
      · obtain ⟨⟨kv1, rc1⟩, hloop⟩ := kv_next_loop_safe c.prev_ctx.kv.length
          (kv_next_pending r c.skip_value) (kv_next_pending_safe r c.skip_value hr) 0
          (c.prev_ctx.kv.map (fun sl => { sl with rc := -ENOENT })) (-ENOENT)
        have hb : replyBad false (some r) (expectedTags .kv_next_cb) = false := by
          simp only [replyBad, expectedTags, ht]
          rfl
        rw [hb]
        refine checked_intro op _ c false _ ?_ (checked_good op c kv1 rc1)
        simp only [kv_next_cb, redis_reply_check, hc, ht, Bool.not_true, Bool.false_eq_true,
          if_false]
        simp only [s3_redis_context_obj.setKv, hloop]
      · have hb : replyBad false (some r) (expectedTags .kv_next_cb) = true := by
          simp only [replyBad, expectedTags, ht]
          rfl
        rw [hb]
        refine checked_intro op _ c true _ ?_ (checked_bad op c)
        simp only [kv_next_cb, redis_reply_check, hc, ht, Bool.not_false, if_true,
          Bool.false_eq_true, if_false]

theorem redis_reply_check_eq (e : Bool) (reply : Option RedisReply) (i : Nat)
    (exp : List ReplyType) (op : m0_clovis_op) (c : s3_redis_context_obj)
    (hc : op.op_datum = .redis c) :
    redis_reply_check e reply (some i) exp op =
      some (if replyBad e reply exp then .REPL_DONE else .REPL_CONTINUE,
        { op with op_datum := .redis { c with replies_cnt := c.replies_cnt + 1,
                                              had_error := c.had_error || replyBad e reply exp } }) := by
  cases reply with
  | none => simp [redis_reply_check, hc, replyBad]
  | some r =>
    cases e with
    | true => simp [redis_reply_check, hc, replyBad]
    | false =>
      by_cases ht : r.type ∈ exp
      · simp [redis_reply_check, hc, replyBad, ht]
      · simp [redis_reply_check, hc, replyBad, ht]

theorem deliver_bad (fn : redisCallbackFn) (e : Bool) (reply : Option RedisReply) (i : Nat)
    (op : m0_clovis_op) (c : s3_redis_context_obj) (hc : op.op_datum = .redis c)
    (hbad : replyBad e reply (expectedTags fn) = true) :
    deliver { fn := some fn, privdata := some i, glob_redis_ctx := some e, reply := reply } op =
      finalize_op { op with op_datum := .redis { c with replies_cnt := c.replies_cnt + 1,
                                                        had_error := true } } := by
  cases fn with
  | kv_read_cb =>
    have h := redis_reply_check_eq e reply i (expectedTags .kv_read_cb) op c hc
    rw [hbad] at h
    simp only [expectedTags, if_true, Bool.or_true] at h
    simp only [deliver, kv_read_cb, h]
  | kv_next_cb =>
    have h := redis_reply_check_eq e reply i (expectedTags .kv_next_cb) op c hc
    rw [hbad] at h
    simp only [expectedTags, if_true, Bool.or_true] at h
    simp only [deliver, kv_next_cb, h]
  | kv_status_cb =>
    have h := redis_reply_check_eq e reply i (expectedTags .kv_status_cb) op c hc
    rw [hbad] at h
    simp only [expectedTags, if_true, Bool.or_true] at h
    simp only [deliver, kv_status_cb, h]

/-- C21: for every callback (`kv_read_cb`, `kv_next_cb`, `kv_status_cb`) invoked
with non-null privdata on an op in flight, `redis_reply_check` increments
`replies_cnt` by exactly 1 and reports `REPL_DONE` with `had_error` set to true
if and only if the client context reports an error, the reply is null or its
tag is not in the expected set of the callback; otherwise it reports
`REPL_CONTINUE` and leaves `had_error` as it was.  For such a bad reply the
callback goes straight to `finalize_op` and changes no code, key or value of
the slots.  For every reply in which each string has a value part the callback
reaches `finalize_op` with one more reply counted and `had_error` equal to its
old value or-ed with the badness of this reply, so once true it stays true. -/
theorem redis_reply_check_counts_and_marks (fn : redisCallbackFn) (e : Bool)
    (reply : Option RedisReply) (i : Nat) (op : m0_clovis_op) (c : s3_redis_context_obj)
    (hc : op.op_datum = .redis c) :
    redis_reply_check e reply (some i) (expectedTags fn) op =
      some (if replyBad e reply (expectedTags fn) then .REPL_DONE else .REPL_CONTINUE,
        { op with op_datum := .redis { c with
            replies_cnt := c.replies_cnt + 1,
            had_error := c.had_error || replyBad e reply (expectedTags fn) } }) ∧
    (replyBad e reply (expectedTags fn) = true →
      ∃ op2, deliver { fn := some fn, privdata := some i, glob_redis_ctx := some e,
                       reply := reply } op = some op2 ∧
        op2.slots = op.slots) ∧
    ((∀ r, reply = some r → replySafe r = true) →
      ∃ op1 c1, deliver { fn := some fn, privdata := some i, glob_redis_ctx := some e,
                          reply := reply } op = finalize_op op1 ∧
        op1.op_datum = .redis c1 ∧ c1.replies_cnt = c.replies_cnt + 1 ∧
        c1.async_ops_cnt = c.async_ops_cnt ∧
        c1.had_error = (c.had_error || replyBad e reply (expectedTags fn))) := by
  refine ⟨redis_reply_check_eq e reply i _ op c hc, fun hbad => ?_, fun hs => ?_⟩
  · rw [deliver_bad fn e reply i op c hc hbad]
    obtain ⟨op2, h2, hs2, _⟩ := finalize_op_keeps_slots
      { op with op_datum := .redis { c with replies_cnt := c.replies_cnt + 1,
                                            had_error := true } } _ rfl
    refine ⟨op2, h2, ?_⟩
    rw [hs2]
    simp [m0_clovis_op.slots, hc]
  · cases fn with
    | kv_read_cb =>
      obtain ⟨op1, h1, c1, hd, _, hcnt, hn, he, _⟩ := kv_read_cb_checked e reply i op c hc hs
      exact ⟨op1, c1, h1, hd, hcnt, hn, he⟩
    | kv_next_cb =>
      obtain ⟨op1, h1, c1, hd, _, hcnt, hn, he, _⟩ := kv_next_cb_checked e reply i op c hc hs
      exact ⟨op1, c1, h1, hd, hcnt, hn, he⟩
    | kv_status_cb =>
      obtain ⟨op1, h1, c1, hd, _, hcnt, hn, he, _⟩ := kv_status_cb_checked e reply i op c hc
      exact ⟨op1, c1, h1, hd, hcnt, hn, he⟩

/-- Witness of C21: an op on two keys whose first reply was in error receives
a good status reply for slot 1: the reply is counted, `had_error` stays true. -/
theorem redis_reply_check_counts_and_marks_witness :
    redis_reply_check false (some (.status [0x4F, 0x4B])) (some 1)
        (expectedTags .kv_status_cb) twoKeyOpErrored =
      some (if replyBad false (some (.status [0x4F, 0x4B])) (expectedTags .kv_status_cb)
          then .REPL_DONE else .REPL_CONTINUE,
        { twoKeyOpErrored with op_datum := .redis {
            prev_ctx := { is_fake_failure := 0, kv := [keySlot [0x61], keySlot [0x62]] },
            async_ops_cnt := 2, replies_cnt := 1 + 1,
            had_error := true || replyBad false (some (.status [0x4F, 0x4B]))
              (expectedTags .kv_status_cb),
            skip_value := [] } }) ∧
    (replyBad false (some (.status [0x4F, 0x4B])) (expectedTags .kv_status_cb) = true →
      ∃ op2, deliver { fn := some .kv_status_cb, privdata := some 1, glob_redis_ctx := some false,
                       reply := some (.status [0x4F, 0x4B]) } twoKeyOpErrored = some op2 ∧
        op2.slots = twoKeyOpErrored.slots) ∧
    ((∀ r, some (RedisReply.status [0x4F, 0x4B]) = some r → replySafe r = true) →
      ∃ op1 c1, deliver { fn := some .kv_status_cb, privdata := some 1,
                          glob_redis_ctx := some false,
                          reply := some (.status [0x4F, 0x4B]) } twoKeyOpErrored =
          finalize_op op1 ∧
        op1.op_datum = .redis c1 ∧ c1.replies_cnt = 1 + 1 ∧
        c1.async_ops_cnt = 2 ∧
        c1.had_error = (true || replyBad false (some (.status [0x4F, 0x4B]))
          (expectedTags .kv_status_cb))) :=
  redis_reply_check_counts_and_marks .kv_status_cb false (some (.status [0x4F, 0x4B])) 1
    twoKeyOpErrored _ rfl

end S3Kvs

namespace S3Kvs

/-! ## The encoding of a border (C22) -/

/-- C22: for every byte string `s` (of length slen) and flags `incl`, `z`,
`prepare_border` returns a buffer of length slen + 1 + (1 if z else 0) whose
byte 0 is `[` when `incl` is true and `(` otherwise, whose bytes 1..slen equal
`s`, and which has a further byte, 0xFF, exactly when `z` is true; all of it is
sent.  So the borders of a point range are `[` followed by the key (no
terminator) and `(` followed by the key and 0xFF. -/
theorem prepare_border_encoding (s : Bytes) (incl z : Bool) :
    (prepare_border s s.length incl z).len = s.length + 1 + (if z then 1 else 0) ∧
      (prepare_border s s.length incl z).buf.length = (prepare_border s s.length incl z).len ∧
      (prepare_border s s.length incl z).buf[0]? = some (if incl then 0x5B else 0x28) ∧
      (∀ j, j < s.length → (prepare_border s s.length incl z).buf[j + 1]? = s[j]?) ∧
      (prepare_border s s.length incl z).buf[s.length + 1]? =
        (if z then some 0xFF else none) ∧
      (prepare_border s s.length incl z).sent = (prepare_border s s.length incl z).buf ∧
      (prepare_border s s.length true false).sent = 0x5B :: s ∧
      (prepare_border s s.length false true).sent = 0x28 :: (s ++ [0xFF]) := by
  have hbuf : (prepare_border s s.length incl z).buf =
      (if incl then 0x5B else 0x28) :: (s ++ (if z then [0xFF] else [])) := by
    simp [prepare_border]
  have hlen : (prepare_border s s.length incl z).len = s.length + 1 + (if z then 1 else 0) := rfl
  have hbl : (prepare_border s s.length incl z).buf.length =
      (prepare_border s s.length incl z).len := by
    rw [hbuf, hlen]
    cases z <;> simp
  refine ⟨hlen, hbl, by rw [hbuf]; simp, fun j hj => ?_, ?_, ?_, border_min_sent s,
    border_max_sent s⟩
  · rw [hbuf, List.getElem?_cons_succ, List.getElem?_append_left hj]
  · rw [hbuf, List.getElem?_cons_succ, List.getElem?_append_right (Nat.le_refl _)]
    cases z <;> simp
  · rw [redis_key.sent, ← hbl, List.take_length]

/-! ## Writes and deletes of a key that is a prefix of another key (C24) -/

/-- C24 at the failing input: the set holds the member of key "ab" with value
"v", and `kv_read("ab")` returns code 0 and "v".  `kv_write("a", "x")` removes
that member (the set then holds the member of "a" only), and so does
`kv_del("a")` (the set is then empty); in both cases `kv_read("ab")` then
returns `-ENOENT` and no value. -/
theorem write_or_del_of_prefix_key_removes_longer_key :
    runOp kv_read [[0x61, 0x62, 0, 0x76, 0]] (launch [keySlot [0x61, 0x62]]) =
        some ([[0x61, 0x62, 0, 0x76, 0]],
          finished [{ key := some [0x61, 0x62], val := some [0x76], rc := 0 }] 0) ∧
      runOp kv_write [[0x61, 0x62, 0, 0x76, 0]] (launch [pairSlot [0x61] [0x78]]) =
        some ([[0x61, 0, 0x78, 0]],
          finished [{ key := some [0x61], val := some [0x78], rc := 0 }] 0) ∧
      runOp kv_read [[0x61, 0, 0x78, 0]] (launch [keySlot [0x61, 0x62]]) =
        some ([[0x61, 0, 0x78, 0]],
          finished [{ key := some [0x61, 0x62], val := none, rc := -ENOENT }] (-ENOENT)) ∧
      runOp kv_del [[0x61, 0x62, 0, 0x76, 0]] (launch [keySlot [0x61]]) =
        some ([], finished [{ key := some [0x61], val := none, rc := 0 }] 0) ∧
      runOp kv_read [] (launch [keySlot [0x61, 0x62]]) =
        some ([], finished [{ key := some [0x61, 0x62], val := none, rc := -ENOENT }]
          (-ENOENT)) := by
  decide

/-! ## The member encoding embeds the order of keys (C25) -/

/-- C25: for all keys `k1`, `k2` without a `0x00` byte that differ and all
values `v1`, `v2`, the member built by `prepare_rkey` for (`k1`, `v1`) is
smaller than the member built for (`k2`, `v2`) in byte-wise lexicographic
order if and only if `k1` is smaller than `k2`; proper prefixes included. -/
theorem prepare_rkey_order_embedding (k1 k2 v1 v2 : Bytes) (h1 : 0 ∉ k1) (h2 : 0 ∉ k2)
    (hne : k1 ≠ k2) :
    lexLt (prepare_rkey k1 k1.length v1 v1.length).sent
        (prepare_rkey k2 k2.length v2 v2.length).sent = true ↔
      lexLt k1 k2 = true := by
  have e1 : (prepare_rkey k1 k1.length v1 v1.length).sent = k1 ++ 0 :: (v1 ++ [0]) :=
    memberOf_eq k1 v1
  have e2 : (prepare_rkey k2 k2.length v2 v2.length).sent = k2 ++ 0 :: (v2 ++ [0]) :=
    memberOf_eq k2 v2
  rw [e1, e2, lexLt_embed k1 k2 _ _ h1 h2 hne]

/-- Witness of C25: key "a" with value "z" against key "ab" with the empty
value: "a" is a proper prefix of "ab", and "a\\0z\\0" is below "ab\\0\\0". -/
theorem prepare_rkey_order_embedding_witness :
    (lexLt (prepare_rkey [0x61] ([0x61] : Bytes).length [0x7A] ([0x7A] : Bytes).length).sent
        (prepare_rkey [0x61, 0x62] ([0x61, 0x62] : Bytes).length [] ([] : Bytes).length).sent =
        true ↔
      lexLt [0x61] [0x61, 0x62] = true) ∧
    lexLt [0x61, 0, 0x7A, 0] [0x61, 0x62, 0, 0] = true :=
  ⟨prepare_rkey_order_embedding [0x61] [0x61, 0x62] [0x7A] [] (by decide) (by decide)
    (by decide), by decide⟩

/-! ## The value pointer of a written member (C28) -/

theorem finalize_op_isSome (op : m0_clovis_op) (c : s3_redis_context_obj)
    (hc : op.op_datum = .redis c) : (finalize_op op).isSome = true := by
  obtain ⟨op2, h2, _⟩ := finalize_op_keeps_slots op c hc
  rw [h2]
  rfl

/-- C28: for every key `k` without `0x00` byte and every value `v` (the empty
one included), `parse_val` on the buffer built by `prepare_rkey` with its
length returns the offset |k| + 1, not null; in general `parse_val` returns
null exactly when `strlen(kv) + 1 >= kv_size` and otherwise the offset
`strlen(kv) + 1`.  So `kv_read_cb` and `kv_next_cb`, given the member written
by `kv_write` for (`k`, `v`), find its value and return. -/
theorem parse_val_of_written_member (k v : Bytes) (hk : 0 ∉ k) :
    parse_val (prepare_rkey k k.length v v.length).buf (prepare_rkey k k.length v v.length).len =
        some (k.length + 1) ∧
      (∀ (kv : Bytes) (kv_size : Nat),
        (parse_val kv kv_size = none ↔ strlen kv + 1 ≥ kv_size) ∧
        (strlen kv + 1 < kv_size → parse_val kv kv_size = some (strlen kv + 1))) ∧
      (∀ (kvs : List KvSlot) (n : Int) (skip : Bytes) (i : Nat),
        (kv_read_cb (some false) (some (.array [.str (memberOf k v)])) (some i)
          (inFlight kvs n skip)).isSome = true ∧
        (kv_next_cb (some false) (some (.array [.str (memberOf k v)])) (some i)
          (inFlight kvs n skip)).isSome = true) := by
  have hbuf : (prepare_rkey k k.length v v.length).buf = memberOf k v := by
    rw [memberOf_eq]
    simp [prepare_rkey]
  have hlen : (prepare_rkey k k.length v v.length).len = (memberOf k v).length := by
    rw [memberOf_eq]
    simp [prepare_rkey]
    omega
  have hsafe : ∀ r, some (RedisReply.array [.str (memberOf k v)]) = some r →
      replySafe r = true := by
    intro r hr
    cases hr
    simp [replySafe, strSafe, memberOk_memberOf k v hk]
  refine ⟨by rw [hbuf, hlen]; exact parse_val_memberOf k v hk, fun kv kv_size => ⟨?_, ?_⟩,
    fun kvs n skip i => ⟨?_, ?_⟩⟩
  · simp only [parse_val]
    split <;> simp <;> omega
  · intro h
    simp [parse_val, h]
  · obtain ⟨op1, h1, c1, hd, _⟩ := kv_read_cb_checked false _ i (inFlight kvs n skip) _ rfl hsafe
    rw [h1]
    exact finalize_op_isSome op1 c1 hd
  · obtain ⟨op1, h1, c1, hd, _⟩ := kv_next_cb_checked false _ i (inFlight kvs n skip) _ rfl hsafe
    rw [h1]
    exact finalize_op_isSome op1 c1 hd

/-- Witness of C28: key "k" with the empty value: the member is "k\\0\\0" of
length 3 and `parse_val` returns offset 2. -/
theorem parse_val_of_written_member_witness :
    (parse_val (prepare_rkey [0x6B] ([0x6B] : Bytes).length [] ([] : Bytes).length).buf
        (prepare_rkey [0x6B] ([0x6B] : Bytes).length [] ([] : Bytes).length).len =
        some (([0x6B] : Bytes).length + 1) ∧
      (∀ (kv : Bytes) (kv_size : Nat),
        (parse_val kv kv_size = none ↔ strlen kv + 1 ≥ kv_size) ∧
        (strlen kv + 1 < kv_size → parse_val kv kv_size = some (strlen kv + 1))) ∧
      (∀ (kvs : List KvSlot) (n : Int) (skip : Bytes) (i : Nat),
        (kv_read_cb (some false) (some (.array [.str (memberOf [0x6B] [])])) (some i)
          (inFlight kvs n skip)).isSome = true ∧
        (kv_next_cb (some false) (some (.array [.str (memberOf [0x6B] [])])) (some i)
          (inFlight kvs n skip)).isSome = true)) ∧
    (prepare_rkey [0x6B] 1 [] 0).buf = [0x6B, 0, 0] ∧
    parse_val [0x6B, 0, 0] 3 = some 2 ∧ parse_val [0x6B, 0] 2 = none :=
  ⟨parse_val_of_written_member [0x6B] [] (by decide), by decide, by decide, by decide⟩

end S3Kvs

namespace S3Put

/-! ## Forwarding of chunk details (C23) -/

theorem drain_chunk_details_spec : ∀ (ds : List S3ChunkDetail) (a : S3PutMultiObjectAction),
    drain_chunk_details ds a =
      { a with chunk_details := [],
               auth_in_progress := a.auth_in_progress || !ds.isEmpty,
               trace := a.trace ++ ds.map forwardDetail }
  | [], a => by simp [drain_chunk_details]
  | d :: ds, a => by
    rw [drain_chunk_details, drain_chunk_details_spec ds]
    by_cases hd : d.size = 0
    · simp [hd, forwardDetail, S3PutMultiObjectAction.emit]
    · simp [hd, forwardDetail, S3PutMultiObjectAction.emit]

/-- C23: for every request whose writer exists, `write_object` returns and:
for a chunked request with ready chunk details d_1..d_m it forwards all of them
to the auth client in queue order (the terminal checksum call for size 0, the
mid-stream call otherwise) before it issues the write, leaves the queue empty,
has `auth_in_progress` set if and only if m >= 1 or it was set before, and
sets `clovis_write_in_progress`; for an unchunked request it only issues the
write and leaves the queue and both flags as they were. -/
theorem write_object_forwards_chunk_details (a : S3PutMultiObjectAction) (w : S3ClovisWriter)
    (hw : a.clovis_writer = some w) :
    ∃ a1, write_object a = some a1 ∧
      (a.is_chunked = true →
        a1.trace = a.trace ++ a.chunk_details.map forwardDetail ++
          writeCall a.buffer_is_freezed ∧
        a1.chunk_details = [] ∧
        (a1.auth_in_progress = true ↔ (a.chunk_details ≠ [] ∨ a.auth_in_progress = true)) ∧
        a1.clovis_write_in_progress = true) ∧
      (a.is_chunked = false →
        a1.trace = a.trace ++ writeCall a.buffer_is_freezed ∧
        a1.chunk_details = a.chunk_details ∧
        a1.auth_in_progress = a.auth_in_progress ∧
        a1.clovis_write_in_progress = a.clovis_write_in_progress) := by
  cases hch : a.is_chunked with
  | true =>
    cases hfr : a.buffer_is_freezed with
    | true =>
      refine ⟨_, by simp [write_object, hch, drain_chunk_details_spec, hw, hfr]; rfl, ?_, ?_⟩
      · intro _
        refine ⟨by simp [S3PutMultiObjectAction.emit, writeCall], rfl, ?_, rfl⟩
        cases a.auth_in_progress <;> cases a.chunk_details <;> simp [S3PutMultiObjectAction.emit]
      · intro h; cases h
    | false =>
      refine ⟨_, by simp [write_object, hch, drain_chunk_details_spec, hw, hfr]; rfl, ?_, ?_⟩
      · intro _
        refine ⟨by simp [S3PutMultiObjectAction.emit, writeCall], rfl, ?_, rfl⟩
        cases a.auth_in_progress <;> cases a.chunk_details <;> simp [S3PutMultiObjectAction.emit]
      · intro h; cases h
  | false =>
    cases hfr : a.buffer_is_freezed with
    | true =>
      refine ⟨_, by simp [write_object, hch, hw, hfr]; rfl, fun h => (by cases h), fun _ => ?_⟩
      exact ⟨by simp [S3PutMultiObjectAction.emit, writeCall], rfl, rfl, rfl⟩
    | false =>
      refine ⟨_, by simp [write_object, hch, hw, hfr]; rfl, fun h => (by cases h), fun _ => ?_⟩
      exact ⟨by simp [S3PutMultiObjectAction.emit, writeCall], rfl, rfl, rfl⟩

/-- Witness of C23: the chunked upload with chunk details of 8 and 0 bytes:
the mid-stream call, then the terminal call, then the write. -/
theorem write_object_forwards_chunk_details_witness :
    (∃ a1, write_object chunkedUpload = some a1 ∧
      (chunkedUpload.is_chunked = true →
        a1.trace = chunkedUpload.trace ++ chunkedUpload.chunk_details.map forwardDetail ++
          writeCall chunkedUpload.buffer_is_freezed ∧
        a1.chunk_details = [] ∧
        (a1.auth_in_progress = true ↔
          (chunkedUpload.chunk_details ≠ [] ∨ chunkedUpload.auth_in_progress = true)) ∧
        a1.clovis_write_in_progress = true) ∧
      (chunkedUpload.is_chunked = false →
        a1.trace = chunkedUpload.trace ++ writeCall chunkedUpload.buffer_is_freezed ∧
        a1.chunk_details = chunkedUpload.chunk_details ∧
        a1.auth_in_progress = chunkedUpload.auth_in_progress ∧
        a1.clovis_write_in_progress = chunkedUpload.clovis_write_in_progress)) ∧
    (write_object chunkedUpload).map (fun a => a.trace) =
      some [.add_checksum_for_chunk "sig1" "hash1", .add_last_checksum_for_chunk "sig2" "hash2",
            .write_content .write_object_successful .write_object_failed] :=
  ⟨write_object_forwards_chunk_details chunkedUpload { offset := 8, state := .idle } rfl,
    by decide⟩

/-! ## A part of declared length zero (C26) -/

/-- C26 at the failing input: an unchunked part 1 of declared length 0, from
the dispatch of `initiate_data_streaming` (the `next()` of
`compute_part_offset`) to the end of the request.  `initiate_data_streaming`
calls `save_metadata` itself; when that save completes, `next()` dispatches the
task after `initiate_data_streaming`, which is `save_metadata` again.  The save
is issued twice and the classifier is entered once, whether the saves succeed
(response 200) or fail (response `InternalError`). -/
theorem zero_length_part_saves_twice :
    (react true 40 [.next] zeroLengthPart).map
        (fun p => (p.task_iter, countSaves p.action.trace, countClassifier p.action.trace,
          responses p.action.trace)) =
      some (6, 2, 1, [.send_response_200]) ∧
    (react false 40 [.next] zeroLengthPart).map
        (fun p => (p.task_iter, countSaves p.action.trace, countClassifier p.action.trace,
          responses p.action.trace)) =
      some (6, 2, 1, [.send_response_error .InternalError]) ∧
    zeroLengthPart.tasks[zeroLengthPart.task_iter + 1]? = some .initiate_data_streaming ∧
    (initiate_data_streaming zeroLengthPart.action).map (fun a => a.trace) =
      some [.request_resume, .part_metadata_save .next .next] := by
  decide

/-! ## Collaborators read by the classifier (C27) -/

/-- C27 at its failing inputs: the classifier reads a collaborator that does
not exist (a null pointer) in three reachable states.  (1) The bucket load
fails and leaves the state `failed`: no writer exists, and
`fetch_bucket_info_failed` reaches `clovis_writer->get_state()`.  (2) The
multipart-metadata load fails and leaves the state `failed`: the same.  (3) On
part 1 of a chunked upload, chunk authentication fails during the write and
the write succeeds: no part metadata exists, and `write_object_successful`
reaches `part_metadata->get_state()`.  With the state `missing` the first two
handlers do respond. -/
theorem classifier_reads_absent_collaborator :
    (bucketLoadFailed .failed).clovis_writer = none ∧
      fetch_bucket_info_failed (bucketLoadFailed .failed) = none ∧
      (multipartLoadFailed .failed).clovis_writer = none ∧
      fetch_multipart_failed (multipartLoadFailed .failed) = none ∧
      ((write_object uploadE4).bind chunk_auth_failed).map
          (fun a => (a.part_metadata, a.clovis_writer.isSome)) = some (none, true) ∧
      ((write_object uploadE4).bind chunk_auth_failed).bind (final_write_returns true) = none ∧
      (fetch_bucket_info_failed (bucketLoadFailed .missing)).map (fun a => responses a.trace) =
        some [.send_response_error .NoSuchBucket] ∧
      (fetch_multipart_failed (multipartLoadFailed .missing)).map (fun a => responses a.trace) =
        some [.send_response_error .NoSuchUpload] := by
  decide

end S3Put
